import Mathlib

/-!
# GIGA+ directory partitioning index of IndexFS, its server and its client

A shallow embedding of `src/common/giga_index.c` and `src/common/giga_index.h`, of the
request handling and the split of `src/server/metadata_server.cc`, of the retry
loops, the path resolution and the directory listing of
`src/client/metadata_client.cc`, of the reference counts of `src/common/dircache.cc`,
of the directory scan and the inode allocation of `src/backends/metadb_fs.c`, and of
`SleepForMicroseconds` of `src/lib/leveldb/util/env_hdfs.cc`.

Modelling conventions.

* `bitmap_t` (`unsigned char`) values are natural numbers; a bitmap is the list of
  the `MAX_BMAP_LEN` bytes of `giga_mapping_t.bitmap`.  Reading a byte outside the
  list yields `0` (`List.getD`); in C such a read is undefined, and every theorem
  that depends on a read states the bound that keeps it inside the array.
* `index_t` (`int`) values are natural numbers: every function of the file is only
  called on non-negative indices (`get_child_index` asserts it).
* A function that can stop in `assert`, `exit` or in undefined behaviour returns an
  `Option`; `none` stands for "the C function does not return a value".
* `(int)floor(log2((double)index))` is `Nat.log2 index`: for a positive 32-bit
  integer the double computation is exact enough for the floor to be the integer
  logarithm.
* `MurmurHash3_x64_128` is not part of the sources; it is a parameter `murmur`
  returning the bytes it writes.
* Names and paths are lists of bytes.  The clock `env_->NowMicros()` is an argument
  `now`; `uint64_t` arithmetic is reduced modulo `2^64`, and a value passed as an
  `int` is converted modulo `2^32` (`to_signed_int`).
* The key-value store and the RPC transport are parameters: `create` for
  `mdb_->Create`, and `rpc n server` for the reply to the RPC issued to `server` after
  `n` earlier ones.  Waiting on a condition variable ends the modelled step.
* A loop without a bound in the code takes a fuel argument and ends with
  `out_of_fuel` when the fuel is used up; `std::string` positions are `size_t`
  values; a pointer is an address into a heap.
-/

namespace GigaIndex

/-! ## Constants of `giga_index.h` -/

def HASH_NUM_BYTES : Nat := 8

def MAX_RADIX : Nat := 8

def MIN_RADIX : Nat := 0

def MAX_GIGA_PARTITIONS : Nat := 1 <<< MAX_RADIX

def SPLIT_T_NO_BOUND : Nat := 1111

def SPLIT_T_NO_SPLITTING_EVER : Nat := 2222

def SPLIT_T_NUM_SERVERS_BOUND : Nat := 3333

def SPLIT_T_NEXT_HIGHEST_POW2 : Nat := 4444

def SPLIT_TYPE : Nat := SPLIT_T_NUM_SERVERS_BOUND

def MAX_BKTS_PER_SERVER : Int := 1

/-- The number of usable bits of one bitmap byte: `(int)(sizeof(bitmap_t)*8)-1`. -/
def BITS_PER_MAP : Nat := 1 * 8 - 1

def MAX_BMAP_LEN : Nat :=
  if (1 <<< MAX_RADIX) % BITS_PER_MAP = 0 then (1 <<< MAX_RADIX) / BITS_PER_MAP
  else (1 <<< MAX_RADIX) / BITS_PER_MAP + 1

/-- The header table `struct giga_mapping_t`. -/
structure giga_mapping_t where
  bitmap : List Nat
  id : Int
  curr_radix : Nat
  zeroth_server : Nat
  server_count : Nat
  deriving DecidableEq, Repr

/-! ## Index arithmetic -/

/-- Embeds `get_radix_from_index`. -/
def get_radix_from_index (index : Nat) : Nat :=
  if index = 0 then 0
  else if index = 1 then 1
  else Nat.log2 index + 1

/-- Embeds `get_child_index`: `index + (int)(1<<radix)`. -/
def get_child_index (index radix : Nat) : Nat :=
  index + (1 <<< radix)

/-- Embeds `get_parent_index`. -/
def get_parent_index (index : Nat) : Nat :=
  if index > 0 then index - (1 <<< Nat.log2 index) else 0

/-- Embeds `get_bit_status`: byte `index / BITS_PER_MAP`, bit `index % BITS_PER_MAP`. -/
def get_bit_status (bmap : List Nat) (index : Nat) : Nat :=
  let index_in_bmap := index / BITS_PER_MAP
  let bit_in_index := index % BITS_PER_MAP
  let mask := (1 <<< bit_in_index) % 256
  let bit_info := bmap.getD index_in_bmap 0
  let bit_info := bit_info &&& mask
  if bit_info ≠ 0 then 1 else 0

/-! ## Radix of a bitmap -/

/-- The first loop of `get_highest_index`: scanning `i = n-1, ..., 0`, the first `i`
with `bitmap[i] != 0`; `none` when the loop ends with `i = -1`. -/
def highest_nonzero (bitmap : List Nat) : Nat → Option Nat
  | 0 => none
  | i + 1 => if bitmap.getD i 0 ≠ 0 then some i else highest_nonzero bitmap i

/-- The second loop of `get_highest_index`: scanning `j = n-1, ..., 0`, the first `j`
with `(value & (1<<j)) != 0`; `-1` when there is none. -/
def highest_bit (value : Nat) : Nat → Int
  | 0 => -1
  | j + 1 => if value &&& ((1 <<< j) % 256) ≠ 0 then (j : Int) else highest_bit value j

/-- Embeds `get_highest_index`.  When every byte is zero the C code reads
`bitmap[-1]` (undefined); when `max_index < 0` the assertion fails. -/
def get_highest_index (bitmap : List Nat) : Option Nat :=
  match highest_nonzero bitmap MAX_BMAP_LEN with
  | none => none
  | some index_in_bmap =>
    let bit_in_index := highest_bit (bitmap.getD index_in_bmap 0) BITS_PER_MAP
    let max_index : Int := (index_in_bmap : Int) * (BITS_PER_MAP : Int) + bit_in_index
    if 0 ≤ max_index then some max_index.toNat else none

/-- Embeds `get_radix_from_bmap`. -/
def get_radix_from_bmap (bitmap : List Nat) : Option Nat :=
  (get_highest_index bitmap).map get_radix_from_index

/-! ## Hashing -/

/-- Embeds `reverse_byte`; the argument is converted to `uint8_t`, the arithmetic is
on `unsigned long long`, the result is converted to `uint8_t`. -/
def reverse_byte (b : Nat) : Nat :=
  (((((((b % 256) * 0x80200802) % 2 ^ 64) &&& 0x0884422110) * 0x0101010101) % 2 ^ 64) >>> 32) % 256

/-- Embeds `compute_index`; `sizeof(bin_hash[0])*8` is `8`.  The assertion
`radix < MAX_RADIX` is the guard. -/
def compute_index (bin_hash : List Nat) (radix : Nat) : Option Nat :=
  if radix < MAX_RADIX then
    let num_useful_bytes := radix / 8
    let residual_useful_bits := radix % 8
    let index := (List.range num_useful_bytes).foldl
      (fun index i => index + (reverse_byte (bin_hash.getD i 0) <<< (i * 8))) 0
    let i := num_useful_bytes
    if residual_useful_bits > 0 then
      let curr_byte := reverse_byte (bin_hash.getD i 0)
      let curr_mask := (1 <<< residual_useful_bits) - 1
      let curr_value := curr_byte &&& curr_mask
      some (index + (curr_value <<< (i * 8)))
    else some index
  else none

/-- Embeds `giga_hash_name`: the first `HASH_NUM_BYTES` bytes of the 16-byte buffer
that `murmur` fills (the buffer is zero-initialised). -/
def giga_hash_name (murmur : List Nat → List Nat) (hash_key : List Nat) : List Nat :=
  (List.range HASH_NUM_BYTES).map (fun i => (murmur hash_key).getD i 0 % 256)

/-! ## Operations on a mapping -/

/-- Embeds `giga_init_mapping`, with the split type as a parameter.  `flag` is an
`int`.  The `SPLIT_T_NO_SPLITTING_EVER` branch writes `bitmap[i]` with `i`
uninitialised and the default branch calls `exit(1)`: both are `none`. -/
def giga_init_mapping_with (split_type : Nat) (flag : Int) (id : Int)
    (zeroth_server server_count : Nat) : Option giga_mapping_t :=
  let bitmap := List.replicate MAX_BMAP_LEN 0
  let server_count := if server_count > 0 then server_count else 1
  if flag = -1 then
    some { bitmap := bitmap.set 0 1, id := id, curr_radix := 1,
           zeroth_server := zeroth_server, server_count := server_count }
  else if split_type = SPLIT_T_NO_BOUND then
    some { bitmap := bitmap.set 0 1, id := id, curr_radix := 1,
           zeroth_server := zeroth_server, server_count := server_count }
  else if split_type = SPLIT_T_NO_SPLITTING_EVER then
    none
  else if split_type = SPLIT_T_NUM_SERVERS_BOUND then
    some { bitmap := bitmap.set 0 1, id := id, curr_radix := 1,
           zeroth_server := zeroth_server, server_count := server_count }
  else if split_type = SPLIT_T_NEXT_HIGHEST_POW2 then
    some { bitmap := bitmap.set 0 1, id := id, curr_radix := 1,
           zeroth_server := zeroth_server, server_count := server_count }
  else none

/-- Embeds `giga_init_mapping` as compiled: `switch(SPLIT_TYPE)`. -/
def giga_init_mapping (flag : Int) (id : Int) (zeroth_server server_count : Nat) :
    Option giga_mapping_t :=
  giga_init_mapping_with SPLIT_TYPE flag id zeroth_server server_count

/-- Embeds `giga_update_cache`: the byte-wise OR over `i < MAX_BMAP_LEN`, the
recomputed radix, and the larger server count. -/
def giga_update_cache (curr update : giga_mapping_t) : Option giga_mapping_t :=
  let bitmap := (List.range MAX_BMAP_LEN).map
    (fun i => curr.bitmap.getD i 0 ||| update.bitmap.getD i 0)
  match get_radix_from_bmap bitmap with
  | none => none
  | some radix =>
    some { curr with
      bitmap := bitmap
      curr_radix := radix
      server_count :=
        if update.server_count > curr.server_count then update.server_count
        else curr.server_count }

/-- Embeds `giga_update_mapping`.  A write outside the bitmap array is undefined in C
and is `none` here. -/
def giga_update_mapping (mapping : giga_mapping_t) (new_index : Nat) : Option giga_mapping_t :=
  let index_in_bmap := new_index / BITS_PER_MAP
  let bit_in_index := new_index % BITS_PER_MAP
  let mask := (1 <<< bit_in_index) % 256
  if index_in_bmap < mapping.bitmap.length then
    let bit_info := mapping.bitmap.getD index_in_bmap 0
    let bit_info := bit_info ||| mask
    let bitmap := mapping.bitmap.set index_in_bmap bit_info
    match get_radix_from_bmap bitmap with
    | none => none
    | some radix => some { mapping with bitmap := bitmap, curr_radix := radix }
  else none

/-- The `while (1)` loop of `giga_index_for_splitting` entered with counter `i`.
The first argument is `MAX_RADIX - i`, the number of iterations that
`assert (i < MAX_RADIX)` still admits; when it is `0` the assertion fails. -/
def splitting_loop (bitmap : List Nat) (index : Nat) : Nat → Nat → Option Nat
  | 0, _ => none
  | n + 1, i =>
    let new_index := get_child_index index i
    if get_bit_status bitmap new_index = 0 then some new_index
    else splitting_loop bitmap index n (i + 1)

/-- Embeds `giga_index_for_splitting`: the assertion that the bit of `index` is set,
the loop from `i = get_radix_from_index(index)`, the assertion
`new_index != index`. -/
def giga_index_for_splitting (mapping : giga_mapping_t) (index : Nat) : Option Nat :=
  if get_bit_status mapping.bitmap index = 1 then
    let i := get_radix_from_index index
    match splitting_loop mapping.bitmap index (MAX_RADIX - i) i with
    | none => none
    | some new_index => if new_index ≠ index then some new_index else none
  else none

/-- The `while (get_bit_status(...) == 0)` loop of `giga_get_index_for_file`, with
`fuel` bounding the number of tests of the loop condition. -/
def parent_walk (bitmap : List Nat) : Nat → Nat → Option Nat
  | 0, _ => none
  | fuel + 1, index =>
    if get_bit_status bitmap index = 0 then parent_walk bitmap fuel (get_parent_index index)
    else some index

/-- The body of `giga_get_index_for_file` after the name has been hashed.  The final
`assert(get_bit_status(...) == 1)` holds whenever the loop is left, since the status
is `0` or `1`. -/
def giga_get_index_for_hash (fuel : Nat) (mapping : giga_mapping_t) (hash : List Nat) :
    Option Nat :=
  match get_radix_from_bmap mapping.bitmap with
  | none => none
  | some curr_radix =>
    match compute_index hash curr_radix with
    | none => none
    | some index => parent_walk mapping.bitmap fuel index

/-- Embeds `giga_get_index_for_file`. -/
def giga_get_index_for_file (murmur : List Nat → List Nat) (fuel : Nat)
    (mapping : giga_mapping_t) (filename : List Nat) : Option Nat :=
  giga_get_index_for_hash fuel mapping (giga_hash_name murmur filename)

/-- Embeds `giga_file_migration_status_with_hash`. -/
def giga_file_migration_status_with_hash (hash : List Nat) (new_index : Nat) : Option Nat :=
  let radix := get_radix_from_index new_index
  match compute_index hash radix with
  | none => none
  | some index => if index = new_index then some 1 else some 0

/-- The conversion `(signed int)` of an `unsigned int`. -/
def to_signed_int (u : Nat) : Int :=
  if u % 2 ^ 32 < 2 ^ 31 then ((u % 2 ^ 32 : Nat) : Int) else ((u % 2 ^ 32 : Nat) : Int) - 2 ^ 32

/-- Embeds `giga_is_splittable`, with the split type as a parameter;
`SPLIT_T_NEXT_HIGHEST_POW2` calls `abort()`. -/
def giga_is_splittable_with (split_type : Nat) (mapping : giga_mapping_t) (old_index : Nat) :
    Option Nat :=
  if split_type = SPLIT_T_NO_BOUND then some 1
  else if split_type = SPLIT_T_NO_SPLITTING_EVER then some 0
  else if split_type = SPLIT_T_NUM_SERVERS_BOUND then
    match giga_index_for_splitting mapping old_index with
    | none => none
    | some new_index =>
      if (new_index : Int) < MAX_BKTS_PER_SERVER * to_signed_int mapping.server_count then some 1
      else some 0
  else if split_type = SPLIT_T_NEXT_HIGHEST_POW2 then none
  else some 1

/-- Embeds `giga_is_splittable` as compiled. -/
def giga_is_splittable (mapping : giga_mapping_t) (old_index : Nat) : Option Nat :=
  giga_is_splittable_with SPLIT_TYPE mapping old_index

/-! ## Servers of partitions (`giga_index.c`)

Fields of type `unsigned int` (`zeroth_server`, `server_count`, `curr_radix`) are
naturals below `2^32`. -/

/-- Embeds `giga_get_server_for_index`:
`(index + mapping->zeroth_server) % mapping->server_count`, computed in `unsigned int`
and returned as `index_t`.  A zero `server_count` divides by zero. -/
def giga_get_server_for_index (mapping : giga_mapping_t) (index : Nat) : Option Int :=
  if mapping.server_count = 0 then none
  else some (to_signed_int (((index + mapping.zeroth_server) % 2 ^ 32) % mapping.server_count))

/-- Embeds `giga_get_server_for_file`. -/
def giga_get_server_for_file (murmur : List Nat → List Nat) (fuel : Nat)
    (mapping : giga_mapping_t) (filename : List Nat) : Option Int :=
  match giga_get_index_for_file murmur fuel mapping filename with
  | none => none
  | some index => giga_get_server_for_index mapping index

/-! ## Wire structures and replies

`thrift/indexfs_types.h` is not part of the sources. -/

/-- Modelled from the spec: the thrift struct `GigaBitmap`, whose declaration is
missing: `id | bitmap bytes | curr_radix | zeroth_server | num_servers`, each field
wide enough for the `giga_mapping_t` field copied into it. -/
structure GigaBitmap where
  id : Int
  bitmap : List Nat
  curr_radix : Nat
  zeroth_server : Nat
  num_servers : Nat
  deriving DecidableEq, Repr

/-- Embeds `CopyGigaMap` (`metadata_server.cc`): the `sizeof(mapping->bitmap)` bytes of
the bitmap and the four scalar fields. -/
def CopyGigaMap (mapping : giga_mapping_t) : GigaBitmap :=
  { id := mapping.id
    bitmap := (List.range MAX_BMAP_LEN).map (fun i => mapping.bitmap.getD i 0)
    curr_radix := mapping.curr_radix
    zeroth_server := mapping.zeroth_server
    num_servers := mapping.server_count }

/-- Embeds `ToLegacyMapping` (`bitmap.h`): `memcpy` of `sizeof(legacy.bitmap)` bytes. -/
def ToLegacyMapping (mapping : GigaBitmap) : giga_mapping_t :=
  { id := mapping.id
    server_count := mapping.num_servers
    zeroth_server := mapping.zeroth_server
    curr_radix := mapping.curr_radix
    bitmap := (List.range MAX_BMAP_LEN).map (fun i => mapping.bitmap.getD i 0) }

/-- The exceptions of the wire protocol that the handlers throw, and the normal
return `ok`. -/
inductive Reply where
  | ok
  | ServerRedirection (redirect : GigaBitmap)
  | FileNotFound
  | NotDirectory
  | FileAlreadyExist
  | IOError
  | FileNotInSameServer
  deriving DecidableEq, Repr

/-- The codes of `leveldb::Status` that the client returns; messages are left out. -/
inductive Status where
  | OK
  | NotFound
  | Corruption
  | IOError
  | InvalidArgument
  deriving DecidableEq, Repr

/-! ## Client (`metadata_client.cc`) -/

def kNumRedirect : Nat := 10

/-- Embeds `MetadataClient::SelectServer`; `srv_num` is `cfg_->GetSrvNum()`.  The two
`DLOG_ASSERT`s stop the call like the assertions of `giga_index.c`. -/
def SelectServer (srv_num : Int) (murmur : List Nat → List Nat) (fuel : Nat)
    (mapping : giga_mapping_t) (entry : List Nat) : Option Int :=
  match giga_get_index_for_file murmur fuel mapping entry with
  | none => none
  | some index =>
    match giga_get_server_for_index mapping index with
    | none => none
    | some server => if 0 ≤ server ∧ server < srv_num then some server else none

/-- Embeds `MetadataClient::UpdateBitmap`. -/
def UpdateBitmap (mapping : giga_mapping_t) (bitmap : GigaBitmap) : Option giga_mapping_t :=
  giga_update_cache mapping (ToLegacyMapping bitmap)

/-- How a client call ends: it returns a status, lets an exception that it does not
catch escape, stops in an assertion, or is still retrying when the fuel is used up. -/
inductive Outcome where
  | returned (s : Status)
  | thrown (e : Reply)
  | aborted
  | out_of_fuel
  deriving DecidableEq, Repr

/-- The end of a client call: the outcome, the number of RPCs issued, and the
directory mapping held by the handle. -/
structure Run where
  outcome : Outcome
  attempts : Nat
  mapping : giga_mapping_t
  deriving DecidableEq, Repr

/-- The loop `while (srvs.size() < kNumRedirect)` of `RPC_Getattr`, `RPC_Mknod`,
`RPC_Mkdir` and `while (num_retries < kNumRedirect)` of `Lookup`: select the server,
count the attempt, issue the RPC; on `ServerRedirection` merge the bitmap and
`continue`; on a caught exception or on success return.  `catches` is the table of
`catch` clauses of the function (and `Status::OK()` for `ok`); `rpc n server` is the
reply to the RPC issued after `n` earlier ones; the first numeric argument is
`kNumRedirect` minus the counter. -/
def redirect_loop (srv_num : Int) (murmur : List Nat → List Nat) (fuel : Nat)
    (catches : Reply → Option Status) (rpc : Nat → Int → Reply) (entry : List Nat) :
    Nat → Nat → giga_mapping_t → Run
  | 0, n, mapping => { outcome := .returned .Corruption, attempts := n, mapping := mapping }
  | k + 1, n, mapping =>
    match SelectServer srv_num murmur fuel mapping entry with
    | none => { outcome := .aborted, attempts := n, mapping := mapping }
    | some server =>
      match rpc n server with
      | .ServerRedirection redirect =>
        match UpdateBitmap mapping redirect with
        | none => { outcome := .aborted, attempts := n + 1, mapping := mapping }
        | some mapping' => redirect_loop srv_num murmur fuel catches rpc entry k (n + 1) mapping'
      | reply =>
        match catches reply with
        | some s => { outcome := .returned s, attempts := n + 1, mapping := mapping }
        | none => { outcome := .thrown reply, attempts := n + 1, mapping := mapping }

/-- The `catch` clauses of `MetadataClient::Lookup`. -/
def Lookup_catches : Reply → Option Status
  | .ok => some .OK
  | .FileNotFound => some .NotFound
  | .NotDirectory => some .IOError
  | _ => none

/-- The `catch` clauses of `MetadataClient::RPC_Getattr`, and of `RPC_Chmod` and
`RPC_Remove`. -/
def RPC_Getattr_catches : Reply → Option Status
  | .ok => some .OK
  | .FileNotFound => some .NotFound
  | _ => none

/-- The `catch` clauses of `MetadataClient::RPC_Mknod` and `RPC_Mkdir`, and of
`RPC_Create`. -/
def RPC_Mknod_catches : Reply → Option Status
  | .ok => some .OK
  | .FileNotFound => some .NotFound
  | .FileAlreadyExist => some .IOError
  | _ => none

/-- The `catch` clauses of `MetadataClient::RPC_Open`. -/
def RPC_Open_catches : Reply → Option Status
  | .ok => some .OK
  | .FileNotFound => some .NotFound
  | .IOError => some .IOError
  | _ => none

/-- Embeds `MetadataClient::Lookup`; `handle` is the mapping of the handle that
`FetchDir` returned, `none` when the handle is empty.  The result is the outcome, the
number of `Access` RPCs issued and the mapping left in the handle. -/
def Lookup (srv_num : Int) (murmur : List Nat → List Nat) (fuel : Nat)
    (rpc : Nat → Int → Reply) (handle : Option giga_mapping_t) (entry : List Nat) :
    Outcome × Nat × Option giga_mapping_t :=
  match handle with
  | none => (.returned .Corruption, 0, none)
  | some mapping =>
    let run := redirect_loop srv_num murmur fuel Lookup_catches rpc entry kNumRedirect 0 mapping
    (run.outcome, run.attempts, some run.mapping)

/-- Embeds `MetadataClient::RPC_Getattr`. -/
def RPC_Getattr (srv_num : Int) (murmur : List Nat → List Nat) (fuel : Nat)
    (rpc : Nat → Int → Reply) (mapping : giga_mapping_t) (entry : List Nat) : Run :=
  redirect_loop srv_num murmur fuel RPC_Getattr_catches rpc entry kNumRedirect 0 mapping

/-- Embeds `MetadataClient::RPC_Mknod`. -/
def RPC_Mknod (srv_num : Int) (murmur : List Nat → List Nat) (fuel : Nat)
    (rpc : Nat → Int → Reply) (mapping : giga_mapping_t) (entry : List Nat) : Run :=
  redirect_loop srv_num murmur fuel RPC_Mknod_catches rpc entry kNumRedirect 0 mapping

/-- Embeds `MetadataClient::RPC_Mkdir`. -/
def RPC_Mkdir (srv_num : Int) (murmur : List Nat → List Nat) (fuel : Nat)
    (rpc : Nat → Int → Reply) (mapping : giga_mapping_t) (entry : List Nat) : Run :=
  redirect_loop srv_num murmur fuel RPC_Mknod_catches rpc entry kNumRedirect 0 mapping

/-- The body shared by `RPC_Chmod` and `RPC_Remove`: select the server, issue the RPC,
and on `ServerRedirection` merge the bitmap and call the function again.  There is no
counter; `calls` bounds the depth of the recursion that the model follows. -/
def recursive_retry (srv_num : Int) (murmur : List Nat → List Nat) (fuel : Nat)
    (catches : Reply → Option Status) (rpc : Nat → Int → Reply) (entry : List Nat) :
    Nat → Nat → giga_mapping_t → Run
  | 0, n, mapping => { outcome := .out_of_fuel, attempts := n, mapping := mapping }
  | calls + 1, n, mapping =>
    match SelectServer srv_num murmur fuel mapping entry with
    | none => { outcome := .aborted, attempts := n, mapping := mapping }
    | some server =>
      match rpc n server with
      | .ServerRedirection redirect =>
        match UpdateBitmap mapping redirect with
        | none => { outcome := .aborted, attempts := n + 1, mapping := mapping }
        | some mapping' =>
          recursive_retry srv_num murmur fuel catches rpc entry calls (n + 1) mapping'
      | reply =>
        match catches reply with
        | some s => { outcome := .returned s, attempts := n + 1, mapping := mapping }
        | none => { outcome := .thrown reply, attempts := n + 1, mapping := mapping }

/-- Embeds `MetadataClient::RPC_Chmod`. -/
def RPC_Chmod (srv_num : Int) (murmur : List Nat → List Nat) (fuel : Nat)
    (rpc : Nat → Int → Reply) (entry : List Nat) (calls : Nat) (mapping : giga_mapping_t) :
    Run :=
  recursive_retry srv_num murmur fuel RPC_Getattr_catches rpc entry calls 0 mapping

/-- Embeds `MetadataClient::RPC_Remove`. -/
def RPC_Remove (srv_num : Int) (murmur : List Nat → List Nat) (fuel : Nat)
    (rpc : Nat → Int → Reply) (entry : List Nat) (calls : Nat) (mapping : giga_mapping_t) :
    Run :=
  recursive_retry srv_num murmur fuel RPC_Getattr_catches rpc entry calls 0 mapping

/-- The `while (true)` loop of `RPC_Create` and `RPC_Open`, entered with the server
to address: issue the RPC, and on `ServerRedirection` merge the bitmap, select the
server again and `continue`.  There is no counter; `iterations` bounds the number of
iterations that the model follows. -/
def while_true_retry (srv_num : Int) (murmur : List Nat → List Nat) (fuel : Nat)
    (catches : Reply → Option Status) (rpc : Nat → Int → Reply) (entry : List Nat) :
    Nat → Nat → Int → giga_mapping_t → Run
  | 0, n, _, mapping => { outcome := .out_of_fuel, attempts := n, mapping := mapping }
  | iterations + 1, n, server, mapping =>
    match rpc n server with
    | .ServerRedirection redirect =>
      match UpdateBitmap mapping redirect with
      | none => { outcome := .aborted, attempts := n + 1, mapping := mapping }
      | some mapping' =>
        match SelectServer srv_num murmur fuel mapping' entry with
        | none => { outcome := .aborted, attempts := n + 1, mapping := mapping' }
        | some server' =>
          while_true_retry srv_num murmur fuel catches rpc entry iterations (n + 1) server'
            mapping'
    | reply =>
      match catches reply with
      | some s => { outcome := .returned s, attempts := n + 1, mapping := mapping }
      | none => { outcome := .thrown reply, attempts := n + 1, mapping := mapping }

/-- Embeds `MetadataClient::RPC_Create`; `server` is the argument of the call. -/
def RPC_Create (srv_num : Int) (murmur : List Nat → List Nat) (fuel : Nat)
    (rpc : Nat → Int → Reply) (entry : List Nat) (iterations : Nat) (server : Int)
    (mapping : giga_mapping_t) : Run :=
  while_true_retry srv_num murmur fuel RPC_Mknod_catches rpc entry iterations 0 server mapping

/-- Embeds `MetadataClient::RPC_Open`. -/
def RPC_Open (srv_num : Int) (murmur : List Nat → List Nat) (fuel : Nat)
    (rpc : Nat → Int → Reply) (entry : List Nat) (iterations : Nat)
    (mapping : giga_mapping_t) : Run :=
  match SelectServer srv_num murmur fuel mapping entry with
  | none => { outcome := .aborted, attempts := 0, mapping := mapping }
  | some server =>
    while_true_retry srv_num murmur fuel RPC_Open_catches rpc entry iterations 0 server mapping

/-- Embeds `DirEntryValue` (`dentcache.h`), the client's cached entry; `TINumber` and
`expire_time` are `uint64_t`. -/
structure DirEntryValue where
  inode_id : Nat
  zeroth_server : Int
  expire_time : Nat
  deriving DecidableEq, Repr

/-- Modelled from the spec: the thrift struct `AccessInfo`, whose declaration is
missing: the inode, its zeroth server and the lease `granted_until`. -/
structure AccessInfo where
  id : Nat
  zeroth_server : Int
  lease_time : Nat
  deriving DecidableEq, Repr

/-- Embeds `MetadataClient::IsEntryExpired`; `now` is `env_->NowMicros()`; the
argument `depth` is not used by the function and is left out. -/
def IsEntryExpired (now : Nat) (value : DirEntryValue) : Bool :=
  decide (now > value.expire_time)

/-- The body of the loop of `MetadataClient::Internal_ResolvePath` for one path
component: `cached` is the result of `GetCacheEntry` (`none` when the status is not
OK), `lookup` the result of the `Lookup` call (its status when not OK), used only when
the call is made.  The result is the status returned when `Lookup` fails; otherwise
the entry followed, whether `Lookup` was called, and the entry put into the cache. -/
def resolve_component (now : Nat) (cached : Option DirEntryValue)
    (lookup : Except Status AccessInfo) :
    Except Status (DirEntryValue × Bool × Option DirEntryValue) :=
  let refresh : Except Status (DirEntryValue × Bool × Option DirEntryValue) :=
    match lookup with
    | .error s => .error s
    | .ok info =>
      let value : DirEntryValue :=
        { inode_id := info.id, zeroth_server := info.zeroth_server,
          expire_time := info.lease_time }
      .ok (value, true, some value)
  match cached with
  | none => refresh
  | some value => if IsEntryExpired now value then refresh else .ok (value, false, none)

/-! ## Server (`metadata_server.cc`) -/

def kTimeEpsilon : Nat := 10000

/-- Embeds `enum LeaseStatus` (`dentcache.h`). -/
inductive LeaseStatus where
  | LEASE_READ_STATUS
  | LEASE_WRITE_STATUS
  deriving DecidableEq, Repr

/-- Embeds `ServerDirEntryValue` (`dentcache.h`) without the two rate counters, which
no modelled branch reads; `inode_id` and `expire_time` are `uint64_t`. -/
structure ServerDirEntryValue where
  inode_id : Nat
  zeroth_server : Int
  expire_time : Nat
  status : LeaseStatus
  deriving DecidableEq, Repr

/-- The constructor `ServerDirEntryValue()`. -/
def ServerDirEntryValue.new : ServerDirEntryValue :=
  { inode_id := 0, zeroth_server := 0, expire_time := 0, status := .LEASE_READ_STATUS }

/-- Embeds `GetLeaseTime`: every alternative but `return 1000 * 1000` is commented
out. -/
def GetLeaseTime (_value : ServerDirEntryValue) (_depth_time : Int) : Nat :=
  1000 * 1000

/-- Modelled from the spec: the fields of the thrift struct `StatInfo` that
`Access` reads: the inode, its zeroth server, and whether the mode is a directory
(`S_ISDIR`). -/
structure StatInfo where
  id : Nat
  zeroth_server : Int
  is_dir : Bool
  deriving DecidableEq, Repr

/-- The end of `MetadataServer::Access` from the line `uint64_t now = env_->NowMicros()`
on: the lease computation on the entry `value`, in `uint64_t`.  The result is the
`lease_time` put into `_return` and the entry as left in the cache. -/
def Access_lease (value : ServerDirEntryValue) (now : Nat) (lease_time : Int) :
    Nat × ServerDirEntryValue :=
  let srv_lease_time :=
    if value.status = .LEASE_WRITE_STATUS then (value.expire_time + 2 ^ 64 - now) % 2 ^ 64
    else GetLeaseTime value lease_time
  let new_expire_time := (now + srv_lease_time) % 2 ^ 64
  let expire_time :=
    if new_expire_time > value.expire_time then new_expire_time else value.expire_time
  (new_expire_time, { value with expire_time := expire_time, status := .LEASE_READ_STATUS })

/-- How `MetadataServer::Access` ends once the request is addressed to this server:
blocked in `partition_cv.Wait()`, an exception, or the reply together with the entry
left in the cache. -/
inductive AccessResult where
  | waiting
  | FileNotFound
  | NotDirectory
  | done (info : AccessInfo) (value : ServerDirEntryValue)
  deriving DecidableEq, Repr

/-- Embeds `MetadataServer::Access` after `CheckAddressing`: `cached` is the entry
found by `dent_cache_->GetHandle` (`none` when the status is not OK), `stat` the
result of `mdb_->Getattr` (`none` when it is non-zero), `now_wait` the clock read in
the `while` loop and `now` the clock read after it. -/
def Access_entry (cached : Option ServerDirEntryValue) (stat : Option StatInfo)
    (now_wait now : Nat) (lease_time : Int) : AccessResult :=
  let finish (value : ServerDirEntryValue) : AccessResult :=
    let r := Access_lease value now lease_time
    .done { id := value.inode_id, zeroth_server := value.zeroth_server, lease_time := r.1 } r.2
  match cached with
  | some value =>
    if value.status = .LEASE_WRITE_STATUS ∧
        (now_wait + kTimeEpsilon) % 2 ^ 64 > value.expire_time then .waiting
    else if value.inode_id = 2 ^ 64 - 1 ∨ value.zeroth_server = -1 then
      match stat with
      | none => .FileNotFound
      | some stat => finish { value with inode_id := stat.id, zeroth_server := stat.zeroth_server }
    else finish value
  | none =>
    match stat with
    | none => .FileNotFound
    | some stat =>
      if ¬ stat.is_dir then .NotDirectory
      else finish { ServerDirEntryValue.new with
        inode_id := stat.id, zeroth_server := stat.zeroth_server }

/-- Embeds `Env::SleepForMicroseconds(int micros)` (`env_hdfs.cc`): the `timespec`
`(tv_sec, tv_nsec)` that it passes to `nanosleep`, `micros / 1000000` and
`(micros % 1000000) * 1000` with the truncating division of `int`. -/
def SleepForMicroseconds (micros : Int) : Int × Int :=
  (Int.tdiv micros 1000000, Int.tmod micros 1000000 * 1000)

/-- How `MetadataServer::WriteLockDirEntry` ends: blocked in `partition_cv.Wait()`
because the entry is in write status, or with the entry left in the cache and, when
it sleeps, the `timespec` `(tv_sec, tv_nsec)` that `SleepForMicroseconds` passes to
`nanosleep`. -/
inductive WriteLockResult where
  | waiting
  | locked (value : ServerDirEntryValue) (sleep : Option (Int × Int))
  deriving DecidableEq, Repr

/-- Embeds `MetadataServer::WriteLockDirEntry`; `cached` is the entry found by
`dent_cache_->GetHandle`, `now` is `env_->NowMicros()`; the arithmetic is in
`uint64_t`, and the `uint64_t micros` is converted to the `int` parameter of
`SleepForMicroseconds`. -/
def WriteLockDirEntry (cached : Option ServerDirEntryValue) (now : Nat) : WriteLockResult :=
  match cached with
  | some value =>
    if value.status = .LEASE_WRITE_STATUS then .waiting
    else if now < (value.expire_time + kTimeEpsilon) % 2 ^ 64 then
      let micros := ((value.expire_time + 2 ^ 64 - now) % 2 ^ 64 + kTimeEpsilon) % 2 ^ 64
      .locked { value with status := .LEASE_WRITE_STATUS }
        (some (SleepForMicroseconds (to_signed_int micros)))
    else .locked value none
  | none =>
    .locked { ServerDirEntryValue.new with
      status := .LEASE_WRITE_STATUS, inode_id := 2 ^ 64 - 1, zeroth_server := -1 } none

/-- Embeds `struct Directory` (`dircache.h`) without the reference count and the
mutex: `partition_size` is an `int`, `split_flag` a `short`. -/
structure Directory where
  partition_size : Int
  split_flag : Int
  deriving DecidableEq, Repr

/-- The state that one request on a directory reads and writes: the server's id
(`options_->GetSrvID()`), the split threshold (`options_->GetSplitThreshold()`), the
key-value store, the mapping and control block that `FetchDir` returns for the
directory (`none` when the mapping is missing), and the queue of the split thread. -/
structure ServerState (Store : Type) where
  srv_id : Int
  split_threshold : Int
  store : Store
  mapping : Option giga_mapping_t
  dir : Directory
  split_tasks : List (Nat × Nat)

/-- Embeds `MetadataServer::CheckAddressing`: the partition index, or `-1` when the
owning server is not this server. -/
def CheckAddressing (srv_id : Int) (murmur : List Nat → List Nat) (fuel : Nat)
    (mapping : giga_mapping_t) (path : List Nat) : Option Int :=
  match giga_get_index_for_file murmur fuel mapping path with
  | none => none
  | some index =>
    match giga_get_server_for_index mapping index with
    | none => none
    | some server => if server ≠ srv_id then some (-1) else some (index : Int)

/-- Embeds `MetadataServer::CheckSplit`: the incremented control block and the value
returned.  Incrementing `INT_MAX` is undefined; `giga_is_splittable` is evaluated only
when the first conjunct holds. -/
def CheckSplit (split_threshold : Int) (mapping : giga_mapping_t) (dir : Directory)
    (index : Nat) : Option (Directory × Bool) :=
  if dir.partition_size + 1 < 2 ^ 31 then
    let dir' := { dir with partition_size := dir.partition_size + 1 }
    if dir'.partition_size ≥ split_threshold then
      match giga_is_splittable mapping index with
      | none => none
      | some r => some (dir', decide (r = 1 ∧ dir'.split_flag = 0))
    else some (dir', false)
  else none

/-- Embeds `MetadataServer::ScheduleSplit`; `AddSplitTask` appends the task to the
queue of the split thread. -/
def ScheduleSplit {Store : Type} (st : ServerState Store) (mapping : giga_mapping_t)
    (dir_id : Nat) (partition : Nat) : Option (ServerState Store) :=
  match CheckSplit st.split_threshold mapping st.dir partition with
  | none => none
  | some (dir', true) =>
    some { st with dir := { dir' with split_flag := 1 },
                   split_tasks := st.split_tasks ++ [(dir_id, partition)] }
  | some (dir', false) => some { st with dir := dir' }

/-- Embeds `MetadataServer::Mknod`.  `create` is `mdb_->Create`, returning its code
and the store it leaves.  The result is the reply (an exception or `ok`) and the
state; `none` when an assertion stops the handler. -/
def Mknod {Store : Type} (create : Store → Nat → Int → List Nat → Int × Store)
    (murmur : List Nat → List Nat) (fuel : Nat)
    (st : ServerState Store) (dir_id : Nat) (objname : List Nat) :
    Option (Reply × ServerState Store) :=
  match st.mapping with
  | none => some (.FileNotFound, st)
  | some mapping =>
    match CheckAddressing st.srv_id murmur fuel mapping objname with
    | none => none
    | some index =>
      if index < 0 then some (.ServerRedirection (CopyGigaMap mapping), st)
      else
        let r := create st.store dir_id index objname
        if r.1 ≠ 0 then some (.FileAlreadyExist, { st with store := r.2 })
        else
          match ScheduleSplit { st with store := r.2 } mapping dir_id index.toNat with
          | none => none
          | some st' => some (.ok, st')

/-! ## Well-formed mappings -/

/-- The mappings on which the client's routing is defined: a bitmap of
`MAX_BMAP_LEN` bytes with bit 0 set and highest index below 128, and a server count
between 1 and the number `srv_num` of configured servers, itself an `int`. -/
def WellFormed (srv_num : Int) (m : giga_mapping_t) : Prop :=
  m.bitmap.length = MAX_BMAP_LEN ∧ get_bit_status m.bitmap 0 = 1 ∧
  (∃ k, get_highest_index m.bitmap = some k ∧ k < 128) ∧
  0 < m.server_count ∧ (m.server_count : Int) ≤ srv_num ∧ srv_num < 2 ^ 31

/-! ## Path resolution of the client (`metadata_client.cc`)

A path is a `std::string`, modelled by the list of its characters; positions are
`size_t` values and `std::string::npos` is `2^64 - 1`.  The LRU cache of leveldb
behind `DirEntryCache` is not part of the sources: its two operations are
parameters.  `Lookup` is the parameter `lookup`, and the clock read by
`IsEntryExpired` at the component of depth `d` is `clock d`. -/

def ROOT_DIR_ID : Nat := 0

/-- The position `std::string::npos`. -/
def npos : Nat := 2 ^ 64 - 1

/-- The first position `k` with `pos ≤ k` that holds the character `c`, in a string
whose first character has position `i`. -/
def find_from (c : Nat) : List Nat → Nat → Nat → Option Nat
  | [], _, _ => none
  | x :: xs, i, pos => if pos ≤ i ∧ x = c then some i else find_from c xs (i + 1) pos

/-- Embeds `path.find(c, pos)` for a one-character pattern. -/
def string_find (path : List Nat) (c pos : Nat) : Nat :=
  (find_from c path 0 pos).getD npos

/-- The last position that holds the character `c`, in a string whose first character
has position `i`. -/
def rfind_from (c : Nat) : List Nat → Nat → Option Nat
  | [], _ => none
  | x :: xs, i =>
    match rfind_from c xs (i + 1) with
    | some r => some r
    | none => if x = c then some i else none

/-- Embeds `path.rfind(c)` for a one-character pattern. -/
def string_rfind (path : List Nat) (c : Nat) : Nat :=
  (rfind_from c path 0).getD npos

/-- Embeds `path.substr(pos, len)`; `none` is the exception `std::out_of_range`, thrown
when `pos` is beyond the end. -/
def string_substr (path : List Nat) (pos len : Nat) : Option (List Nat) :=
  if pos > path.length then none else some ((path.drop pos).take len)

/-- The conversion of an `int` to `TINumber` (`uint64_t`). -/
def to_uint64 (i : Int) : Nat :=
  (i % 2 ^ 64).toNat

/-- Embeds `MetadataClient::LeaseTime`, in `int`; `none` when `depth + 1` overflows or
is zero. -/
def LeaseTime (depth : Int) : Option Int :=
  if depth + 1 ≥ 2 ^ 31 ∨ depth + 1 = 0 then none
  else
    let limit := Int.tdiv 6400000 (depth + 1)
    some (if limit < 100000 then 100000 else limit)

/-- The two operations of `DirEntryCache<DirEntryValue>` that the client uses: `Get`
returns the entry cached for a directory and a name (`none` for `NotFound`) and the
cache it leaves, `Put` the cache after the insertion. -/
structure DentCacheOps (C : Type) where
  Get : C → Nat → List Nat → Option DirEntryValue × C
  Put : C → Nat → List Nat → DirEntryValue → C

/-- What `ResolvePath` writes through `parent`, `zeroth_server`, `entry` and `depth`. -/
structure Resolved where
  parent : Nat
  zeroth_server : Int
  entry : List Nat
  depth : Int
  deriving DecidableEq, Repr

/-- The end of a `ResolvePath` call: the outcome, the values written to the
out-parameters when the status is OK, the cache, and the number of `Lookup` calls
made. -/
structure ResolveRun (C : Type) where
  outcome : Outcome
  out : Option Resolved
  cache : C
  lookups : Nat
  deriving DecidableEq, Repr

/-- The local variables `depth`, `pdir_id` and `pzeroth_server` (all `int`) of
`Internal_ResolvePath`, with the cache and the number of `Lookup` calls made. -/
structure Walk (C : Type) where
  depth : Int
  pdir_id : Int
  pzeroth_server : Int
  cache : C
  lookups : Nat
  deriving DecidableEq, Repr

/-- A `ResolvePath` call that ends without a result. -/
def Walk.stop {C : Type} (w : Walk C) (outcome : Outcome) : ResolveRun C :=
  { outcome := outcome, out := none, cache := w.cache, lookups := w.lookups }

/-- The body of `if (now - last > 1)` in `Internal_ResolvePath`: the component between
the positions `last` and `now` is followed through the cache or through `Lookup`.
Incrementing `depth` beyond `INT_MAX` and an uncaught `std::out_of_range` end the call
(`aborted`); `LeaseTime(depth)` is evaluated only when `Lookup` is called; assigning
`value.inode_id` to the `int` `pdir_id` keeps its low 32 bits. -/
def resolve_step {C : Type} (ops : DentCacheOps C)
    (lookup : Int → Nat → List Nat → Int → Except Status AccessInfo) (clock : Int → Nat)
    (path : List Nat) (last now : Nat) (w : Walk C) : Except (ResolveRun C) (Walk C) :=
  if w.depth + 1 ≥ 2 ^ 31 then .error (w.stop .aborted)
  else
    let depth := w.depth + 1
    match string_substr path (last + 1) (now - last - 1) with
    | none => .error (w.stop .aborted)
    | some name =>
      let parent := to_uint64 w.pdir_id
      let got := ops.Get w.cache parent name
      let calls : Bool :=
        match got.1 with
        | none => true
        | some value => IsEntryExpired (clock depth) value
      if calls = true ∧ LeaseTime depth = none then
        .error { outcome := .aborted, out := none, cache := got.2, lookups := w.lookups }
      else
        match resolve_component (clock depth) got.1
            (lookup w.pzeroth_server parent name ((LeaseTime depth).getD 0)) with
        | .error s =>
          .error { outcome := .returned s, out := none, cache := got.2,
                   lookups := w.lookups + 1 }
        | .ok (value, called, put) =>
          .ok { depth := depth
                pdir_id := to_signed_int value.inode_id
                pzeroth_server := value.zeroth_server
                cache :=
                  match put with
                  | some v => ops.Put got.2 parent name v
                  | none => got.2
                lookups := if called then w.lookups + 1 else w.lookups }

/-- The loop `while (last < end)` of `Internal_ResolvePath`; the first numeric argument
is the fuel, the second is `last`.  Inside the loop `last < end ≤ npos`, so `last + 1`
does not wrap, and `now` is at least `last + 1`, so neither does `now - last`. -/
def resolve_loop {C : Type} (ops : DentCacheOps C)
    (lookup : Int → Nat → List Nat → Int → Except Status AccessInfo) (clock : Int → Nat)
    (path : List Nat) (end_ : Nat) : Nat → Nat → Walk C → Except (ResolveRun C) (Walk C)
  | 0, last, w => if last < end_ then .error (w.stop .out_of_fuel) else .ok w
  | fuel + 1, last, w =>
    if last < end_ then
      let now := string_find path 47 (last + 1)
      if now - last > 1 then
        match resolve_step ops lookup clock path last now w with
        | .error r => .error r
        | .ok w' => resolve_loop ops lookup clock path end_ fuel now w'
      else resolve_loop ops lookup clock path end_ fuel now w
    else .ok w

/-- Embeds `MetadataClient::Internal_ResolvePath`; `47` is the character `/`, and
`end + 1` is computed in `size_t`. -/
def Internal_ResolvePath {C : Type} (ops : DentCacheOps C)
    (lookup : Int → Nat → List Nat → Int → Except Status AccessInfo) (clock : Int → Nat)
    (fuel : Nat) (path : List Nat) (cache : C) : ResolveRun C :=
  let end_ := string_rfind path 47
  match resolve_loop ops lookup clock path end_ fuel 0
      { depth := 0, pdir_id := 0, pzeroth_server := 0, cache := cache, lookups := 0 } with
  | .error r => r
  | .ok w =>
    match string_substr path ((end_ + 1) % 2 ^ 64) (path.length) with
    | none => w.stop .aborted
    | some entry =>
      { outcome := .returned .OK
        out := some { parent := to_uint64 w.pdir_id, zeroth_server := w.pzeroth_server,
                      entry := entry, depth := w.depth }
        cache := w.cache
        lookups := w.lookups }

/-- The body of `MetadataClient::ResolvePath`, with the recursive call as the argument
`again`. -/
def ResolvePath_body {C : Type} (again : List Nat → C → ResolveRun C)
    (internal : List Nat → C → ResolveRun C) (path : List Nat) (cache : C) : ResolveRun C :=
  if path.length = 0 then
    { outcome := .returned .InvalidArgument, out := none, cache := cache, lookups := 0 }
  else if path.take 1 ≠ [47] then
    { outcome := .returned .InvalidArgument, out := none, cache := cache, lookups := 0 }
  else if path.length = 1 then
    { outcome := .returned .OK
      out := some { parent := ROOT_DIR_ID, zeroth_server := 0, entry := [47], depth := 0 }
      cache := cache
      lookups := 0 }
  else if (path.drop (path.length - 1)).take 1 = [47] then
    again (path.take (path.length - 1)) cache
  else internal path cache

/-- Embeds `MetadataClient::ResolvePath`; the fuel bounds the depth of the recursion
and the iterations of the loop of `Internal_ResolvePath`. -/
def ResolvePath {C : Type} (ops : DentCacheOps C)
    (lookup : Int → Nat → List Nat → Int → Except Status AccessInfo) (clock : Int → Nat) :
    Nat → List Nat → C → ResolveRun C
  | 0, path, cache =>
    ResolvePath_body
      (fun _ c => { outcome := .out_of_fuel, out := none, cache := c, lookups := 0 })
      (Internal_ResolvePath ops lookup clock 0) path cache
  | fuel + 1, path, cache =>
    ResolvePath_body (ResolvePath ops lookup clock fuel)
      (Internal_ResolvePath ops lookup clock (fuel + 1)) path cache

/-! ## Directory control blocks (`dircache.cc`)

A `Directory*` is an address; `new Directory()` takes the next unused address, and a
deleted block leaves the heap.  Each `std::map<TINumber, Directory*>` is modelled by
its lookup function. -/

def kNumShards : Nat := 16

/-- The conversion of an `int` to `short`. -/
def to_short (i : Int) : Int :=
  (i + 2 ^ 15) % 2 ^ 16 - 2 ^ 15

/-- Embeds `struct Directory` (`dircache.h`) with its reference count, a `short`. -/
structure DirectoryBlock where
  refcount : Int
  dir : Directory
  deriving DecidableEq, Repr

/-- The constructor `Directory()`: `partition_size(0), refcount(1), split_flag(0)`. -/
def DirectoryBlock.new : DirectoryBlock :=
  { refcount := 1, dir := { partition_size := 0, split_flag := 0 } }

/-- Embeds the state of `class DirCache`: the array `dirs_` of `kNumShards` maps from
directory ids to addresses, and the blocks allocated at these addresses. -/
structure DirCache where
  dirs : Nat → Nat → Option Nat
  heap : Nat → Option DirectoryBlock
  next : Nat

/-- The constructor `DirCache::DirCache`: empty maps. -/
def DirCache.new : DirCache :=
  { dirs := fun _ _ => none, heap := fun _ => none, next := 0 }

/-- Embeds `DirCache::Get`: the address written to `*directory` and the state left.
Following an address that holds no block is undefined (`none`). -/
def DirCache.Get (c : DirCache) (dir_id : Nat) : Option (Nat × DirCache) :=
  let shard := dir_id &&& (kNumShards - 1)
  match c.dirs shard dir_id with
  | some directory =>
    match c.heap directory with
    | none => none
    | some b =>
      some (directory,
        { c with heap := fun a =>
            if a = directory then some { b with refcount := to_short (b.refcount + 1) }
            else c.heap a })
  | none =>
    let directory := c.next
    let b := DirectoryBlock.new
    some (directory,
      { dirs := fun s k =>
          if s = shard ∧ k = dir_id then some directory else c.dirs s k
        heap := fun a =>
          if a = directory then some { b with refcount := to_short (b.refcount + 1) }
          else c.heap a
        next := c.next + 1 })

/-- Embeds `DirCache::Release`. -/
def DirCache.Release (c : DirCache) (dir_id : Nat) (directory : Nat) : Option DirCache :=
  let shard := dir_id &&& (kNumShards - 1)
  match c.heap directory with
  | none => none
  | some b =>
    let refcount := to_short (b.refcount - 1)
    if refcount = 0 then
      some { c with
        dirs := fun s k => if s = shard ∧ k = dir_id then none else c.dirs s k
        heap := fun a => if a = directory then none else c.heap a }
    else
      some { c with heap := fun a =>
        if a = directory then some { b with refcount := refcount } else c.heap a }

/-- Embeds `DirCache::Evict`; `find` returning `end()` makes `it->second` undefined. -/
def DirCache.Evict (c : DirCache) (dir_id : Nat) : Option DirCache :=
  let shard := dir_id &&& (kNumShards - 1)
  match c.dirs shard dir_id with
  | none => none
  | some directory => c.Release dir_id directory

/-! ## Directory listing of the client (`metadata_client.cc`) -/

def kMaxNumScanEntries : Nat := 256

/-- Embeds `reverse_bits`: the product and the mask are computed in
`unsigned long long`, the shift count is `32 + sizeof(uint8_t) - n` with
`sizeof(uint8_t) = 1`, and the result is converted to `uint8_t`.  A count above 33
makes the shift undefined (`none`). -/
def reverse_bits (b n : Nat) : Option Nat :=
  if n > 32 + 1 then none
  else
    some ((((((((b * 0x80200802) % 2 ^ 64) &&& 0x0884422110) * 0x0101010101) % 2 ^ 64)
      >>> (32 + 1 - n))) % 256)

/-- Modelled from the spec: the thrift struct `ScanResult`, whose declaration is
missing: the names read, the hash at which the scan stopped, whether more rows
follow, and the bitmap of the server. -/
structure ScanResult where
  entries : List (List Nat)
  end_key : List Nat
  more_entries : Int
  mapping : GigaBitmap
  deriving DecidableEq, Repr

/-- The variables of `MetadataClient::Readdir` that its loops update: `start_key`,
`*result`, the mapping of the handle, and the `Readdir` RPCs issued so far, each with
its server and partition. -/
structure Scan where
  start_key : List Nat
  result : List (List Nat)
  mapping : giga_mapping_t
  probes : List (Int × Nat)
  deriving DecidableEq, Repr

/-- The `do ... while (scan_result.more_entries > 0)` loop of
`MetadataClient::Readdir` on one partition.  `rpc n server partition start_key` is the
reply to the `Readdir` RPC issued after `n` earlier ones: a `ScanResult` or an
exception.  `ServerRedirection` and `FileNotFound` leave the loop, `NotDirectory` ends
the call with `IOError`, another exception escapes. -/
def scan_partition (rpc : Nat → Int → Nat → List Nat → Except Reply ScanResult)
    (server : Int) (curr_partition : Nat) : Nat → Scan → Except (Outcome × Scan) Scan
  | 0, s => .error (.out_of_fuel, s)
  | fuel + 1, s =>
    let s1 := { s with probes := s.probes ++ [(server, curr_partition)] }
    match rpc s.probes.length server curr_partition s.start_key with
    | .error (.ServerRedirection _) => .ok s1
    | .error .FileNotFound => .ok s1
    | .error .NotDirectory => .error (.returned .IOError, s1)
    | .error e => .error (.thrown e, s1)
    | .ok scan_result =>
      match UpdateBitmap s.mapping scan_result.mapping with
      | none => .error (.aborted, s1)
      | some mapping =>
        let s2 : Scan :=
          { start_key := scan_result.end_key
            result := s.result ++ scan_result.entries
            mapping := mapping
            probes := s1.probes }
        if scan_result.more_entries > 0 then scan_partition rpc server curr_partition fuel s2
        else .ok s2

/-- The loop `while (curr_idx < (1 << curr_radix))` of `MetadataClient::Readdir`; the
first numeric argument is the fuel of this loop, `fuel` that of each inner loop.
`curr_idx` is a `uint8_t`, so `curr_idx++` wraps at 256; `1 << curr_radix` is an `int`,
undefined from 31 on. -/
def Readdir_loop (rpc : Nat → Int → Nat → List Nat → Except Reply ScanResult) (fuel : Nat) :
    Nat → Nat → Nat → Scan → Outcome × Scan
  | 0, _, _, s => (.out_of_fuel, s)
  | k + 1, curr_idx, curr_radix, s =>
    if curr_radix ≥ 31 then (.aborted, s)
    else if curr_idx < 1 <<< curr_radix then
      match reverse_bits curr_idx curr_radix with
      | none => (.aborted, s)
      | some curr_partition =>
        let scanned : Except (Outcome × Scan) Scan :=
          if get_bit_status s.mapping.bitmap curr_partition > 0 then
            match giga_get_server_for_index s.mapping curr_partition with
            | none => .error (.aborted, s)
            | some server => scan_partition rpc server curr_partition fuel s
          else .ok s
        match scanned with
        | .error r => r
        | .ok s' => Readdir_loop rpc fuel k ((curr_idx + 1) % 256) s'.mapping.curr_radix s'
    else (.returned .OK, s)

/-- Embeds `MetadataClient::Readdir` from the handle that `FetchDir` returns on
(`none` when the handle is empty); `fuel` bounds each of the two loops. -/
def Readdir (rpc : Nat → Int → Nat → List Nat → Except Reply ScanResult) (fuel : Nat)
    (handle : Option giga_mapping_t) : Outcome × Option Scan :=
  match handle with
  | none => (.returned .IOError, none)
  | some mapping =>
    let r := Readdir_loop rpc fuel fuel 0 mapping.curr_radix
      { start_key := [], result := [], mapping := mapping, probes := [] }
    (r.1, some r.2)

/-! ## Directory scans of the store (`metadb_fs.c`)

LevelDB is not part of the sources.  The database is the list of its rows in the
order of its iterator, and `leveldb_iter_seek` moves to the first row whose key does
not compare below the target under the comparator `CmpCompare` of the database.
Integers are stored in little-endian byte order. -/

/-- Embeds `MetadataServer::UnlockDirEntry` on the entry behind `handle` (`none` for a
`NULL` handle): the status returns to read. -/
def UnlockDirEntry (handle : Option ServerDirEntryValue) : Option ServerDirEntryValue :=
  handle.map (fun value => { value with status := .LEASE_READ_STATUS })

/-- How a handler ends: blocked in `partition_cv.Wait()`, or with a reply (an exception
or `ok`), the store and the cached entry that it leaves. -/
inductive Handled (Store : Type) where
  | waiting
  | replied (reply : Reply) (store : Store) (dent : Option ServerDirEntryValue)

/-- The statements that the two branches of `MetadataServer::Rename` share: the
addressing of the destination in the mapping of the source directory, the two
`SanityCheck`s (which throw when their condition holds), `CreateEntry` and `Remove`. -/
def Rename_entry {Store : Type}
    (create_entry : Store → Nat → Int → List Nat → StatInfo → Int × Store)
    (remove : Store → Nat → Int → List Nat → Int × Store)
    (murmur : List Nat → List Nat) (fuel : Nat) (st : ServerState Store)
    (mapping : giga_mapping_t) (index : Int) (info : StatInfo)
    (src_id : Nat) (src_path : List Nat) (dst_id : Nat) (dst_path : List Nat) :
    Option (Reply × Store) :=
  match CheckAddressing st.srv_id murmur fuel mapping dst_path with
  | none => none
  | some dst_index =>
    if dst_index ≥ 0 then some (.FileNotInSameServer, st.store)
    else
      let created := create_entry st.store dst_id dst_index dst_path info
      if created.1 ≠ 0 then some (.FileAlreadyExist, created.2)
      else
        let removed := remove created.2 src_id index src_path
        if removed.1 ≠ 0 then some (.FileNotFound, removed.2)
        else some (.ok, removed.2)

/-- Embeds `MetadataServer::Rename`; `st.mapping` is the mapping that
`FetchDir(src_id)` returns.  For a directory the entry is locked by
`DirEntryLockHandler`, whose destructor unlocks it on every way out. -/
def Rename {Store : Type} (getattr : Store → Nat → Int → List Nat → Option StatInfo)
    (create_entry : Store → Nat → Int → List Nat → StatInfo → Int × Store)
    (remove : Store → Nat → Int → List Nat → Int × Store)
    (murmur : List Nat → List Nat) (fuel : Nat) (st : ServerState Store)
    (cached : Option ServerDirEntryValue) (now : Nat)
    (src_id : Nat) (src_path : List Nat) (dst_id : Nat) (dst_path : List Nat) :
    Option (Handled Store) :=
  if dst_id = src_id then some (.replied .FileNotInSameServer st.store cached)
  else
    match st.mapping with
    | none => some (.replied .FileNotFound st.store cached)
    | some mapping =>
      match CheckAddressing st.srv_id murmur fuel mapping src_path with
      | none => none
      | some index =>
        if index < 0 then
          some (.replied (.ServerRedirection (CopyGigaMap mapping)) st.store cached)
        else
          match getattr st.store src_id index src_path with
          | none => some (.replied .FileNotFound st.store cached)
          | some info =>
            if info.is_dir then
              match WriteLockDirEntry cached now with
              | .waiting => some .waiting
              | .locked value _ =>
                match Rename_entry create_entry remove murmur fuel st mapping index info
                    src_id src_path dst_id dst_path with
                | none => none
                | some (reply, store) =>
                  some (.replied reply store (UnlockDirEntry (some value)))
            else
              match Rename_entry create_entry remove murmur fuel st mapping index info
                  src_id src_path dst_id dst_path with
              | none => none
              | some (reply, store) => some (.replied reply store cached)

/-- Embeds `MetadataServer::Remove`. -/
def Remove {Store : Type} (getattr : Store → Nat → Int → List Nat → Option StatInfo)
    (remove : Store → Nat → Int → List Nat → Int × Store)
    (murmur : List Nat → List Nat) (fuel : Nat) (st : ServerState Store)
    (cached : Option ServerDirEntryValue) (now : Nat)
    (dir_id : Nat) (objname : List Nat) : Option (Handled Store) :=
  match st.mapping with
  | none => some (.replied .FileNotFound st.store cached)
  | some mapping =>
    match CheckAddressing st.srv_id murmur fuel mapping objname with
    | none => none
    | some index =>
      if index < 0 then
        some (.replied (.ServerRedirection (CopyGigaMap mapping)) st.store cached)
      else
        match getattr st.store dir_id index objname with
        | none => some (.replied .FileNotFound st.store cached)
        | some stat =>
          if stat.is_dir then
            match WriteLockDirEntry cached now with
            | .waiting => some .waiting
            | .locked value _ =>
              let removed := remove st.store dir_id index objname
              some (.replied (if removed.1 ≠ 0 then .FileNotFound else .ok) removed.2
                (UnlockDirEntry (some value)))
          else
            let removed := remove st.store dir_id index objname
            some (.replied (if removed.1 ≠ 0 then .FileNotFound else .ok) removed.2 cached)

/-- The error lines that `MetadataServer::Split` and its helpers log. -/
inductive SplitError where
  | InsertSplitRemote
  | UpdateBitmap
  | UpdateBitmapRemote
  deriving DecidableEq, Repr

/-- Embeds `MetadataServer::InsertSplitRemote`: `rpc_ok` tells whether `transport->open()`
and `client.InsertSplit` return; when one of them throws, the `TException` is caught
and logged.  The function returns nothing in both cases; the result is the log. -/
def InsertSplitRemote (rpc_ok : Bool) (log : List SplitError) : List SplitError :=
  if rpc_ok then log else log ++ [.InsertSplitRemote]

/-- Embeds `MetadataServer::UpdateBitmapRemote`: it returns whether the RPC returned,
and logs when it did not. -/
def UpdateBitmapRemote (rpc_ok : Bool) (log : List SplitError) : Bool × List SplitError :=
  if rpc_ok then (true, log) else (false, log ++ [.UpdateBitmapRemote])

/-- What `MetadataServer::Split` leaves: the state of the server, the error log, and
the remote calls made (`InsertSplit` to the child server, `UpdateBitmap` to the zeroth
server). -/
structure SplitRun (Store : Type) where
  state : ServerState Store
  log : List SplitError
  insert_split_calls : List (Int × Nat × Nat)
  update_bitmap_calls : List (Nat × GigaBitmap)

/-- Embeds `MetadataServer::Split`.  `insert_ok` and `update_ok` tell whether the RPCs
of `InsertSplitRemote` and `UpdateBitmapRemote` return.  `none` stands for an
assertion of `giga_index.c` or an overflow of `partition_size`. -/
def Split {Store : Type} (extract : Store → Nat → Nat → Nat → Int × Store)
    (update_bitmap : Store → Nat → giga_mapping_t → Int × Store)
    (extract_clean : Store → Store) (insert_ok update_ok : Bool)
    (st : ServerState Store) (dir_id : Nat) (parent : Nat) : Option (SplitRun Store) :=
  match st.mapping with
  | none => none
  | some mapping =>
    let parent_srv := st.srv_id
    match giga_index_for_splitting mapping parent with
    | none => none
    | some child =>
      match giga_get_server_for_index mapping child with
      | none => none
      | some child_srv =>
        let extracted : Int × Store :=
          if parent_srv ≠ child_srv then extract st.store dir_id parent child
          else (0, st.store)
        let ret := extracted.1
        let inserted : List SplitError × List (Int × Nat × Nat) :=
          if parent_srv ≠ child_srv ∧ ret > 0 then
            (InsertSplitRemote insert_ok [], [(child_srv, parent, child)])
          else ([], [])
        if ret ≥ 0 then
          match giga_update_mapping mapping child with
          | none => none
          | some mapping' =>
            if st.dir.partition_size - ret < -(2 ^ 31) ∨ st.dir.partition_size - ret ≥ 2 ^ 31 then
              none
            else
              let written := update_bitmap extracted.2 dir_id mapping'
              let log := if written.1 < 0 then inserted.1 ++ [.UpdateBitmap] else inserted.1
              let remote : List SplitError × List (Nat × GigaBitmap) × Store :=
                if parent_srv ≠ child_srv then
                  ((UpdateBitmapRemote update_ok log).2,
                   [(mapping'.zeroth_server, CopyGigaMap mapping')], extract_clean written.2)
                else (log, [], written.2)
              some { state := { st with
                       store := remote.2.2
                       mapping := some mapping'
                       dir := { partition_size := st.dir.partition_size - ret, split_flag := 0 } }
                     log := remote.1
                     insert_split_calls := inserted.2
                     update_bitmap_calls := remote.2.1 }
        else
          some { state := { st with store := extracted.2,
                                    dir := { st.dir with split_flag := 0 } }
                 log := inserted.1
                 insert_split_calls := inserted.2
                 update_bitmap_calls := [] }

/-! ## Specification-level predicates -/

/-- The mapping in the handle when the loop of `redirect_loop`, entered with
`mapping`, issues its attempt number `i` (counted from 0): `mapping` itself at the
first attempt, and after an attempt that the addressed server answered with
`ServerRedirection` the mapping that `UpdateBitmap` leaves.  It is `none` when the
loop does not get to attempt `i`. -/
def mapping_at (srv_num : Int) (murmur : List Nat → List Nat) (fuel : Nat)
    (rpc : Nat → Int → Reply) (entry : List Nat) (mapping : giga_mapping_t) :
    Nat → Option giga_mapping_t
  | 0 => some mapping
  | i + 1 =>
    match mapping_at srv_num murmur fuel rpc entry mapping i with
    | none => none
    | some m =>
      match SelectServer srv_num murmur fuel m entry with
      | none => none
      | some server =>
        match rpc i server with
        | .ServerRedirection redirect => UpdateBitmap m redirect
        | _ => none

/-- The server that the loop addresses at attempt `i`: the one that `SelectServer`
returns on the mapping held at that attempt. -/
def addressed (srv_num : Int) (murmur : List Nat → List Nat) (fuel : Nat)
    (rpc : Nat → Int → Reply) (entry : List Nat) (mapping : giga_mapping_t) (i : Nat) :
    Option Int :=
  match mapping_at srv_num murmur fuel rpc entry mapping i with
  | none => none
  | some m => SelectServer srv_num murmur fuel m entry

/-- The end of a call that was redirected `kNumRedirect` times from `mapping`:
`Corruption` after 10 attempts; each attempt went to the server addressed at that
attempt, which answered with a `ServerRedirection`, and the mapping of the handle is
the one left by the tenth merge: it holds the bits of `mapping` and of all ten
replies. -/
def TenRedirections (srv_num : Int) (murmur : List Nat → List Nat) (fuel : Nat)
    (rpc : Nat → Int → Reply) (entry : List Nat) (mapping : giga_mapping_t) (run : Run) :
    Prop :=
  run.outcome = .returned .Corruption ∧ run.attempts = 10 ∧
  mapping_at srv_num murmur fuel rpc entry mapping 10 = some run.mapping ∧
  (∀ j, get_bit_status mapping.bitmap j = 1 → get_bit_status run.mapping.bitmap j = 1) ∧
  (∀ i, i < 10 → ∃ server b,
    addressed srv_num murmur fuel rpc entry mapping i = some server ∧
    rpc i server = .ServerRedirection b ∧
    ∀ j, get_bit_status (ToLegacyMapping b).bitmap j = 1 →
      get_bit_status run.mapping.bitmap j = 1)


/-- The values that `get_highest_index` ranges over: `7*i + b` for a set bit `b < 7`
of byte `i`, and `7*i - 1` for a non-zero byte `i >= 1`. -/
def Upper (bm : List Nat) (u : Nat) : Prop :=
  (∃ i b, i < MAX_BMAP_LEN ∧ b < 7 ∧ (bm.getD i 0).testBit b = true ∧ u = 7 * i + b) ∨
  (∃ i, i < MAX_BMAP_LEN ∧ bm.getD i 0 ≠ 0 ∧ u + 1 = 7 * i)

/-- The partition that owns the hash prefix `y` in a bitmap: the largest index of the
form `y % 2^k` whose bit is set. -/
def IsOwner (bm : List Nat) (y i : Nat) : Prop :=
  (∃ k, i = y % 2 ^ k) ∧ get_bit_status bm i = 1 ∧
    ∀ k, get_bit_status bm (y % 2 ^ k) = 1 → y % 2 ^ k ≤ i

/-- The index of the specification, before masking:
`reverse_byte(h[0]) + reverse_byte(h[1])<<7 + ...` over the `HASH_NUM_BYTES` bytes. -/
def spec_reversed_sum (h : List Nat) : Nat :=
  ((List.range HASH_NUM_BYTES).map (fun k => reverse_byte (h.getD k 0) <<< (7 * k))).sum

/-- A call on a directory cache by a user of one directory id. -/
inductive DirCacheCall where
  | Get
  | Release
  deriving DecidableEq, Repr

/-- A sequence of calls in which every `Release` follows a `Get` that it matches;
`k` is the number of blocks held at the start. -/
def matching_calls : List DirCacheCall → Nat → Bool
  | [], _ => true
  | .Get :: cs, k => matching_calls cs (k + 1)
  | .Release :: _, 0 => false
  | .Release :: cs, k + 1 => matching_calls cs k

/-- Runs a sequence of calls for the directory `dir_id`: `Get` keeps the address it
obtains in `held`, `Release` hands back the address obtained last.  The result is the
cache, the addresses still held, and the addresses that the `Get` calls returned. -/
def run_calls (dir_id : Nat) :
    List DirCacheCall → DirCache → List Nat → List Nat → Option (DirCache × List Nat × List Nat)
  | [], c, held, got => some (c, held, got)
  | .Get :: cs, c, held, got =>
    match c.Get dir_id with
    | none => none
    | some (p, c') => run_calls dir_id cs c' (p :: held) (got ++ [p])
  | .Release :: _, _, [], _ => none
  | .Release :: cs, c, p :: held, got =>
    match c.Release dir_id p with
    | none => none
    | some c' => run_calls dir_id cs c' held got

/-- The mappings that the split policy reaches for a directory with zeroth server
`zeroth_server` and `n` servers: the mapping that `giga_init_mapping` returns, and
from a reached mapping the one that `giga_update_mapping` returns for the split target
of a set partition `p`, when `giga_is_splittable` returns 1 for `p`. -/
inductive SplitReachable (flag id : Int) (zeroth_server n : Nat) : giga_mapping_t → Prop where
  | init (m : giga_mapping_t) :
      giga_init_mapping flag id zeroth_server n = some m →
      SplitReachable flag id zeroth_server n m
  | split (m m' : giga_mapping_t) (p c : Nat) :
      SplitReachable flag id zeroth_server n m →
      get_bit_status m.bitmap p = 1 →
      giga_is_splittable m p = some 1 →
      giga_index_for_splitting m p = some c →
      giga_update_mapping m c = some m' →
      SplitReachable flag id zeroth_server n m'

/-- The mappings that the program holds: the mapping that `giga_init_mapping` returns,
the mappings that `giga_update_mapping` and `giga_update_cache` return on mappings it
holds, and the copy of a held mapping that went over the wire (`CopyGigaMap`, then
`ToLegacyMapping`).  No other code writes the bitmap of a mapping. -/
inductive HeldMapping : giga_mapping_t → Prop where
  | init (flag id : Int) (zeroth_server server_count : Nat) (m : giga_mapping_t) :
      giga_init_mapping flag id zeroth_server server_count = some m → HeldMapping m
  | update (m m' : giga_mapping_t) (new_index : Nat) :
      HeldMapping m → giga_update_mapping m new_index = some m' → HeldMapping m'
  | merge (curr update m' : giga_mapping_t) :
      HeldMapping curr → HeldMapping update → giga_update_cache curr update = some m' →
      HeldMapping m'
  | wire (m : giga_mapping_t) :
      HeldMapping m → HeldMapping (ToLegacyMapping (CopyGigaMap m))

/-! ## Bits of a byte -/

theorem max_bmap_len_eq : MAX_BMAP_LEN = 37 := by decide

theorem bits_per_map_eq : BITS_PER_MAP = 7 := by decide

theorem mask_eq_two_pow (b : Nat) (hb : b < 7) : (1 <<< b) % 256 = 2 ^ b := by
  interval_cases b <;> decide

theorem and_two_pow_ne_zero_iff (x b : Nat) : x &&& 2 ^ b ≠ 0 ↔ x.testBit b = true := by
  constructor
  · intro h
    by_contra hb
    apply h
    apply Nat.eq_of_testBit_eq
    intro i
    simp [Nat.testBit_two_pow]
    intro hx hi
    subst hi
    exact hb hx
  · intro h h0
    have := congrArg (fun y => y.testBit b) h0
    simp [Nat.testBit_two_pow, h] at this

theorem get_bit_status_eq_one_iff (bmap : List Nat) (i : Nat) :
    get_bit_status bmap i = 1 ↔ (bmap.getD (i / 7) 0).testBit (i % 7) = true := by
  unfold get_bit_status
  simp only [bits_per_map_eq]
  rw [mask_eq_two_pow (i % 7) (Nat.mod_lt _ (by decide)), ← and_two_pow_ne_zero_iff]
  by_cases h : bmap.getD (i / 7) 0 &&& 2 ^ (i % 7) = 0 <;> simp [h]

theorem get_bit_status_eq_zero_iff (bmap : List Nat) (i : Nat) :
    get_bit_status bmap i = 0 ↔ (bmap.getD (i / 7) 0).testBit (i % 7) = false := by
  unfold get_bit_status
  simp only [bits_per_map_eq]
  rw [mask_eq_two_pow (i % 7) (Nat.mod_lt _ (by decide))]
  have := and_two_pow_ne_zero_iff (bmap.getD (i / 7) 0) (i % 7)
  by_cases h : bmap.getD (i / 7) 0 &&& 2 ^ (i % 7) = 0 <;> simp_all

theorem get_bit_status_cases (bmap : List Nat) (i : Nat) :
    get_bit_status bmap i = 0 ∨ get_bit_status bmap i = 1 := by
  unfold get_bit_status
  simp only
  split <;> simp

/-- What `giga_init_mapping` returns under the compiled-in split type. -/
theorem init_mapping_facts (flag id : Int) (zeroth_server server_count : Nat) :
    ∃ m, giga_init_mapping flag id zeroth_server server_count = some m ∧
      m.curr_radix = 1 ∧
      m.bitmap = 1 :: List.replicate (MAX_BMAP_LEN - 1) 0 ∧
      get_bit_status m.bitmap 0 = 1 ∧
      (∀ i, i ≠ 0 → get_bit_status m.bitmap i = 0) ∧
      m.id = id ∧ m.zeroth_server = zeroth_server ∧
      (0 < server_count → m.server_count = server_count) ∧
      (server_count = 0 → m.server_count = 1) ∧
      1 ≤ m.server_count := by
  have hb : (List.replicate MAX_BMAP_LEN 0).set 0 1 = 1 :: List.replicate (MAX_BMAP_LEN - 1) 0 := by
    decide
  have hbits : get_bit_status (1 :: List.replicate (MAX_BMAP_LEN - 1) 0) 0 = 1 ∧
      ∀ i, i ≠ 0 → get_bit_status (1 :: List.replicate (MAX_BMAP_LEN - 1) 0) i = 0 := by
    refine ⟨by decide, ?_⟩
    intro i hi
    rw [get_bit_status_eq_zero_iff]
    by_cases h7 : i / 7 = 0
    · have hlt : i < 7 := by omega
      have hmod : i % 7 = i := Nat.mod_eq_of_lt hlt
      rw [h7, hmod]
      simp only [List.getD_cons_zero]
      interval_cases i <;> first | contradiction | decide
    · obtain ⟨k, hk⟩ := Nat.exists_eq_succ_of_ne_zero h7
      rw [hk, List.getD_cons_succ]
      simp [List.getD_eq_getElem?_getD, List.getElem?_replicate]
      split <;> simp
  refine ⟨{ bitmap := (List.replicate MAX_BMAP_LEN 0).set 0 1, id := id, curr_radix := 1,
            zeroth_server := zeroth_server,
            server_count := if server_count > 0 then server_count else 1 }, ?_, rfl, hb, ?_, ?_,
          rfl, rfl, ?_, ?_, ?_⟩
  · unfold giga_init_mapping giga_init_mapping_with
    by_cases hf : flag = -1
    · simp [hf]
    · simp [hf, SPLIT_TYPE, SPLIT_T_NUM_SERVERS_BOUND, SPLIT_T_NO_BOUND,
        SPLIT_T_NO_SPLITTING_EVER]
  · simp only [hb]; exact hbits.1
  · simp only [hb]; exact hbits.2
  · intro h; simp [h]
  · intro h; simp [h]
  · simp only; split <;> omega

/-! ## The highest index of a bitmap -/

theorem highest_nonzero_some (bm : List Nat) :
    ∀ n i, highest_nonzero bm n = some i →
      i < n ∧ bm.getD i 0 ≠ 0 ∧ ∀ j, i < j → j < n → bm.getD j 0 = 0 := by
  intro n
  induction n with
  | zero => intro i h; simp [highest_nonzero] at h
  | succ n ih =>
    intro i h
    unfold highest_nonzero at h
    by_cases hz : bm.getD n 0 ≠ 0
    · rw [if_pos hz] at h
      have hi : n = i := by simpa using h
      subst hi
      exact ⟨by omega, hz, fun j h1 h2 => by omega⟩
    · rw [if_neg hz] at h
      obtain ⟨h1, h2, h3⟩ := ih i h
      refine ⟨by omega, h2, ?_⟩
      intro j hj1 hj2
      by_cases hjn : j = n
      · subst hjn; simpa using hz
      · exact h3 j hj1 (by omega)

theorem highest_nonzero_none (bm : List Nat) :
    ∀ n, highest_nonzero bm n = none → ∀ j, j < n → bm.getD j 0 = 0 := by
  intro n
  induction n with
  | zero => intro _ j hj; omega
  | succ n ih =>
    intro h j hj
    unfold highest_nonzero at h
    by_cases hz : bm.getD n 0 ≠ 0
    · rw [if_pos hz] at h; simp at h
    · rw [if_neg hz] at h
      by_cases hjn : j = n
      · subst hjn; simpa using hz
      · exact ih h j (by omega)

theorem highest_bit_spec (v : Nat) :
    ∀ n, n ≤ 7 →
      (highest_bit v n = -1 ∧ ∀ j, j < n → v.testBit j = false) ∨
      (∃ b : Nat, highest_bit v n = (b : Int) ∧ b < n ∧ v.testBit b = true ∧
        ∀ j, b < j → j < n → v.testBit j = false) := by
  intro n
  induction n with
  | zero => intro _; left; exact ⟨rfl, fun j hj => by omega⟩
  | succ n ih =>
    intro hn
    unfold highest_bit
    rw [mask_eq_two_pow n (by omega)]
    by_cases hz : v &&& 2 ^ n ≠ 0
    · rw [if_pos hz]
      right
      exact ⟨n, rfl, by omega, (and_two_pow_ne_zero_iff v n).1 hz, fun j h1 h2 => by omega⟩
    · rw [if_neg hz]
      have hbit : v.testBit n = false := by
        have := (and_two_pow_ne_zero_iff v n).not.1 hz
        simpa using this
      rcases ih (by omega) with ⟨h1, h2⟩ | ⟨b, h1, h2, h3, h4⟩
      · left
        refine ⟨h1, ?_⟩
        intro j hj
        by_cases hjn : j = n
        · subst hjn; exact hbit
        · exact h2 j (by omega)
      · right
        refine ⟨b, h1, by omega, h3, ?_⟩
        intro j hj1 hj2
        by_cases hjn : j = n
        · subst hjn; exact hbit
        · exact h4 j hj1 (by omega)

theorem get_highest_index_upper (bm : List Nat) (k : Nat)
    (h : get_highest_index bm = some k) :
    Upper bm k ∧ ∀ u, Upper bm u → u ≤ k := by
  unfold get_highest_index at h
  cases hn : highest_nonzero bm MAX_BMAP_LEN with
  | none => rw [hn] at h; simp at h
  | some i =>
    rw [hn] at h
    simp only [bits_per_map_eq] at h
    obtain ⟨hi, hnz, htop⟩ := highest_nonzero_some bm _ _ hn
    have bound : ∀ i', i' < MAX_BMAP_LEN → bm.getD i' 0 ≠ 0 → i' ≤ i := by
      intro i' h1 h2
      by_contra hc
      exact h2 (htop i' (by omega) h1)
    rcases highest_bit_spec (bm.getD i 0) 7 (le_refl _) with ⟨h1, h2⟩ | ⟨b, h1, h2, h3, h4⟩
    · rw [h1] at h
      by_cases hpos : (0 : Int) ≤ (i : Int) * ((7 : Nat) : Int) + -1
      · rw [if_pos hpos] at h
        have hk : k + 1 = 7 * i := by
          have := Option.some.inj h
          push_cast at hpos this
          omega
        refine ⟨Or.inr ⟨i, hi, hnz, hk⟩, ?_⟩
        rintro u (⟨i', b', hi', hb', hbit, hu⟩ | ⟨i', hi', hnz', hu⟩)
        · have hne : bm.getD i' 0 ≠ 0 := by
            intro h0; rw [h0] at hbit; simp at hbit
          have hle := bound i' hi' hne
          by_cases heq : i' = i
          · subst heq; rw [h2 b' hb'] at hbit; simp at hbit
          · omega
        · have := bound i' hi' hnz'; omega
      · rw [if_neg hpos] at h; simp at h
    · rw [h1] at h
      have hpos : (0 : Int) ≤ (i : Int) * ((7 : Nat) : Int) + (b : Int) := by
        push_cast; omega
      rw [if_pos hpos] at h
      have hk : k = 7 * i + b := by
        have := Option.some.inj h
        push_cast at this
        omega
      refine ⟨Or.inl ⟨i, b, hi, h2, h3, hk⟩, ?_⟩
      rintro u (⟨i', b', hi', hb', hbit, hu⟩ | ⟨i', hi', hnz', hu⟩)
      · have hne : bm.getD i' 0 ≠ 0 := by
          intro h0; rw [h0] at hbit; simp at hbit
        have hle := bound i' hi' hne
        by_cases heq : i' = i
        · subst heq
          have : b' ≤ b := by
            by_contra hc
            rw [h4 b' (by omega) hb'] at hbit
            simp at hbit
          omega
        · omega
      · have := bound i' hi' hnz'; omega

theorem get_highest_index_defined (bm : List Nat) (u : Nat) (hu : Upper bm u) :
    ∃ k, get_highest_index bm = some k := by
  unfold get_highest_index
  cases hn : highest_nonzero bm MAX_BMAP_LEN with
  | none =>
    exfalso
    have hz := highest_nonzero_none bm _ hn
    rcases hu with ⟨i', b', hi', _, hbit, _⟩ | ⟨i', hi', hnz', _⟩
    · rw [hz i' hi'] at hbit; simp at hbit
    · exact hnz' (hz i' hi')
  | some i =>
    simp only [bits_per_map_eq]
    obtain ⟨hi, hnz, htop⟩ := highest_nonzero_some bm _ _ hn
    rcases highest_bit_spec (bm.getD i 0) 7 (le_refl _) with ⟨h1, h2⟩ | ⟨b, h1, h2, h3, h4⟩
    · rw [h1]
      have hi0 : 1 ≤ i := by
        rcases hu with ⟨i', b', hi', hb', hbit, _⟩ | ⟨i', hi', hnz', hu'⟩
        · have hne : bm.getD i' 0 ≠ 0 := by
            intro h0; rw [h0] at hbit; simp at hbit
          by_contra hc
          have hi00 : i = 0 := by omega
          by_cases heq : i' = i
          · subst heq; rw [h2 b' hb'] at hbit; simp at hbit
          · exact hne (htop i' (by omega) hi')
        · by_contra hc
          by_cases heq : i' = i
          · omega
          · exact hnz' (htop i' (by omega) hi')
      have hpos : (0 : Int) ≤ (i : Int) * ((7 : Nat) : Int) + -1 := by
        push_cast; omega
      rw [if_pos hpos]
      exact ⟨_, rfl⟩
    · rw [h1]
      have hpos : (0 : Int) ≤ (i : Int) * ((7 : Nat) : Int) + (b : Int) := by
        push_cast; omega
      rw [if_pos hpos]
      exact ⟨_, rfl⟩

theorem get_highest_index_eq_of_max (bm : List Nat) (k : Nat) (hk : Upper bm k)
    (hmax : ∀ u, Upper bm u → u ≤ k) : get_highest_index bm = some k := by
  obtain ⟨k', hk'⟩ := get_highest_index_defined bm k hk
  obtain ⟨h1, h2⟩ := get_highest_index_upper bm k' hk'
  have : k' = k := Nat.le_antisymm (hmax k' h1) (h2 k hk)
  rw [hk', this]

/-! ## Bits of a bitmap -/

theorem getD_ne_zero_lt (bm : List Nat) (i : Nat) (h : bm.getD i 0 ≠ 0) : i < bm.length := by
  by_contra hc
  apply h
  simp [List.getD_eq_getElem?_getD, List.getElem?_eq_none (Nat.le_of_not_lt hc)]

theorem upper_of_bit (bm : List Nat) (hlen : bm.length ≤ MAX_BMAP_LEN) (j : Nat)
    (h : get_bit_status bm j = 1) : Upper bm j := by
  rw [get_bit_status_eq_one_iff] at h
  have hne : bm.getD (j / 7) 0 ≠ 0 := by
    intro h0; rw [h0] at h; simp at h
  have := getD_ne_zero_lt bm _ hne
  exact Or.inl ⟨j / 7, j % 7, by omega, Nat.mod_lt _ (by decide), h, by omega⟩

theorem bit_le_highest (bm : List Nat) (hlen : bm.length ≤ MAX_BMAP_LEN) (k j : Nat)
    (hk : get_highest_index bm = some k) (h : get_bit_status bm j = 1) : j ≤ k :=
  (get_highest_index_upper bm k hk).2 j (upper_of_bit bm hlen j h)

theorem bit_index_lt (bm : List Nat) (hlen : bm.length ≤ MAX_BMAP_LEN) (j : Nat)
    (h : get_bit_status bm j = 1) : j < 7 * MAX_BMAP_LEN := by
  rw [get_bit_status_eq_one_iff] at h
  have hne : bm.getD (j / 7) 0 ≠ 0 := by
    intro h0; rw [h0] at h; simp at h
  have := getD_ne_zero_lt bm _ hne
  omega

/-- The byte written by `giga_update_mapping` at `new_index`. -/
theorem set_bit_getD (bm : List Nat) (c : Nat) (hc : c / 7 < bm.length) (i : Nat) :
    (bm.set (c / 7) (bm.getD (c / 7) 0 ||| 2 ^ (c % 7))).getD i 0 =
      if i = c / 7 then bm.getD (c / 7) 0 ||| 2 ^ (c % 7) else bm.getD i 0 := by
  simp only [List.getD_eq_getElem?_getD, List.getElem?_set]
  by_cases h : c / 7 = i
  · subst h; simp [hc]
  · have h' : ¬ i = c / 7 := fun e => h e.symm
    simp [h, h']

theorem set_bit_status (bm : List Nat) (c : Nat) (hc : c / 7 < bm.length) (j : Nat) :
    get_bit_status (bm.set (c / 7) (bm.getD (c / 7) 0 ||| 2 ^ (c % 7))) j = 1 ↔
      get_bit_status bm j = 1 ∨ j = c := by
  rw [get_bit_status_eq_one_iff, get_bit_status_eq_one_iff, set_bit_getD bm c hc]
  by_cases h : j / 7 = c / 7
  · rw [if_pos h, Nat.testBit_or, Nat.testBit_two_pow, h]
    by_cases h2 : c % 7 = j % 7
    · have : j = c := by omega
      simp [h2, this]
    · have : j ≠ c := by intro e; subst e; exact h2 rfl
      simp [h2, this]
  · rw [if_neg h]
    have : j ≠ c := by intro e; subst e; exact h rfl
    simp [this]

theorem set_bit_upper (bm : List Nat) (c : Nat) (hc : c / 7 < bm.length) (u : Nat)
    (hu : Upper (bm.set (c / 7) (bm.getD (c / 7) 0 ||| 2 ^ (c % 7))) u) :
    Upper bm u ∨ u ≤ c := by
  rcases hu with ⟨i, b, hi, hb, hbit, hu⟩ | ⟨i, hi, hnz, hu⟩
  · rw [set_bit_getD bm c hc] at hbit
    by_cases h : i = c / 7
    · rw [if_pos h, Nat.testBit_or, Nat.testBit_two_pow] at hbit
      by_cases h2 : c % 7 = b
      · right; omega
      · left
        have hd : decide (c % 7 = b) = false := by simp [h2]
        rw [hd, Bool.or_false] at hbit
        exact Or.inl ⟨i, b, hi, hb, by rw [h]; exact hbit, hu⟩
    · rw [if_neg h] at hbit
      exact Or.inl (Or.inl ⟨i, b, hi, hb, hbit, hu⟩)
  · rw [set_bit_getD bm c hc] at hnz
    by_cases h : i = c / 7
    · right; omega
    · rw [if_neg h] at hnz
      exact Or.inl (Or.inr ⟨i, hi, hnz, hu⟩)

theorem upper_set_bit (bm : List Nat) (c : Nat) (hc : c / 7 < bm.length) (u : Nat)
    (hu : Upper bm u) : Upper (bm.set (c / 7) (bm.getD (c / 7) 0 ||| 2 ^ (c % 7))) u := by
  rcases hu with ⟨i, b, hi, hb, hbit, hu⟩ | ⟨i, hi, hnz, hu⟩
  · refine Or.inl ⟨i, b, hi, hb, ?_, hu⟩
    rw [set_bit_getD bm c hc]
    by_cases h : i = c / 7
    · rw [if_pos h, Nat.testBit_or, ← h, hbit]; rfl
    · rw [if_neg h]; exact hbit
  · refine Or.inr ⟨i, hi, ?_, hu⟩
    rw [set_bit_getD bm c hc]
    by_cases h : i = c / 7
    · rw [if_pos h, ← h]
      intro h0
      apply hnz
      apply Nat.eq_of_testBit_eq
      intro t
      have := congrArg (fun y => y.testBit t) h0
      simp only [Nat.testBit_or, Nat.zero_testBit, Bool.or_eq_false_iff] at this
      rw [Nat.zero_testBit]
      exact this.1
    · rw [if_neg h]; exact hnz

/-- The highest index after bit `c` has been set. -/
theorem set_bit_highest (bm : List Nat) (hlen : bm.length ≤ MAX_BMAP_LEN) (c : Nat)
    (hc : c / 7 < bm.length) :
    ∃ k', get_highest_index (bm.set (c / 7) (bm.getD (c / 7) 0 ||| 2 ^ (c % 7))) = some k' ∧
      c ≤ k' ∧ (∀ k, get_highest_index bm = some k → k' = max k c) ∧
      (get_highest_index bm = none → k' = c) := by
  have hlen' : (bm.set (c / 7) (bm.getD (c / 7) 0 ||| 2 ^ (c % 7))).length ≤ MAX_BMAP_LEN := by
    simpa using hlen
  have hS : get_bit_status (bm.set (c / 7) (bm.getD (c / 7) 0 ||| 2 ^ (c % 7))) c = 1 :=
    (set_bit_status bm c hc c).2 (Or.inr rfl)
  have hU := upper_of_bit _ hlen' c hS
  obtain ⟨k', hk'⟩ := get_highest_index_defined _ c hU
  obtain ⟨h1, h2⟩ := get_highest_index_upper _ k' hk'
  refine ⟨k', hk', h2 c hU, ?_, ?_⟩
  · intro k hk
    obtain ⟨h3, h4⟩ := get_highest_index_upper _ k hk
    have hle : k ≤ k' := h2 k (upper_set_bit bm c hc k h3)
    have hcle : c ≤ k' := h2 c hU
    rcases set_bit_upper bm c hc k' h1 with h5 | h5
    · have := h4 k' h5
      omega
    · omega
  · intro hnone
    have hcle : c ≤ k' := h2 c hU
    rcases set_bit_upper bm c hc k' h1 with h5 | h5
    · obtain ⟨k, hk⟩ := get_highest_index_defined bm k' h5
      rw [hnone] at hk; simp at hk
    · omega

/-! ## Radix, parent and hash prefix -/

theorem lt_two_pow_radix (k : Nat) : k < 2 ^ get_radix_from_index k := by
  unfold get_radix_from_index
  by_cases h0 : k = 0
  · simp [h0]
  · by_cases h1 : k = 1
    · simp [h1]
    · rw [if_neg h0, if_neg h1]
      exact Nat.lt_log2_self

theorem radix_le_of_lt (k r : Nat) (h : k < 2 ^ r) : get_radix_from_index k ≤ r := by
  unfold get_radix_from_index
  by_cases h0 : k = 0
  · simp [h0]
  · by_cases h1 : k = 1
    · rw [if_neg h0, if_pos h1]
      subst h1
      by_contra hc
      have : r = 0 := by omega
      subst this
      simp at h
    · rw [if_neg h0, if_neg h1]
      have := (Nat.log2_lt h0).2 h
      omega

theorem two_pow_radix_le (k : Nat) (hk : 2 ≤ k) : 2 ^ (get_radix_from_index k - 1) ≤ k := by
  unfold get_radix_from_index
  rw [if_neg (by omega), if_neg (by omega)]
  simpa using Nat.log2_self_le (by omega : k ≠ 0)

theorem get_parent_index_eq_mod (x : Nat) (hx : 0 < x) :
    get_parent_index x = x % 2 ^ Nat.log2 x := by
  unfold get_parent_index
  rw [if_pos hx, Nat.one_shiftLeft]
  have h1 := Nat.log2_self_le (by omega : x ≠ 0)
  have h2 : x < 2 ^ (Nat.log2 x + 1) := Nat.lt_log2_self
  rw [Nat.pow_succ] at h2
  have h3 : x - 2 ^ Nat.log2 x < 2 ^ Nat.log2 x := by omega
  generalize Nat.log2 x = L at h1 h2 h3 ⊢
  have h4 : x = (x - 2 ^ L) + 2 ^ L := by omega
  conv_rhs => rw [h4]
  rw [Nat.add_mod_right, Nat.mod_eq_of_lt h3]

theorem mod_two_pow_mod_two_pow (y a b : Nat) (h : b ≤ a) :
    y % 2 ^ a % 2 ^ b = y % 2 ^ b :=
  Nat.mod_mod_of_dvd y (Nat.pow_dvd_pow 2 h)

theorem mod_two_pow_mod_two_pow_ge (y a b : Nat) (h : a ≤ b) :
    y % 2 ^ a % 2 ^ b = y % 2 ^ a :=
  Nat.mod_eq_of_lt (Nat.lt_of_lt_of_le (Nat.mod_lt _ (Nat.two_pow_pos _))
    (Nat.pow_le_pow_right (by decide) h))

/-- The parent walk from `x < 2^r` ends, within `r + 1` tests, at the owner of `x`. -/
theorem parent_walk_owner (bm : List Nat) (h0 : get_bit_status bm 0 = 1) :
    ∀ r x fuel, x < 2 ^ r → r + 1 ≤ fuel →
      ∃ i, parent_walk bm fuel x = some i ∧ IsOwner bm x i := by
  intro r
  induction r with
  | zero =>
    intro x fuel hx hf
    have hx0 : x = 0 := by simpa using hx
    subst hx0
    obtain ⟨f, rfl⟩ : ∃ f, fuel = f + 1 := ⟨fuel - 1, by omega⟩
    refine ⟨0, ?_, ⟨0, by simp⟩, h0, fun k _ => by simp⟩
    unfold parent_walk
    rw [if_neg (by rw [h0]; decide)]
  | succ r ih =>
    intro x fuel hx hf
    obtain ⟨f, rfl⟩ : ∃ f, fuel = f + 1 := ⟨fuel - 1, by omega⟩
    unfold parent_walk
    by_cases hs : get_bit_status bm x = 0
    · rw [if_pos hs]
      have hxpos : 0 < x := by
        by_contra hc
        have : x = 0 := by omega
        subst this
        rw [h0] at hs
        exact absurd hs (by decide)
      have hL : Nat.log2 x ≤ r := by
        have := (Nat.log2_lt (by omega : x ≠ 0)).2 hx
        omega
      have hpar := get_parent_index_eq_mod x hxpos
      have hlt : get_parent_index x < 2 ^ r := by
        rw [hpar]
        exact Nat.lt_of_lt_of_le (Nat.mod_lt _ (Nat.two_pow_pos _))
          (Nat.pow_le_pow_right (by decide) hL)
      obtain ⟨i, hi, ⟨k, hk⟩, hset, hmax⟩ := ih (get_parent_index x) f hlt (by omega)
      refine ⟨i, hi, ?_, hset, ?_⟩
      · rw [hpar] at hk
        by_cases hkl : k ≤ Nat.log2 x
        · exact ⟨k, by rw [hk, mod_two_pow_mod_two_pow _ _ _ hkl]⟩
        · exact ⟨Nat.log2 x, by rw [hk, mod_two_pow_mod_two_pow_ge _ _ _ (by omega)]⟩
      · intro k hk
        by_cases hkl : k ≤ Nat.log2 x
        · have := hmax k
          rw [hpar, mod_two_pow_mod_two_pow _ _ _ hkl] at this
          exact this hk
        · exfalso
          have hxk : x % 2 ^ k = x := by
            apply Nat.mod_eq_of_lt
            exact Nat.lt_of_lt_of_le Nat.lt_log2_self (Nat.pow_le_pow_right (by decide) (by omega))
          rw [hxk, hs] at hk
          exact absurd hk (by decide)
    · rw [if_neg hs]
      have hset : get_bit_status bm x = 1 := by
        rcases get_bit_status_cases bm x with h | h
        · exact absurd h hs
        · exact h
      refine ⟨x, rfl, ⟨r + 1, (Nat.mod_eq_of_lt hx).symm⟩, hset, ?_⟩
      intro k _
      exact Nat.mod_le _ _

theorem owner_unique (bm : List Nat) (y i j : Nat) (hi : IsOwner bm y i) (hj : IsOwner bm y j) :
    i = j := by
  obtain ⟨⟨ki, hki⟩, hsi, hmi⟩ := hi
  obtain ⟨⟨kj, hkj⟩, hsj, hmj⟩ := hj
  have h1 : j ≤ i := by
    have := hmi kj
    rw [← hkj] at this
    exact this hsj
  have h2 : i ≤ j := by
    have := hmj ki
    rw [← hki] at this
    exact this hsi
  omega

/-- For a radix below `MAX_RADIX` the index is the low `radix` bits of the reversed
first byte of the hash. -/
theorem compute_index_eq (h : List Nat) (r : Nat) (hr : r < MAX_RADIX) :
    compute_index h r = some (reverse_byte (h.getD 0 0) % 2 ^ r) := by
  have hr8 : r < 8 := hr
  unfold compute_index
  rw [if_pos hr]
  have hdiv : r / 8 = 0 := by omega
  have hmod : r % 8 = r := by omega
  simp only [hdiv, hmod, List.range_zero, List.foldl_nil, Nat.zero_mul, Nat.shiftLeft_zero,
    Nat.zero_add, Nat.one_shiftLeft, Nat.and_pow_two_sub_one_eq_mod]
  by_cases h0 : r > 0
  · rw [if_pos h0]
  · rw [if_neg h0]
    have : r = 0 := by omega
    subst this
    simp [Nat.mod_one]

/-- The owner of a prefix `y % 2^r` is the owner of `y` when every set bit is below
`2^r`. -/
theorem owner_of_prefix (bm : List Nat) (y r i : Nat)
    (hall : ∀ j, get_bit_status bm j = 1 → j < 2 ^ r)
    (h : IsOwner bm (y % 2 ^ r) i) : IsOwner bm y i := by
  obtain ⟨⟨k, hk⟩, hset, hmax⟩ := h
  refine ⟨?_, hset, ?_⟩
  · by_cases hkr : k ≤ r
    · exact ⟨k, by rw [hk, mod_two_pow_mod_two_pow _ _ _ hkr]⟩
    · exact ⟨r, by rw [hk, mod_two_pow_mod_two_pow_ge _ _ _ (by omega)]⟩
  · intro k' hk'
    by_cases hkr : k' ≤ r
    · have := hmax k'
      rw [mod_two_pow_mod_two_pow _ _ _ hkr] at this
      exact this hk'
    · have hlt := hall _ hk'
      have e1 : y % 2 ^ k' % 2 ^ r = y % 2 ^ k' := Nat.mod_eq_of_lt hlt
      have e2 : y % 2 ^ k' % 2 ^ r = y % 2 ^ r := mod_two_pow_mod_two_pow _ _ _ (by omega)
      have := hmax r
      rw [Nat.mod_mod, ← e2, e1] at this
      exact this hk'

/-! ## The owning partition of a hash -/

theorem radix_le_seven (k : Nat) (hk : k < 128) : get_radix_from_index k ≤ 7 :=
  radix_le_of_lt k 7 (by simpa using hk)

/-- With bit 0 set and the highest index below 128, `giga_get_index_for_hash` returns
the owner of the reversed first hash byte. -/
theorem index_for_hash_owner (m : giga_mapping_t) (h : List Nat) (fuel k : Nat)
    (hlen : m.bitmap.length ≤ MAX_BMAP_LEN) (h0 : get_bit_status m.bitmap 0 = 1)
    (hk : get_highest_index m.bitmap = some k) (hk128 : k < 128) (hfuel : 8 ≤ fuel) :
    ∃ i, giga_get_index_for_hash fuel m h = some i ∧
      IsOwner m.bitmap (reverse_byte (h.getD 0 0)) i := by
  have hR := radix_le_seven k hk128
  have hcomp := compute_index_eq h (get_radix_from_index k)
    (by unfold MAX_RADIX; omega)
  obtain ⟨i, hi, hown⟩ := parent_walk_owner m.bitmap h0 (get_radix_from_index k)
    (reverse_byte (h.getD 0 0) % 2 ^ get_radix_from_index k) fuel
    (Nat.mod_lt _ (Nat.two_pow_pos _)) (by omega)
  refine ⟨i, ?_, ?_⟩
  · unfold giga_get_index_for_hash get_radix_from_bmap
    rw [hk]
    simp only [Option.map_some']
    rw [hcomp]
    exact hi
  · apply owner_of_prefix m.bitmap _ (get_radix_from_index k) i _ hown
    intro j hj
    exact Nat.lt_of_le_of_lt (bit_le_highest m.bitmap hlen k j hk hj) (lt_two_pow_radix k)

theorem index_for_hash_owner_of_eq (m : giga_mapping_t) (h : List Nat) (fuel k q : Nat)
    (hlen : m.bitmap.length ≤ MAX_BMAP_LEN) (h0 : get_bit_status m.bitmap 0 = 1)
    (hk : get_highest_index m.bitmap = some k) (hk128 : k < 128) (hfuel : 8 ≤ fuel)
    (hq : giga_get_index_for_hash fuel m h = some q) :
    IsOwner m.bitmap (reverse_byte (h.getD 0 0)) q := by
  obtain ⟨i, hi, hown⟩ := index_for_hash_owner m h fuel k hlen h0 hk hk128 hfuel
  rw [hq] at hi
  rw [Option.some.inj hi]
  exact hown

/-! ## The split target -/

theorem splitting_loop_spec (bm : List Nat) (p : Nat) :
    ∀ n i c, splitting_loop bm p n i = some c →
      ∃ r, i ≤ r ∧ r < i + n ∧ c = p + 2 ^ r ∧ get_bit_status bm c = 0 ∧
        ∀ r', i ≤ r' → r' < r → get_bit_status bm (p + 2 ^ r') = 1 := by
  intro n
  induction n with
  | zero => intro i c h; simp [splitting_loop] at h
  | succ n ih =>
    intro i c h
    unfold splitting_loop at h
    simp only [get_child_index, Nat.one_shiftLeft] at h
    by_cases hb : get_bit_status bm (p + 2 ^ i) = 0
    · rw [if_pos hb] at h
      have hc : p + 2 ^ i = c := Option.some.inj h
      subst hc
      exact ⟨i, le_refl _, by omega, rfl, hb, fun r' h1 h2 => by omega⟩
    · rw [if_neg hb] at h
      obtain ⟨r, h1, h2, h3, h4, h5⟩ := ih (i + 1) c h
      refine ⟨r, by omega, by omega, h3, h4, ?_⟩
      intro r' hr1 hr2
      by_cases he : r' = i
      · subst he
        rcases get_bit_status_cases bm (p + 2 ^ r') with h6 | h6
        · exact absurd h6 hb
        · exact h6
      · exact h5 r' (by omega) hr2

theorem splitting_loop_complete (bm : List Nat) (p : Nat) :
    ∀ n i r, i ≤ r → r < i + n → get_bit_status bm (p + 2 ^ r) = 0 →
      (∀ r', i ≤ r' → r' < r → get_bit_status bm (p + 2 ^ r') = 1) →
      splitting_loop bm p n i = some (p + 2 ^ r) := by
  intro n
  induction n with
  | zero => intro i r h1 h2; omega
  | succ n ih =>
    intro i r h1 h2 h3 h4
    unfold splitting_loop
    simp only [get_child_index, Nat.one_shiftLeft]
    by_cases he : r = i
    · subst he
      rw [if_pos h3]
    · have hi := h4 i (le_refl _) (by omega)
      rw [if_neg (by rw [hi]; decide)]
      exact ih (i + 1) r (by omega) (by omega) h3 (fun r' h5 h6 => h4 r' (by omega) h6)

/-- What `giga_index_for_splitting` returns when it returns. -/
theorem index_for_splitting_some (m : giga_mapping_t) (p c : Nat)
    (h : giga_index_for_splitting m p = some c) :
    get_bit_status m.bitmap p = 1 ∧
    ∃ r, get_radix_from_index p ≤ r ∧ r < MAX_RADIX ∧ c = p + 2 ^ r ∧
      get_bit_status m.bitmap c = 0 ∧
      ∀ r', get_radix_from_index p ≤ r' → r' < r → get_bit_status m.bitmap (p + 2 ^ r') = 1 := by
  unfold giga_index_for_splitting at h
  by_cases hp : get_bit_status m.bitmap p = 1
  · rw [if_pos hp] at h
    simp only at h
    cases hl : splitting_loop m.bitmap p (MAX_RADIX - get_radix_from_index p)
        (get_radix_from_index p) with
    | none => rw [hl] at h; simp at h
    | some c' =>
      rw [hl] at h
      simp only at h
      by_cases hne : c' ≠ p
      · rw [if_pos hne] at h
        have : c' = c := Option.some.inj h
        subst this
        obtain ⟨r, h1, h2, h3, h4, h5⟩ := splitting_loop_spec _ _ _ _ _ hl
        exact ⟨hp, r, h1, by omega, h3, h4, h5⟩
      · rw [if_neg hne] at h; simp at h
  · rw [if_neg hp] at h; simp at h

/-! ## Updates of a mapping -/

theorem update_mapping_eq (m : giga_mapping_t) (i : Nat)
    (hlen : m.bitmap.length = MAX_BMAP_LEN) (hi : i < 7 * MAX_BMAP_LEN) :
    ∃ k', get_highest_index
        (m.bitmap.set (i / 7) (m.bitmap.getD (i / 7) 0 ||| 2 ^ (i % 7))) = some k' ∧
      i ≤ k' ∧ (∀ k, get_highest_index m.bitmap = some k → k' = max k i) ∧
      giga_update_mapping m i = some { m with
        bitmap := m.bitmap.set (i / 7) (m.bitmap.getD (i / 7) 0 ||| 2 ^ (i % 7))
        curr_radix := get_radix_from_index k' } := by
  have hc : i / 7 < m.bitmap.length := by rw [hlen]; omega
  obtain ⟨k', hk', h1, h2, _⟩ := set_bit_highest m.bitmap (le_of_eq hlen) i hc
  refine ⟨k', hk', h1, h2, ?_⟩
  unfold giga_update_mapping get_radix_from_bmap
  simp only [bits_per_map_eq]
  rw [mask_eq_two_pow (i % 7) (Nat.mod_lt _ (by decide)), if_pos hc, hk']
  rfl

theorem merge_getD (a b : List Nat) (i : Nat) :
    ((List.range MAX_BMAP_LEN).map (fun i => a.getD i 0 ||| b.getD i 0)).getD i 0 =
      if i < MAX_BMAP_LEN then a.getD i 0 ||| b.getD i 0 else 0 := by
  simp only [List.getD_eq_getElem?_getD, List.getElem?_map, List.getElem?_range]
  by_cases h : i < MAX_BMAP_LEN
  · rw [if_pos h, List.getElem?_range h]; rfl
  · rw [if_neg h, List.getElem?_eq_none (by simpa using h)]; rfl

theorem merge_bit_status (a b : List Nat) (ha : a.length ≤ MAX_BMAP_LEN)
    (hb : b.length ≤ MAX_BMAP_LEN) (j : Nat) :
    get_bit_status ((List.range MAX_BMAP_LEN).map (fun i => a.getD i 0 ||| b.getD i 0)) j = 1 ↔
      get_bit_status a j = 1 ∨ get_bit_status b j = 1 := by
  constructor
  · intro h
    rw [get_bit_status_eq_one_iff, merge_getD] at h
    by_cases hj : j / 7 < MAX_BMAP_LEN
    · rw [if_pos hj, Nat.testBit_or, Bool.or_eq_true] at h
      rcases h with h | h
      · exact Or.inl ((get_bit_status_eq_one_iff a j).2 h)
      · exact Or.inr ((get_bit_status_eq_one_iff b j).2 h)
    · rw [if_neg hj] at h; simp at h
  · intro h
    have hj : j / 7 < MAX_BMAP_LEN := by
      rcases h with h | h
      · have := bit_index_lt a ha j h; omega
      · have := bit_index_lt b hb j h; omega
    rw [get_bit_status_eq_one_iff, merge_getD, if_pos hj, Nat.testBit_or, Bool.or_eq_true]
    rcases h with h | h
    · exact Or.inl ((get_bit_status_eq_one_iff a j).1 h)
    · exact Or.inr ((get_bit_status_eq_one_iff b j).1 h)

theorem update_cache_eq (curr update : giga_mapping_t)
    (hc : curr.bitmap.length ≤ MAX_BMAP_LEN) (hu : update.bitmap.length ≤ MAX_BMAP_LEN)
    (hbit : ∃ j, get_bit_status curr.bitmap j = 1 ∨ get_bit_status update.bitmap j = 1) :
    ∃ k', get_highest_index ((List.range MAX_BMAP_LEN).map
        (fun i => curr.bitmap.getD i 0 ||| update.bitmap.getD i 0)) = some k' ∧
      giga_update_cache curr update = some { curr with
        bitmap := (List.range MAX_BMAP_LEN).map
          (fun i => curr.bitmap.getD i 0 ||| update.bitmap.getD i 0)
        curr_radix := get_radix_from_index k'
        server_count :=
          if update.server_count > curr.server_count then update.server_count
          else curr.server_count } := by
  obtain ⟨j, hj⟩ := hbit
  have hS := (merge_bit_status curr.bitmap update.bitmap hc hu j).2 hj
  obtain ⟨k', hk'⟩ := get_highest_index_defined _ j
    (upper_of_bit _ (by simp) j hS)
  refine ⟨k', hk', ?_⟩
  unfold giga_update_cache get_radix_from_bmap
  simp only [hk', Option.map_some']

/-! ## Reversed bytes -/

theorem reverse_byte_bits : ∀ b, b < 256 → ∀ i, i < 8 →
    (reverse_byte b).testBit i = b.testBit (7 - i) := by
  set_option maxRecDepth 100000 in decide

theorem reverse_byte_lt (b : Nat) : reverse_byte b < 256 := by
  unfold reverse_byte
  exact Nat.mod_lt _ (by decide)

theorem spec_reversed_sum_mod (h : List Nat) (r : Nat) (hr : r ≤ 7) :
    spec_reversed_sum h % 2 ^ r = reverse_byte (h.getD 0 0) % 2 ^ r := by
  have hsum : ∃ X, spec_reversed_sum h = reverse_byte (h.getD 0 0) + 2 ^ 7 * X := by
    unfold spec_reversed_sum HASH_NUM_BYTES
    simp only [List.range_succ, List.range_zero, List.nil_append, List.map_append,
      List.map_cons, List.map_nil, List.sum_append, List.sum_cons, List.sum_nil,
      List.cons_append, Nat.shiftLeft_eq]
    refine ⟨reverse_byte (h.getD 1 0) + reverse_byte (h.getD 2 0) * 2 ^ 7 +
      reverse_byte (h.getD 3 0) * 2 ^ 14 + reverse_byte (h.getD 4 0) * 2 ^ 21 +
      reverse_byte (h.getD 5 0) * 2 ^ 28 + reverse_byte (h.getD 6 0) * 2 ^ 35 +
      reverse_byte (h.getD 7 0) * 2 ^ 42, ?_⟩
    ring
  obtain ⟨X, hX⟩ := hsum
  obtain ⟨d, hd⟩ : ∃ d, 2 ^ 7 = 2 ^ r * d := Nat.pow_dvd_pow 2 hr
  rw [hX, hd, Nat.mul_assoc, Nat.add_mul_mod_self_left]

/-! ## The split law -/

theorem prefix_eq_child (y k' p r : Nat) (hp : p < 2 ^ r) (h : y % 2 ^ k' = p + 2 ^ r) :
    y % 2 ^ (r + 1) = p + 2 ^ r ∧ y % 2 ^ r = p := by
  have hk : r + 1 ≤ k' := by
    by_contra hc
    have h1 : y % 2 ^ k' < 2 ^ k' := Nat.mod_lt _ (Nat.two_pow_pos _)
    have h2 : 2 ^ k' ≤ 2 ^ r := Nat.pow_le_pow_right (by decide) (by omega)
    omega
  have hlt : p + 2 ^ r < 2 ^ (r + 1) := by rw [Nat.pow_succ]; omega
  have e1 : y % 2 ^ (r + 1) = p + 2 ^ r := by
    rw [← mod_two_pow_mod_two_pow y k' (r + 1) hk, h, Nat.mod_eq_of_lt hlt]
  refine ⟨e1, ?_⟩
  rw [← mod_two_pow_mod_two_pow y (r + 1) r (by omega), e1, Nat.add_mod_right,
    Nat.mod_eq_of_lt hp]

theorem radix_of_child (p r : Nat) (hp : p < 2 ^ r) :
    get_radix_from_index (p + 2 ^ r) = r + 1 := by
  have hpos : 0 < 2 ^ r := Nat.two_pow_pos r
  have hlt : p + 2 ^ r < 2 ^ (r + 1) := by rw [Nat.pow_succ]; omega
  have hle := radix_le_of_lt _ _ hlt
  have hlt2 := lt_two_pow_radix (p + 2 ^ r)
  by_contra hne
  have h3 : get_radix_from_index (p + 2 ^ r) ≤ r := by omega
  have h4 : 2 ^ get_radix_from_index (p + 2 ^ r) ≤ 2 ^ r := Nat.pow_le_pow_right (by decide) h3
  omega

theorem migration_status_eq (h : List Nat) (p r : Nat) (hp : p < 2 ^ r) (hr : r + 1 < MAX_RADIX) :
    giga_file_migration_status_with_hash h (p + 2 ^ r) =
      some (if reverse_byte (h.getD 0 0) % 2 ^ (r + 1) = p + 2 ^ r then 1 else 0) := by
  unfold giga_file_migration_status_with_hash
  simp only [radix_of_child p r hp, compute_index_eq h (r + 1) hr]
  split <;> rfl

/-- The owner of a hash prefix after the bit of the split target has been set. -/
theorem owner_after_split (bm bm' : List Nat) (y p r q : Nat)
    (hbits : ∀ j, get_bit_status bm' j = 1 ↔ get_bit_status bm j = 1 ∨ j = p + 2 ^ r)
    (hp : get_bit_status bm p = 1) (hpr : p < 2 ^ r)
    (hclear : get_bit_status bm (p + 2 ^ r) = 0)
    (hq : IsOwner bm y q) :
    IsOwner bm' y
      (if q = p then (if y % 2 ^ (r + 1) = p + 2 ^ r then p + 2 ^ r else p) else q) := by
  obtain ⟨⟨kq, hkq⟩, hsq, hmq⟩ := hq
  have hpos : 0 < 2 ^ r := Nat.two_pow_pos r
  by_cases hqp : q = p
  · rw [if_pos hqp]
    subst hqp
    by_cases hmig : y % 2 ^ (r + 1) = q + 2 ^ r
    · rw [if_pos hmig]
      refine ⟨⟨r + 1, hmig.symm⟩, (hbits _).2 (Or.inr rfl), ?_⟩
      intro k' hk'
      rcases (hbits _).1 hk' with h1 | h1
      · have := hmq k' h1; omega
      · omega
    · rw [if_neg hmig]
      refine ⟨⟨kq, hkq⟩, (hbits _).2 (Or.inl hsq), ?_⟩
      intro k' hk'
      rcases (hbits _).1 hk' with h1 | h1
      · exact hmq k' h1
      · exact absurd (prefix_eq_child y k' q r hpr h1).1 hmig
  · rw [if_neg hqp]
    refine ⟨⟨kq, hkq⟩, (hbits _).2 (Or.inl hsq), ?_⟩
    intro k' hk'
    rcases (hbits _).1 hk' with h1 | h1
    · exact hmq k' h1
    · obtain ⟨e1, e2⟩ := prefix_eq_child y k' p r hpr h1
      rw [h1]
      have hpq : p ≤ q := by
        have := hmq r
        rw [e2] at this
        exact this hp
      have hkr : r + 1 ≤ kq := by
        by_contra hc
        have hq' : q = p % 2 ^ kq := by
          rw [hkq, ← e2, mod_two_pow_mod_two_pow y r kq (by omega)]
        have : p % 2 ^ kq ≤ p := Nat.mod_le _ _
        exact hqp (by omega)
      have : q % 2 ^ (r + 1) = p + 2 ^ r := by
        rw [hkq, mod_two_pow_mod_two_pow y kq (r + 1) hkr, e1]
      have hle : q % 2 ^ (r + 1) ≤ q := Nat.mod_le _ _
      omega

/-! ## Radix of an index and of a bitmap -/

theorem byte_low_bit (v : Nat) (hv : v ≠ 0) (hlt : v < 128) :
    ∃ b, b < 7 ∧ v.testBit b = true := by
  obtain ⟨t, ht⟩ := Nat.ne_zero_implies_bit_true hv
  refine ⟨t, ?_, ht⟩
  by_contra hc
  have h1 : v < 2 ^ t :=
    Nat.lt_of_lt_of_le (by simpa using hlt) (Nat.pow_le_pow_right (by decide) (by omega : 7 ≤ t))
  rw [Nat.testBit_lt_two_pow h1] at ht
  exact absurd ht (by decide)

theorem getD_replicate_zero (n t : Nat) : (List.replicate n 0).getD t 0 = 0 := by
  simp only [List.getD_eq_getElem?_getD, List.getElem?_replicate]
  split <;> rfl

theorem getD_lt_of_forall (bm : List Nat) (n : Nat) (h : ∀ b, b ∈ bm → b < n) (hn : 0 < n)
    (i : Nat) : bm.getD i 0 < n := by
  by_cases hi : i < bm.length
  · rw [List.getD_eq_getElem _ _ hi]
    exact h _ (List.getElem_mem hi)
  · rw [List.getD_eq_default _ _ (by omega)]
    exact hn

/-- With the high bit of every byte clear, `get_highest_index` is the highest index
whose bit is set. -/
theorem highest_index_of_clean (bm : List Nat) (k : Nat)
    (hclean : ∀ b, b ∈ bm → b < 128)
    (hlen : bm.length = MAX_BMAP_LEN)
    (hk : get_bit_status bm k = 1) (hmax : ∀ j, get_bit_status bm j = 1 → j ≤ k) :
    get_highest_index bm = some k := by
  apply get_highest_index_eq_of_max bm k (upper_of_bit bm (le_of_eq hlen) k hk)
  have hfirst : ∀ i b, b < 7 → (bm.getD i 0).testBit b = true → 7 * i + b ≤ k := by
    intro i b hb hbit
    apply hmax
    rw [get_bit_status_eq_one_iff]
    have e1 : (7 * i + b) / 7 = i := by omega
    have e2 : (7 * i + b) % 7 = b := by omega
    rw [e1, e2]
    exact hbit
  rintro u (⟨i, b, _, hb, hbit, hu⟩ | ⟨i, _, hnz, hu⟩)
  · rw [hu]; exact hfirst i b hb hbit
  · obtain ⟨b, hb, hbit⟩ := byte_low_bit _ hnz (getD_lt_of_forall bm 128 hclean (by decide) i)
    have := hfirst i b hb hbit
    omega

/-! ## What the two updates return -/

theorem update_cache_some (curr update m' : giga_mapping_t)
    (h : giga_update_cache curr update = some m') :
    m'.bitmap = (List.range MAX_BMAP_LEN).map
        (fun i => curr.bitmap.getD i 0 ||| update.bitmap.getD i 0) ∧
      get_radix_from_bmap m'.bitmap = some m'.curr_radix ∧
      m'.id = curr.id ∧ m'.zeroth_server = curr.zeroth_server ∧
      m'.server_count = max curr.server_count update.server_count := by
  unfold giga_update_cache at h
  cases hr : get_radix_from_bmap ((List.range MAX_BMAP_LEN).map
      (fun i => curr.bitmap.getD i 0 ||| update.bitmap.getD i 0)) with
  | none => simp only [hr] at h; exact absurd h (by simp)
  | some radix =>
    simp only [hr] at h
    have hm := (Option.some.inj h).symm
    subst hm
    refine ⟨rfl, hr, rfl, rfl, ?_⟩
    simp only
    split <;> omega

theorem update_mapping_some (m m' : giga_mapping_t) (i : Nat)
    (h : giga_update_mapping m i = some m') :
    i / 7 < m.bitmap.length ∧
      m'.bitmap = m.bitmap.set (i / 7) (m.bitmap.getD (i / 7) 0 ||| 2 ^ (i % 7)) ∧
      get_radix_from_bmap m'.bitmap = some m'.curr_radix ∧
      m'.id = m.id ∧ m'.zeroth_server = m.zeroth_server ∧
      m'.server_count = m.server_count := by
  unfold giga_update_mapping at h
  simp only [bits_per_map_eq] at h
  rw [mask_eq_two_pow (i % 7) (Nat.mod_lt _ (by decide))] at h
  by_cases hc : i / 7 < m.bitmap.length
  · rw [if_pos hc] at h
    cases hr : get_radix_from_bmap
        (m.bitmap.set (i / 7) (m.bitmap.getD (i / 7) 0 ||| 2 ^ (i % 7))) with
    | none => simp only [hr] at h; exact absurd h (by simp)
    | some radix =>
      simp only [hr] at h
      have hm := (Option.some.inj h).symm
      subst hm
      exact ⟨hc, rfl, hr, rfl, rfl, rfl⟩
  · rw [if_neg hc] at h
    exact absurd h (by simp)

/-! ## Merging bitmaps -/

theorem or_eq_right_of_bits (a b : Nat) (h : ∀ t, a.testBit t = true → b.testBit t = true) :
    a ||| b = b := by
  apply Nat.eq_of_testBit_eq
  intro t
  rw [Nat.testBit_or]
  cases ha : a.testBit t with
  | false => rfl
  | true => rw [h t ha]; rfl

theorem or_ne_zero_iff (a b : Nat) : a ||| b ≠ 0 ↔ a ≠ 0 ∨ b ≠ 0 := by
  constructor
  · intro h
    by_contra hc
    push_neg at hc
    apply h
    rw [hc.1, hc.2]
    rfl
  · intro h h0
    have hbits : ∀ t, a.testBit t = false ∧ b.testBit t = false := by
      intro t
      have := congrArg (fun y => y.testBit t) h0
      simpa [Nat.testBit_or] using this
    rcases h with h | h
    · exact h (Nat.eq_of_testBit_eq (fun t => by rw [(hbits t).1, Nat.zero_testBit]))
    · exact h (Nat.eq_of_testBit_eq (fun t => by rw [(hbits t).2, Nat.zero_testBit]))

theorem map_getD_range (l : List Nat) (n : Nat) (h : l.length = n) :
    (List.range n).map (fun i => l.getD i 0) = l := by
  apply List.ext_getElem
  · simp [h]
  · intro i h1 h2
    simp only [List.getElem_map, List.getElem_range]
    exact List.getD_eq_getElem _ _ h2

theorem merge_eq_right (a b : List Nat) (hb : b.length = MAX_BMAP_LEN)
    (hsub : ∀ i t, (a.getD i 0).testBit t = true → (b.getD i 0).testBit t = true) :
    (List.range MAX_BMAP_LEN).map (fun i => a.getD i 0 ||| b.getD i 0) = b := by
  have : (fun i => a.getD i 0 ||| b.getD i 0) = fun i => b.getD i 0 := by
    funext i
    exact or_eq_right_of_bits _ _ (hsub i)
  rw [this]
  exact map_getD_range b _ hb

theorem upper_merge (a b : List Nat) (u : Nat) :
    Upper ((List.range MAX_BMAP_LEN).map (fun i => a.getD i 0 ||| b.getD i 0)) u ↔
      Upper a u ∨ Upper b u := by
  constructor
  · rintro (⟨i, t, hi, ht, hbit, hu⟩ | ⟨i, hi, hnz, hu⟩)
    · rw [merge_getD, if_pos hi, Nat.testBit_or, Bool.or_eq_true] at hbit
      rcases hbit with h | h
      · exact Or.inl (Or.inl ⟨i, t, hi, ht, h, hu⟩)
      · exact Or.inr (Or.inl ⟨i, t, hi, ht, h, hu⟩)
    · rw [merge_getD, if_pos hi, or_ne_zero_iff] at hnz
      rcases hnz with h | h
      · exact Or.inl (Or.inr ⟨i, hi, h, hu⟩)
      · exact Or.inr (Or.inr ⟨i, hi, h, hu⟩)
  · rintro ((⟨i, t, hi, ht, hbit, hu⟩ | ⟨i, hi, hnz, hu⟩) | (⟨i, t, hi, ht, hbit, hu⟩ | ⟨i, hi, hnz, hu⟩))
    · refine Or.inl ⟨i, t, hi, ht, ?_, hu⟩
      rw [merge_getD, if_pos hi, Nat.testBit_or, hbit]; rfl
    · refine Or.inr ⟨i, hi, ?_, hu⟩
      rw [merge_getD, if_pos hi, or_ne_zero_iff]; exact Or.inl hnz
    · refine Or.inl ⟨i, t, hi, ht, ?_, hu⟩
      rw [merge_getD, if_pos hi, Nat.testBit_or, hbit, Bool.or_true]
    · refine Or.inr ⟨i, hi, ?_, hu⟩
      rw [merge_getD, if_pos hi, or_ne_zero_iff]; exact Or.inr hnz

theorem highest_merge (a b : List Nat) (ka kb : Nat)
    (ha : get_highest_index a = some ka) (hb : get_highest_index b = some kb) :
    get_highest_index ((List.range MAX_BMAP_LEN).map (fun i => a.getD i 0 ||| b.getD i 0)) =
      some (max ka kb) := by
  obtain ⟨ha1, ha2⟩ := get_highest_index_upper a ka ha
  obtain ⟨hb1, hb2⟩ := get_highest_index_upper b kb hb
  apply get_highest_index_eq_of_max
  · rw [upper_merge]
    by_cases h : ka ≤ kb
    · rw [Nat.max_eq_right h]; exact Or.inr hb1
    · rw [Nat.max_eq_left (by omega)]; exact Or.inl ha1
  · intro u hu
    rw [upper_merge] at hu
    rcases hu with hu | hu
    · have := ha2 u hu; omega
    · have := hb2 u hu; omega

/-! ## Routing on well-formed mappings -/

theorem to_legacy_copy (s : giga_mapping_t) (hs : s.bitmap.length = MAX_BMAP_LEN) :
    ToLegacyMapping (CopyGigaMap s) = s := by
  unfold ToLegacyMapping CopyGigaMap
  simp only
  rw [map_getD_range _ _ (by simp), map_getD_range _ _ hs]

theorem index_for_file_congr (murmur : List Nat → List Nat) (fuel : Nat)
    (m1 m2 : giga_mapping_t) (name : List Nat) (h : m1.bitmap = m2.bitmap) :
    giga_get_index_for_file murmur fuel m1 name =
      giga_get_index_for_file murmur fuel m2 name := by
  unfold giga_get_index_for_file giga_get_index_for_hash
  rw [h]

theorem select_server_congr (srv_num : Int) (murmur : List Nat → List Nat) (fuel : Nat)
    (m1 m2 : giga_mapping_t) (name : List Nat) (h : m1.bitmap = m2.bitmap)
    (hz : m1.zeroth_server = m2.zeroth_server) (hs : m1.server_count = m2.server_count) :
    SelectServer srv_num murmur fuel m1 name = SelectServer srv_num murmur fuel m2 name ∧
    giga_get_server_for_file murmur fuel m1 name =
      giga_get_server_for_file murmur fuel m2 name := by
  unfold SelectServer giga_get_server_for_file giga_get_server_for_index
  rw [index_for_file_congr murmur fuel m1 m2 name h, hz, hs]
  exact ⟨rfl, rfl⟩

/-- A server that `SelectServer` returns is the server of the partition of the name,
and `CheckAddressing` at that server returns the partition. -/
theorem select_server_parts (srv_num : Int) (murmur : List Nat → List Nat) (fuel : Nat)
    (m : giga_mapping_t) (name : List Nat) (server : Int)
    (h : SelectServer srv_num murmur fuel m name = some server) :
    ∃ index : Nat, giga_get_index_for_file murmur fuel m name = some index ∧
      giga_get_server_for_index m index = some server ∧
      CheckAddressing server murmur fuel m name = some (index : Int) := by
  unfold SelectServer at h
  unfold CheckAddressing
  cases hi : giga_get_index_for_file murmur fuel m name with
  | none => rw [hi] at h; simp at h
  | some index =>
    rw [hi] at h
    simp only at h ⊢
    cases hs : giga_get_server_for_index m index with
    | none => rw [hs] at h; simp at h
    | some srv =>
      rw [hs] at h
      simp only at h ⊢
      by_cases hc : 0 ≤ srv ∧ srv < srv_num
      · rw [if_pos hc] at h
        have := Option.some.inj h
        subst this
        exact ⟨index, rfl, hs, by simp [hs]⟩
      · rw [if_neg hc] at h; simp at h

theorem wf_select (srv_num : Int) (murmur : List Nat → List Nat) (fuel : Nat)
    (m : giga_mapping_t) (name : List Nat) (hwf : WellFormed srv_num m) (hfuel : 8 ≤ fuel) :
    ∃ server, SelectServer srv_num murmur fuel m name = some server := by
  obtain ⟨hlen, h0, ⟨k, hk, hk128⟩, hpos, hle, hsrv⟩ := hwf
  obtain ⟨i, hi, _⟩ := index_for_hash_owner m (giga_hash_name murmur name) fuel k
    (le_of_eq hlen) h0 hk hk128 hfuel
  have hi' : giga_get_index_for_file murmur fuel m name = some i := hi
  unfold SelectServer giga_get_server_for_index
  rw [hi']
  simp only
  rw [if_neg (by omega)]
  simp only
  have hlt : ((i + m.zeroth_server) % 2 ^ 32) % m.server_count < m.server_count :=
    Nat.mod_lt _ hpos
  generalize ((i + m.zeroth_server) % 2 ^ 32) % m.server_count = v at hlt
  have hv : to_signed_int v = (v : Int) := by
    unfold to_signed_int
    have h1 : v < 2 ^ 31 := by omega
    have h2 : v % 2 ^ 32 = v := Nat.mod_eq_of_lt (by omega)
    rw [h2, if_pos h1]
  rw [hv, if_pos ⟨by omega, by omega⟩]
  exact ⟨_, rfl⟩

theorem wf_update (srv_num : Int) (m : giga_mapping_t) (b : GigaBitmap)
    (hwf : WellFormed srv_num m) (hb : WellFormed srv_num (ToLegacyMapping b)) :
    ∃ m', UpdateBitmap m b = some m' ∧ WellFormed srv_num m' ∧
      (∀ j, get_bit_status m.bitmap j = 1 → get_bit_status m'.bitmap j = 1) ∧
      (∀ j, get_bit_status (ToLegacyMapping b).bitmap j = 1 →
        get_bit_status m'.bitmap j = 1) := by
  obtain ⟨hlen, h0, ⟨k, hk, hk128⟩, hpos, hle, hsrv⟩ := hwf
  obtain ⟨hlenb, _, ⟨kb, hkb, hkb128⟩, hposb, hleb, _⟩ := hb
  obtain ⟨k', hk', heq⟩ := update_cache_eq m (ToLegacyMapping b) (le_of_eq hlen)
    (le_of_eq hlenb) ⟨0, Or.inl h0⟩
  have hbits := merge_bit_status m.bitmap (ToLegacyMapping b).bitmap (le_of_eq hlen)
    (le_of_eq hlenb)
  have hmax := highest_merge m.bitmap (ToLegacyMapping b).bitmap k kb hk hkb
  refine ⟨_, heq, ⟨by simp, (hbits 0).2 (Or.inl h0), ⟨max k kb, hmax, by omega⟩, ?_, ?_, hsrv⟩,
    fun j hj => (hbits j).2 (Or.inl hj), fun j hj => (hbits j).2 (Or.inr hj)⟩
  · simp only
    split <;> omega
  · simp only
    split <;> assumption

/-! ## The retry loops of the client -/

theorem mapping_at_step (srv_num : Int) (murmur : List Nat → List Nat) (fuel : Nat)
    (rpc : Nat → Int → Reply) (entry : List Nat) (mapping m m' : giga_mapping_t) (n : Nat)
    (server : Int) (b : GigaBitmap)
    (hm : mapping_at srv_num murmur fuel rpc entry mapping n = some m)
    (hsel : SelectServer srv_num murmur fuel m entry = some server)
    (hb : rpc n server = .ServerRedirection b) (hupd : UpdateBitmap m b = some m') :
    mapping_at srv_num murmur fuel rpc entry mapping (n + 1) = some m' := by
  rw [mapping_at]
  simp only [hm, hsel, hb, hupd]

theorem addressed_of_mapping_at (srv_num : Int) (murmur : List Nat → List Nat) (fuel : Nat)
    (rpc : Nat → Int → Reply) (entry : List Nat) (mapping m : giga_mapping_t) (n : Nat)
    (hm : mapping_at srv_num murmur fuel rpc entry mapping n = some m) :
    addressed srv_num murmur fuel rpc entry mapping n =
      SelectServer srv_num murmur fuel m entry := by
  unfold addressed
  rw [hm]

/-- When the server addressed at each of the remaining attempts answers with a
redirection carrying a well-formed mapping, the bounded loop uses up its `rem`
iterations and returns `Corruption`; the mapping it leaves is the one held after the
last merge, and holds the bits of the mapping it started with and of the reply to each
attempt. -/
theorem redirect_loop_addressed_redirect (srv_num : Int) (murmur : List Nat → List Nat)
    (fuel : Nat) (catches : Reply → Option Status) (rpc : Nat → Int → Reply)
    (entry : List Nat) (mapping : giga_mapping_t) (hfuel : 8 ≤ fuel) :
    ∀ rem n m, WellFormed srv_num m →
      mapping_at srv_num murmur fuel rpc entry mapping n = some m →
      (∀ i server, n ≤ i → i < n + rem →
        addressed srv_num murmur fuel rpc entry mapping i = some server →
        ∃ b, rpc i server = .ServerRedirection b ∧ WellFormed srv_num (ToLegacyMapping b)) →
      (redirect_loop srv_num murmur fuel catches rpc entry rem n m).outcome =
        .returned .Corruption ∧
      (redirect_loop srv_num murmur fuel catches rpc entry rem n m).attempts = n + rem ∧
      mapping_at srv_num murmur fuel rpc entry mapping (n + rem) =
        some (redirect_loop srv_num murmur fuel catches rpc entry rem n m).mapping ∧
      (∀ j, get_bit_status m.bitmap j = 1 → get_bit_status
        (redirect_loop srv_num murmur fuel catches rpc entry rem n m).mapping.bitmap j = 1) ∧
      (∀ i, n ≤ i → i < n + rem → ∃ server b,
        addressed srv_num murmur fuel rpc entry mapping i = some server ∧
        rpc i server = .ServerRedirection b ∧
        ∀ j, get_bit_status (ToLegacyMapping b).bitmap j = 1 → get_bit_status
          (redirect_loop srv_num murmur fuel catches rpc entry rem n m).mapping.bitmap j = 1) := by
  intro rem
  induction rem with
  | zero =>
    intro n m _ hm _
    exact ⟨rfl, rfl, hm, fun j hj => hj, fun i h1 h2 => by omega⟩
  | succ k ih =>
    intro n m hwf hm hrpc
    obtain ⟨server, hsel⟩ := wf_select srv_num murmur fuel m entry hwf hfuel
    have haddr : addressed srv_num murmur fuel rpc entry mapping n = some server := by
      rw [addressed_of_mapping_at srv_num murmur fuel rpc entry mapping m n hm]
      exact hsel
    obtain ⟨b, hb, hbwf⟩ := hrpc n server (le_refl _) (by omega) haddr
    obtain ⟨m', hupd, hwf', hmono, hmonob⟩ := wf_update srv_num m b hwf hbwf
    have hm' := mapping_at_step srv_num murmur fuel rpc entry mapping m m' n server b
      hm hsel hb hupd
    have hstep : redirect_loop srv_num murmur fuel catches rpc entry (k + 1) n m =
        redirect_loop srv_num murmur fuel catches rpc entry k (n + 1) m' := by
      rw [redirect_loop]
      simp only [hsel, hb, hupd]
    rw [hstep]
    obtain ⟨h1, h2, h3, h4, h5⟩ := ih (n + 1) m' hwf' hm'
      (fun i srv hi1 hi2 => hrpc i srv (by omega) (by omega))
    refine ⟨h1, by omega, ?_, fun j hj => h4 j (hmono j hj), ?_⟩
    · rw [show n + (k + 1) = n + 1 + k by omega]
      exact h3
    · intro i hi1 hi2
      by_cases hin : i = n
      · subst hin
        exact ⟨server, b, haddr, hb, fun j hj => h4 j (hmonob j hj)⟩
      · exact h5 i (by omega) (by omega)

/-- With the servers addressed at the next `j` attempts answering with redirections
and the server addressed after them answering with a success, the bounded loop
returns `OK` after `j + 1` attempts, provided `j + 1` iterations are left. -/
theorem redirect_loop_addressed_success (srv_num : Int) (murmur : List Nat → List Nat)
    (fuel : Nat) (catches : Reply → Option Status) (rpc : Nat → Int → Reply)
    (entry : List Nat) (mapping : giga_mapping_t) (hfuel : 8 ≤ fuel)
    (hok : catches .ok = some .OK) :
    ∀ j rem n m, j < rem → WellFormed srv_num m →
      mapping_at srv_num murmur fuel rpc entry mapping n = some m →
      (∀ i server, n ≤ i → i < n + j →
        addressed srv_num murmur fuel rpc entry mapping i = some server →
        ∃ b, rpc i server = .ServerRedirection b ∧ WellFormed srv_num (ToLegacyMapping b)) →
      (∀ server, addressed srv_num murmur fuel rpc entry mapping (n + j) = some server →
        rpc (n + j) server = .ok) →
      (redirect_loop srv_num murmur fuel catches rpc entry rem n m).outcome = .returned .OK ∧
      (redirect_loop srv_num murmur fuel catches rpc entry rem n m).attempts = n + j + 1 := by
  intro j
  induction j with
  | zero =>
    intro rem n m hrem hwf hm _ hsucc
    obtain ⟨k, rfl⟩ : ∃ k, rem = k + 1 := ⟨rem - 1, by omega⟩
    obtain ⟨server, hsel⟩ := wf_select srv_num murmur fuel m entry hwf hfuel
    have haddr : addressed srv_num murmur fuel rpc entry mapping (n + 0) = some server := by
      rw [Nat.add_zero, addressed_of_mapping_at srv_num murmur fuel rpc entry mapping m n hm]
      exact hsel
    rw [redirect_loop]
    have := hsucc server haddr
    simp only [Nat.add_zero] at this
    simp only [hsel, this, hok, and_self]
  | succ j ih =>
    intro rem n m hrem hwf hm hred hsucc
    obtain ⟨k, rfl⟩ : ∃ k, rem = k + 1 := ⟨rem - 1, by omega⟩
    obtain ⟨server, hsel⟩ := wf_select srv_num murmur fuel m entry hwf hfuel
    have haddr : addressed srv_num murmur fuel rpc entry mapping n = some server := by
      rw [addressed_of_mapping_at srv_num murmur fuel rpc entry mapping m n hm]
      exact hsel
    obtain ⟨b, hb, hbwf⟩ := hred n server (le_refl _) (by omega) haddr
    obtain ⟨m', hupd, hwf', _, _⟩ := wf_update srv_num m b hwf hbwf
    have hm' := mapping_at_step srv_num murmur fuel rpc entry mapping m m' n server b
      hm hsel hb hupd
    have hstep : redirect_loop srv_num murmur fuel catches rpc entry (k + 1) n m =
        redirect_loop srv_num murmur fuel catches rpc entry k (n + 1) m' := by
      rw [redirect_loop]
      simp only [hsel, hb, hupd]
    rw [hstep]
    have := ih k (n + 1) m' (by omega) hwf' hm'
      (fun i srv h1 h2 => hred i srv (by omega) (by omega))
      (fun srv h => by
        rw [show n + 1 + j = n + (j + 1) by omega] at h ⊢
        exact hsucc srv h)
    exact ⟨this.1, by rw [this.2]; omega⟩

/-- With every reply a redirection carrying a well-formed mapping, the recursion of
`RPC_Chmod` and `RPC_Remove` issues one attempt per call and does not return. -/
theorem recursive_retry_all_redirect (srv_num : Int) (murmur : List Nat → List Nat)
    (fuel : Nat) (catches : Reply → Option Status) (rpc : Nat → Int → Reply)
    (entry : List Nat) (hfuel : 8 ≤ fuel)
    (hrpc : ∀ i srv, ∃ b, rpc i srv = .ServerRedirection b ∧
      WellFormed srv_num (ToLegacyMapping b)) :
    ∀ calls n m, WellFormed srv_num m →
      (recursive_retry srv_num murmur fuel catches rpc entry calls n m).outcome =
        .out_of_fuel ∧
      (recursive_retry srv_num murmur fuel catches rpc entry calls n m).attempts =
        n + calls := by
  intro calls
  induction calls with
  | zero => intro n m _; exact ⟨rfl, rfl⟩
  | succ k ih =>
    intro n m hwf
    obtain ⟨server, hsel⟩ := wf_select srv_num murmur fuel m entry hwf hfuel
    obtain ⟨b, hb, hbwf⟩ := hrpc n server
    obtain ⟨m', hupd, hwf', _, _⟩ := wf_update srv_num m b hwf hbwf
    have hstep : recursive_retry srv_num murmur fuel catches rpc entry (k + 1) n m =
        recursive_retry srv_num murmur fuel catches rpc entry k (n + 1) m' := by
      rw [recursive_retry]
      simp only [hsel, hb, hupd]
    rw [hstep]
    obtain ⟨h1, h2⟩ := ih (n + 1) m' hwf'
    exact ⟨h1, by omega⟩

/-- With every reply a redirection carrying a well-formed mapping, the `while (true)`
loop of `RPC_Create` and `RPC_Open` issues one attempt per iteration and does not
return. -/
theorem while_true_retry_all_redirect (srv_num : Int) (murmur : List Nat → List Nat)
    (fuel : Nat) (catches : Reply → Option Status) (rpc : Nat → Int → Reply)
    (entry : List Nat) (hfuel : 8 ≤ fuel)
    (hrpc : ∀ i srv, ∃ b, rpc i srv = .ServerRedirection b ∧
      WellFormed srv_num (ToLegacyMapping b)) :
    ∀ iterations n server m, WellFormed srv_num m →
      (while_true_retry srv_num murmur fuel catches rpc entry iterations n server m).outcome =
        .out_of_fuel ∧
      (while_true_retry srv_num murmur fuel catches rpc entry iterations n server m).attempts =
        n + iterations := by
  intro iterations
  induction iterations with
  | zero => intro n server m _; exact ⟨rfl, rfl⟩
  | succ k ih =>
    intro n server m hwf
    obtain ⟨b, hb, hbwf⟩ := hrpc n server
    obtain ⟨m', hupd, hwf', _, _⟩ := wf_update srv_num m b hwf hbwf
    obtain ⟨server', hsel⟩ := wf_select srv_num murmur fuel m' entry hwf' hfuel
    have hstep : while_true_retry srv_num murmur fuel catches rpc entry (k + 1) n server m =
        while_true_retry srv_num murmur fuel catches rpc entry k (n + 1) server' m' := by
      rw [while_true_retry]
      simp only [hb, hupd, hsel]
    rw [hstep]
    obtain ⟨h1, h2⟩ := ih (n + 1) server' m' hwf'
    exact ⟨h1, by omega⟩

theorem ten_redirections (srv_num : Int) (murmur : List Nat → List Nat)
    (fuel : Nat) (catches : Reply → Option Status) (rpc : Nat → Int → Reply)
    (entry : List Nat) (mapping : giga_mapping_t) (hfuel : 8 ≤ fuel)
    (hwf : WellFormed srv_num mapping)
    (hrpc : ∀ i server, i < 10 →
      addressed srv_num murmur fuel rpc entry mapping i = some server →
      ∃ b, rpc i server = .ServerRedirection b ∧ WellFormed srv_num (ToLegacyMapping b)) :
    TenRedirections srv_num murmur fuel rpc entry mapping
      (redirect_loop srv_num murmur fuel catches rpc entry kNumRedirect 0 mapping) := by
  have hk : kNumRedirect = 10 := rfl
  obtain ⟨h1, h2, h3, h4, h5⟩ := redirect_loop_addressed_redirect srv_num murmur fuel catches
    rpc entry mapping hfuel kNumRedirect 0 mapping hwf rfl
    (fun i server _ hi => hrpc i server (by rw [hk] at hi; omega))
  refine ⟨h1, by rw [h2]; rfl, ?_, h4, ?_⟩
  · rw [hk, Nat.zero_add] at h3
    rw [hk]
    exact h3
  · intro i hi
    exact h5 i (Nat.zero_le _) (by rw [Nat.zero_add]; exact hi)

theorem ok_after (srv_num : Int) (murmur : List Nat → List Nat)
    (fuel : Nat) (catches : Reply → Option Status) (rpc : Nat → Int → Reply)
    (entry : List Nat) (mapping : giga_mapping_t) (hfuel : 8 ≤ fuel)
    (hok : catches .ok = some .OK) (hwf : WellFormed srv_num mapping)
    (k : Nat) (hk1 : 1 ≤ k) (hk10 : k ≤ 10)
    (hred : ∀ i server, i + 1 < k →
      addressed srv_num murmur fuel rpc entry mapping i = some server →
      ∃ b, rpc i server = .ServerRedirection b ∧ WellFormed srv_num (ToLegacyMapping b))
    (hsucc : ∀ server, addressed srv_num murmur fuel rpc entry mapping (k - 1) = some server →
      rpc (k - 1) server = .ok) :
    (redirect_loop srv_num murmur fuel catches rpc entry kNumRedirect 0 mapping).outcome =
      .returned .OK ∧
    (redirect_loop srv_num murmur fuel catches rpc entry kNumRedirect 0 mapping).attempts = k := by
  have h := redirect_loop_addressed_success srv_num murmur fuel catches rpc entry mapping hfuel
    hok (k - 1) kNumRedirect 0 mapping (by unfold kNumRedirect; omega) hwf rfl
    (fun i srv _ h2 => hred i srv (by omega))
    (fun srv ha => by rw [Nat.zero_add] at ha ⊢; exact hsucc srv ha)
  exact ⟨h.1, by rw [h.2]; omega⟩

theorem wf_example_single :
    WellFormed 2 { bitmap := 1 :: List.replicate 36 0, id := 5, curr_radix := 1,
                   zeroth_server := 0, server_count := 2 } :=
  ⟨by decide, by decide, ⟨0, by decide, by decide⟩, by decide, by decide, by decide⟩

theorem wf_example :
    WellFormed 2 { bitmap := 3 :: List.replicate 36 0, id := 5, curr_radix := 1,
                   zeroth_server := 0, server_count := 2 } :=
  ⟨by decide, by decide, ⟨1, by decide, by decide⟩, by decide, by decide, by decide⟩

theorem wf_example_reply :
    WellFormed 2 (ToLegacyMapping { id := 5, bitmap := 3 :: List.replicate 36 0,
                                    curr_radix := 1, zeroth_server := 0, num_servers := 2 }) :=
  ⟨by decide, by decide, ⟨1, by decide, by decide⟩, by decide, by decide, by decide⟩

theorem bits_of_one_in_three (i t : Nat)
    (h : ((1 :: List.replicate 36 0).getD i 0).testBit t = true) :
    ((3 :: List.replicate 36 0).getD i 0).testBit t = true := by
  rcases i with _ | i
  · have ht : t = 0 := by
      by_contra hne
      have hlt : 1 < 2 ^ t := Nat.one_lt_two_pow hne
      have hf : (1 : Nat).testBit t = false := Nat.testBit_lt_two_pow hlt
      simp only [List.getD_cons_zero] at h
      rw [hf] at h
      exact absurd h (by decide)
    subst ht
    decide
  · rw [List.getD_cons_succ, getD_replicate_zero] at h
    simp at h

/-! ## Leases -/

theorem access_new_entry (stat : Option StatInfo) (now_wait now : Nat) (lease_time : Int)
    (hnow : now + 1000000 < 2 ^ 64) (info : AccessInfo) (value' : ServerDirEntryValue)
    (h : Access_entry none stat now_wait now lease_time = .done info value') :
    value'.expire_time = now + 1000000 ∧ info.lease_time = now + 1000000 ∧
      value'.status = .LEASE_READ_STATUS := by
  have hmod : (now + 1000000) % 2 ^ 64 = now + 1000000 := Nat.mod_eq_of_lt hnow
  unfold Access_entry at h
  cases stat with
  | none => simp at h
  | some st =>
    by_cases hd : st.is_dir = true
    · simp only [hd, not_true_eq_false, if_false, AccessResult.done.injEq] at h
      obtain ⟨h1, h2⟩ := h
      subst h1 h2
      simp only [Access_lease, ServerDirEntryValue.new, GetLeaseTime, reduceCtorEq, if_false,
        hmod]
      refine ⟨?_, trivial, trivial⟩
      split <;> omega
    · simp [hd] at h

/-! ## Path resolution -/

theorem rfind_from_bounds (c : Nat) :
    ∀ (xs : List Nat) (i e : Nat), rfind_from c xs i = some e → i ≤ e ∧ e < i + xs.length := by
  intro xs
  induction xs with
  | nil => intro i e h; simp [rfind_from] at h
  | cons x xs ih =>
    intro i e h
    unfold rfind_from at h
    cases hr : rfind_from c xs (i + 1) with
    | some r =>
      rw [hr] at h
      simp only [Option.some.injEq] at h
      have := ih (i + 1) r hr
      simp only [List.length_cons]
      omega
    | none =>
      rw [hr] at h
      simp only at h
      split at h
      · simp only [Option.some.injEq] at h
        simp only [List.length_cons]
        omega
      · exact absurd h (by simp)

theorem find_from_between (c : Nat) :
    ∀ (xs : List Nat) (i e pos : Nat), rfind_from c xs i = some e → pos ≤ e →
      ∃ k, find_from c xs i pos = some k ∧ pos ≤ k ∧ k ≤ e := by
  intro xs
  induction xs with
  | nil => intro i e pos h; simp [rfind_from] at h
  | cons x xs ih =>
    intro i e pos h hpos
    have hb := rfind_from_bounds c (x :: xs) i e h
    unfold rfind_from at h
    unfold find_from
    by_cases hc : pos ≤ i ∧ x = c
    · rw [if_pos hc]
      exact ⟨i, rfl, hc.1, hb.1⟩
    · rw [if_neg hc]
      cases hr : rfind_from c xs (i + 1) with
      | some r =>
        rw [hr] at h
        simp only [Option.some.injEq] at h
        subst h
        exact ih (i + 1) r pos hr hpos
      | none =>
        rw [hr] at h
        simp only at h
        split at h
        · rename_i hx
          simp only [Option.some.injEq] at h
          exact absurd ⟨by omega, hx⟩ hc
        · exact absurd h (by simp)

theorem string_find_between (path : List Nat) (e last : Nat)
    (he : rfind_from 47 path 0 = some e) (hlast : last < e) :
    last + 1 ≤ string_find path 47 (last + 1) ∧ string_find path 47 (last + 1) ≤ e := by
  obtain ⟨k, hk, h1, h2⟩ := find_from_between 47 path 0 e (last + 1) he (by omega)
  unfold string_find
  rw [hk]
  exact ⟨h1, h2⟩

theorem rfind_from_head (c : Nat) (x : Nat) (xs : List Nat) (i : Nat) (hx : x = c) :
    ∃ e, rfind_from c (x :: xs) i = some e := by
  unfold rfind_from
  cases hr : rfind_from c xs (i + 1) with
  | some r => exact ⟨r, rfl⟩
  | none => exact ⟨i, by simp [hx]⟩

theorem resolve_step_outcome {C : Type} (ops : DentCacheOps C)
    (lookup : Int → Nat → List Nat → Int → Except Status AccessInfo) (clock : Int → Nat)
    (path : List Nat) (last now : Nat) (w : Walk C) (r : ResolveRun C)
    (h : resolve_step ops lookup clock path last now w = .error r) :
    r.outcome ≠ .out_of_fuel := by
  unfold resolve_step at h
  split at h
  · cases h; simp [Walk.stop]
  · split at h
    · cases h; simp [Walk.stop]
    · dsimp only at h
      split at h
      · cases h; simp
      · split at h
        · cases h; simp
        · cases h

/-- The loop of `Internal_ResolvePath` gives the same result with any fuel that covers
the distance between `last` and the last slash, and it does not run out of fuel. -/
theorem resolve_loop_fuel {C : Type} (ops : DentCacheOps C)
    (lookup : Int → Nat → List Nat → Int → Except Status AccessInfo) (clock : Int → Nat)
    (path : List Nat) (e : Nat) (he : rfind_from 47 path 0 = some e) :
    ∀ (n fuel last : Nat) (w : Walk C), e - last ≤ n → n ≤ fuel →
      resolve_loop ops lookup clock path e fuel last w =
        resolve_loop ops lookup clock path e n last w ∧
      ∀ r, resolve_loop ops lookup clock path e n last w = .error r →
        r.outcome ≠ .out_of_fuel := by
  intro n
  induction n with
  | zero =>
    intro fuel last w h1 _
    have hle : ¬ last < e := by omega
    constructor
    · cases fuel with
      | zero => rfl
      | succ f => simp only [resolve_loop, if_neg hle]
    · intro r hr
      simp only [resolve_loop, if_neg hle] at hr
      cases hr
  | succ n ih =>
    intro fuel last w h1 h2
    cases fuel with
    | zero => omega
    | succ f =>
      by_cases hlt : last < e
      · have hb := string_find_between path e last he hlt
        simp only [resolve_loop, if_pos hlt]
        split
        · cases hs : resolve_step ops lookup clock path last
              (string_find path 47 (last + 1)) w with
          | error r =>
            refine ⟨rfl, ?_⟩
            intro r2 hr2
            cases hr2
            exact resolve_step_outcome ops lookup clock path last _ w r hs
          | ok w2 =>
            exact ih f (string_find path 47 (last + 1)) w2 (by omega) (by omega)
        · exact ih f (string_find path 47 (last + 1)) w (by omega) (by omega)
      · simp only [resolve_loop, if_neg hlt]
        refine ⟨trivial, ?_⟩
        intro r hr
        cases hr

theorem Internal_ResolvePath_fuel {C : Type} (ops : DentCacheOps C)
    (lookup : Int → Nat → List Nat → Int → Except Status AccessInfo) (clock : Int → Nat)
    (path : List Nat) (hhead : path.take 1 = [47]) (n fuel : Nat)
    (hn : path.length ≤ n) (hf : n ≤ fuel) (cache : C) :
    Internal_ResolvePath ops lookup clock fuel path cache =
      Internal_ResolvePath ops lookup clock n path cache ∧
    (Internal_ResolvePath ops lookup clock n path cache).outcome ≠ .out_of_fuel := by
  cases path with
  | nil => simp at hhead
  | cons x xs =>
    have hx : x = 47 := by simpa using hhead
    obtain ⟨e, he⟩ := rfind_from_head 47 x xs 0 hx
    have hb := rfind_from_bounds 47 (x :: xs) 0 e he
    have hend : string_rfind (x :: xs) 47 = e := by
      unfold string_rfind
      rw [he]
      rfl
    have hloop := resolve_loop_fuel ops lookup clock (x :: xs) e he n fuel 0
      { depth := 0, pdir_id := 0, pzeroth_server := 0, cache := cache, lookups := 0 }
      (by omega) hf
    unfold Internal_ResolvePath
    simp only [hend]
    rw [hloop.1]
    refine ⟨rfl, ?_⟩
    cases hl : resolve_loop ops lookup clock (x :: xs) e n 0
        { depth := 0, pdir_id := 0, pzeroth_server := 0, cache := cache, lookups := 0 } with
    | error r => exact hloop.2 r hl
    | ok w =>
      dsimp only
      split
      · simp [Walk.stop]
      · simp

theorem ResolvePath_zero {C : Type} (ops : DentCacheOps C)
    (lookup : Int → Nat → List Nat → Int → Except Status AccessInfo) (clock : Int → Nat)
    (path : List Nat) (cache : C) :
    ResolvePath ops lookup clock 0 path cache =
      ResolvePath_body
        (fun _ c => { outcome := .out_of_fuel, out := none, cache := c, lookups := 0 })
        (Internal_ResolvePath ops lookup clock 0) path cache := rfl

theorem ResolvePath_succ {C : Type} (ops : DentCacheOps C)
    (lookup : Int → Nat → List Nat → Int → Except Status AccessInfo) (clock : Int → Nat)
    (fuel : Nat) (path : List Nat) (cache : C) :
    ResolvePath ops lookup clock (fuel + 1) path cache =
      ResolvePath_body (ResolvePath ops lookup clock fuel)
        (Internal_ResolvePath ops lookup clock (fuel + 1)) path cache := rfl

/-- With fuel at least the length of the path, `ResolvePath` does not depend on the
fuel and does not run out of it. -/
theorem ResolvePath_fuel {C : Type} (ops : DentCacheOps C)
    (lookup : Int → Nat → List Nat → Int → Except Status AccessInfo) (clock : Int → Nat) :
    ∀ (n : Nat) (path : List Nat) (cache : C) (fuel : Nat), path.length ≤ n → n ≤ fuel →
      ResolvePath ops lookup clock fuel path cache = ResolvePath ops lookup clock n path cache ∧
      (ResolvePath ops lookup clock n path cache).outcome ≠ .out_of_fuel := by
  intro n
  induction n with
  | zero =>
    intro path cache fuel hn _
    have h0 : path.length = 0 := by omega
    constructor
    · cases fuel with
      | zero => rfl
      | succ f =>
        rw [ResolvePath_succ, ResolvePath_zero]
        simp only [ResolvePath_body, if_pos h0]
    · rw [ResolvePath_zero]
      simp only [ResolvePath_body, if_pos h0]
      simp
  | succ n ih =>
    intro path cache fuel hn hf
    cases fuel with
    | zero => omega
    | succ f =>
      rw [ResolvePath_succ, ResolvePath_succ]
      by_cases h0 : path.length = 0
      · simp only [ResolvePath_body, if_pos h0]
        simp
      · by_cases h1 : path.take 1 ≠ [47]
        · simp only [ResolvePath_body, if_neg h0, if_pos h1]
          simp
        · by_cases h2 : path.length = 1
          · simp only [ResolvePath_body, if_neg h0, if_neg h1, if_pos h2]
            simp
          · by_cases h3 : (path.drop (path.length - 1)).take 1 = [47]
            · simp only [ResolvePath_body, if_neg h0, if_neg h1, if_neg h2, if_pos h3]
              have hlen : (path.take (path.length - 1)).length ≤ n := by
                rw [List.length_take]
                omega
              exact ih (path.take (path.length - 1)) cache f hlen (by omega)
            · simp only [ResolvePath_body, if_neg h0, if_neg h1, if_neg h2, if_neg h3]
              exact Internal_ResolvePath_fuel ops lookup clock path (not_not.mp h1)
                (n + 1) (f + 1) hn hf cache

/-! ## Reference counts of the directory cache -/

theorem to_short_small (i : Int) (h1 : -(2 ^ 15) ≤ i) (h2 : i < 2 ^ 15) : to_short i = i := by
  unfold to_short
  omega

/-- While a block is in the table with count `1 + held`, matching calls keep it there:
every `Get` returns its address and the count stays one above the number of blocks
held. -/
theorem run_calls_held (dir_id p : Nat) :
    ∀ (calls : List DirCacheCall) (c : DirCache) (held got : List Nat) (b : DirectoryBlock),
      (∀ q ∈ held, q = p) →
      c.dirs (dir_id &&& (kNumShards - 1)) dir_id = some p →
      c.heap p = some b → b.refcount = 1 + (held.length : Int) →
      matching_calls calls held.length = true →
      held.length + calls.count .Get < 2 ^ 15 - 1 →
      ∃ c2 held2 got2 b2, run_calls dir_id calls c held got = some (c2, held2, got ++ got2) ∧
        (∀ q ∈ held2, q = p) ∧ (∀ q ∈ got2, q = p) ∧
        got2.length = calls.count .Get ∧
        held2.length + calls.count .Release = held.length + calls.count .Get ∧
        c2.dirs (dir_id &&& (kNumShards - 1)) dir_id = some p ∧
        c2.heap p = some b2 ∧ b2.refcount = 1 + (held2.length : Int) ∧ c2.next = c.next := by
  intro calls
  induction calls with
  | nil =>
    intro c held got b hheld hdirs hheap hcount _ _
    exact ⟨c, held, [], b, by simp [run_calls], hheld, by simp, by simp, by simp, hdirs, hheap,
      hcount, rfl⟩
  | cons call cs ih =>
    intro c held got b hheld hdirs hheap hcount hmatch hbound
    cases call with
    | Get =>
      simp only [List.count_cons_self] at hbound
      have hget : c.Get dir_id = some (p,
          { c with heap := fun a =>
              if a = p then some { b with refcount := to_short (b.refcount + 1) }
              else c.heap a }) := by
        unfold DirCache.Get
        simp only [hdirs, hheap]
      have hsh : to_short (b.refcount + 1) = 1 + ((p :: held).length : Int) := by
        rw [to_short_small _ (by omega) (by omega), hcount]
        simp only [List.length_cons]
        push_cast
        ring
      obtain ⟨c2, held2, got2, b2, hrun, h1, h2, h3, h4, h5, h6, h7, h8⟩ :=
        ih { c with heap := fun a =>
              if a = p then some { b with refcount := to_short (b.refcount + 1) }
              else c.heap a } (p :: held) (got ++ [p])
          { b with refcount := to_short (b.refcount + 1) }
          (by
            intro q hq
            rcases List.mem_cons.mp hq with h | h
            · exact h
            · exact hheld q h)
          hdirs (by simp) hsh
          (by simpa [matching_calls] using hmatch)
          (by simp only [List.length_cons]; omega)
      refine ⟨c2, held2, p :: got2, b2, ?_, h1, ?_, ?_, ?_, h5, h6, h7, h8⟩
      · simp only [run_calls, hget]
        rw [hrun]
        simp
      · intro q hq
        rcases List.mem_cons.mp hq with h | h
        · exact h
        · exact h2 q h
      · simp only [List.length_cons, List.count_cons_self, h3]
      · simp only [List.length_cons] at h4
        simp only [List.count_cons_self]
        have : List.count DirCacheCall.Release (DirCacheCall.Get :: cs) =
            List.count DirCacheCall.Release cs := by
          simp [List.count_cons]
        rw [this]
        omega
    | Release =>
      have hcg : List.count DirCacheCall.Get (DirCacheCall.Release :: cs) =
          List.count DirCacheCall.Get cs := by
        simp [List.count_cons]
      rw [hcg] at hbound
      cases held with
      | nil => simp [matching_calls] at hmatch
      | cons q held =>
        have hq : q = p := hheld q (List.mem_cons_self _ _)
        subst hq
        simp only [List.length_cons] at hcount hbound
        have hsh : to_short (b.refcount - 1) = 1 + (held.length : Int) := by
          rw [to_short_small _ (by omega) (by omega), hcount]
          push_cast
          ring
        have hne : ¬ to_short (b.refcount - 1) = 0 := by
          rw [hsh]
          omega
        have hrel : c.Release dir_id q = some
            { c with heap := fun a =>
                if a = q then some { b with refcount := to_short (b.refcount - 1) }
                else c.heap a } := by
          unfold DirCache.Release
          simp only [hheap, if_neg hne]
        obtain ⟨c2, held2, got2, b2, hrun, h1, h2, h3, h4, h5, h6, h7, h8⟩ :=
          ih { c with heap := fun a =>
                if a = q then some { b with refcount := to_short (b.refcount - 1) }
                else c.heap a } held got
            { b with refcount := to_short (b.refcount - 1) }
            (fun r hr => hheld r (List.mem_cons_of_mem _ hr))
            hdirs (by simp) hsh
            (by simpa [matching_calls] using hmatch)
            (by omega)
        refine ⟨c2, held2, got2, b2, ?_, h1, h2, ?_, ?_, h5, h6, h7, h8⟩
        · simp only [run_calls, hrel]
          exact hrun
        · rw [hcg]
          exact h3
        · simp only [List.length_cons, List.count_cons_self]
          rw [hcg]
          omega

/-! ## Scans of the store -/

theorem access_done_value (cached : Option ServerDirEntryValue) (stat : Option StatInfo)
    (now_wait now : Nat) (lease_time : Int) (info : AccessInfo) (value : ServerDirEntryValue)
    (h : Access_entry cached stat now_wait now lease_time = .done info value) :
    value.inode_id = info.id ∧ value.zeroth_server = info.zeroth_server ∧
    value.status = .LEASE_READ_STATUS := by
  unfold Access_entry at h
  simp only [Access_lease] at h
  split at h
  · split at h
    · cases h
    · split at h
      · split at h
        · cases h
        · simp only [AccessResult.done.injEq] at h
          obtain ⟨h1, h2⟩ := h
          subst h1 h2
          exact ⟨rfl, rfl, rfl⟩
      · simp only [AccessResult.done.injEq] at h
        obtain ⟨h1, h2⟩ := h
        subst h1 h2
        exact ⟨rfl, rfl, rfl⟩
  · split at h
    · cases h
    · split at h
      · cases h
      · simp only [AccessResult.done.injEq] at h
        obtain ⟨h1, h2⟩ := h
        subst h1 h2
        exact ⟨rfl, rfl, rfl⟩

theorem write_lock_read_entry (value : ServerDirEntryValue) (now : Nat)
    (hs : value.status = .LEASE_READ_STATUS) :
    ∃ value2 sleep, WriteLockDirEntry (some value) now = .locked value2 sleep ∧
      value2.inode_id = value.inode_id ∧ value2.zeroth_server = value.zeroth_server := by
  unfold WriteLockDirEntry
  simp only [hs, reduceCtorEq, if_false]
  split
  · exact ⟨_, _, rfl, rfl, rfl⟩
  · exact ⟨_, _, rfl, rfl, rfl⟩

/-- A `Remove` that returns leaves the cached entry of a read lease in the cache, in
read status and with its inode and zeroth server. -/
theorem remove_keeps_entry {Store : Type}
    (getattr : Store → Nat → Int → List Nat → Option StatInfo)
    (remove : Store → Nat → Int → List Nat → Int × Store)
    (murmur : List Nat → List Nat) (fuel : Nat) (st : ServerState Store)
    (value : ServerDirEntryValue) (now : Nat) (dir_id : Nat) (objname : List Nat)
    (reply : Reply) (store : Store) (dent : Option ServerDirEntryValue)
    (hs : value.status = .LEASE_READ_STATUS)
    (h : Remove getattr remove murmur fuel st (some value) now dir_id objname =
      some (.replied reply store dent)) :
    ∃ value2, dent = some value2 ∧ value2.inode_id = value.inode_id ∧
      value2.zeroth_server = value.zeroth_server ∧ value2.status = .LEASE_READ_STATUS := by
  unfold Remove at h
  split at h
  · simp only [Option.some.injEq, Handled.replied.injEq] at h
    exact ⟨value, h.2.2.symm, rfl, rfl, hs⟩
  · split at h
    · cases h
    · split at h
      · simp only [Option.some.injEq, Handled.replied.injEq] at h
        exact ⟨value, h.2.2.symm, rfl, rfl, hs⟩
      · split at h
        · simp only [Option.some.injEq, Handled.replied.injEq] at h
          exact ⟨value, h.2.2.symm, rfl, rfl, hs⟩
        · split at h
          · obtain ⟨value2, sleep, hl, h1, h2⟩ := write_lock_read_entry value now hs
            rw [hl] at h
            simp only [Option.some.injEq, Handled.replied.injEq, UnlockDirEntry,
              Option.map_some'] at h
            exact ⟨_, h.2.2.symm, h1, h2, rfl⟩
          · simp only [Option.some.injEq, Handled.replied.injEq] at h
            exact ⟨value, h.2.2.symm, rfl, rfl, hs⟩

/-! ## The split -/

/-- What `Split` leaves when the child lives on another server and `Extract` returns
a positive count, whether the `InsertSplit` RPC returns or not. -/
theorem split_remote_eq {Store : Type}
    (extract : Store → Nat → Nat → Nat → Int × Store)
    (update_bitmap : Store → Nat → giga_mapping_t → Int × Store)
    (extract_clean : Store → Store) (insert_ok update_ok : Bool)
    (st : ServerState Store) (dir_id parent : Nat)
    (mapping mapping' : giga_mapping_t) (child : Nat) (child_srv : Int)
    (hm : st.mapping = some mapping)
    (hc : giga_index_for_splitting mapping parent = some child)
    (hs : giga_get_server_for_index mapping child = some child_srv)
    (hne : st.srv_id ≠ child_srv)
    (hret : 0 < (extract st.store dir_id parent child).1)
    (hup : giga_update_mapping mapping child = some mapping')
    (hsize : -(2 ^ 31) ≤ st.dir.partition_size - (extract st.store dir_id parent child).1 ∧
      st.dir.partition_size - (extract st.store dir_id parent child).1 < 2 ^ 31) :
    Split extract update_bitmap extract_clean insert_ok update_ok st dir_id parent =
      some
        { state := { st with
            store := extract_clean
              (update_bitmap (extract st.store dir_id parent child).2 dir_id mapping').2
            mapping := some mapping'
            dir := { partition_size :=
                       st.dir.partition_size - (extract st.store dir_id parent child).1,
                     split_flag := 0 } }
          log := (UpdateBitmapRemote update_ok
            (if (update_bitmap (extract st.store dir_id parent child).2 dir_id mapping').1 < 0
              then InsertSplitRemote insert_ok [] ++ [.UpdateBitmap]
              else InsertSplitRemote insert_ok [])).2
          insert_split_calls := [(child_srv, parent, child)]
          update_bitmap_calls := [(mapping'.zeroth_server, CopyGigaMap mapping')] } := by
  have hge : (extract st.store dir_id parent child).1 ≥ 0 := le_of_lt hret
  have hns : ¬ (st.dir.partition_size - (extract st.store dir_id parent child).1 < -(2 ^ 31) ∨
      st.dir.partition_size - (extract st.store dir_id parent child).1 ≥ 2 ^ 31) := by
    omega
  unfold Split
  simp only [hm, hc, hs, hup, ne_eq, hne, not_false_eq_true, if_true, hge, hret, and_self,
    gt_iff_lt, if_neg hns]

/-! ## The bitmaps that the program holds -/

/-- In a bitmap with the high bit of every byte clear and some bit set, the value of
`get_highest_index` is the highest index whose bit is set. -/
theorem highest_set_index_of_clean (bm : List Nat) (hlen : bm.length = MAX_BMAP_LEN)
    (hclean : ∀ b, b ∈ bm → b < 128) (j0 : Nat) (h0 : get_bit_status bm j0 = 1) :
    ∃ k, get_bit_status bm k = 1 ∧ (∀ j, get_bit_status bm j = 1 → j ≤ k) ∧
      get_highest_index bm = some k := by
  obtain ⟨k, hk⟩ := get_highest_index_defined bm j0 (upper_of_bit bm (le_of_eq hlen) j0 h0)
  obtain ⟨hup, hmax⟩ := get_highest_index_upper bm k hk
  refine ⟨k, ?_, fun j hj => bit_le_highest bm (le_of_eq hlen) k j hk hj, hk⟩
  rcases hup with ⟨i, b, _, hb, hbit, hu⟩ | ⟨i, hi, hnz, hu⟩
  · rw [get_bit_status_eq_one_iff]
    have e1 : k / 7 = i := by omega
    have e2 : k % 7 = b := by omega
    rw [e1, e2]
    exact hbit
  · exfalso
    obtain ⟨b, hb, hbit⟩ := byte_low_bit _ hnz (getD_lt_of_forall bm 128 hclean (by decide) i)
    have := hmax (7 * i + b) (Or.inl ⟨i, b, hi, hb, hbit, rfl⟩)
    omega

/-- Every mapping that the program holds has a bitmap of `MAX_BMAP_LEN` bytes with
the high bit of every byte clear and the bit of partition 0 set. -/
theorem held_mapping_clean (m : giga_mapping_t) (hm : HeldMapping m) :
    m.bitmap.length = MAX_BMAP_LEN ∧ (∀ b, b ∈ m.bitmap → b < 128) ∧
      get_bit_status m.bitmap 0 = 1 := by
  induction hm with
  | init flag id zeroth_server server_count m hinit =>
    obtain ⟨m0, h0, _, hb, hbit, _⟩ := init_mapping_facts flag id zeroth_server server_count
    rw [h0] at hinit
    cases hinit
    refine ⟨by rw [hb]; decide, ?_, hbit⟩
    intro b hmem
    rw [hb] at hmem
    rcases List.mem_cons.1 hmem with h | h
    · omega
    · rw [List.eq_of_mem_replicate h]; decide
  | update m m' new_index _ hup ih =>
    obtain ⟨hlen, hclean, hbit⟩ := ih
    obtain ⟨hlt, hbm, _⟩ := update_mapping_some m m' new_index hup
    refine ⟨by rw [hbm, List.length_set]; exact hlen, ?_, ?_⟩
    · intro b hmem
      rw [hbm] at hmem
      rcases List.mem_or_eq_of_mem_set hmem with h | h
      · exact hclean b h
      · rw [h]
        have h1 : m.bitmap.getD (new_index / 7) 0 < 2 ^ 7 :=
          getD_lt_of_forall m.bitmap 128 hclean (by decide) _
        have h2 : 2 ^ (new_index % 7) < 2 ^ 7 :=
          Nat.pow_lt_pow_right (by decide) (Nat.mod_lt _ (by decide))
        exact Nat.or_lt_two_pow h1 h2
    · rw [hbm]
      exact (set_bit_status m.bitmap new_index hlt 0).2 (Or.inl hbit)
  | merge curr update m' _ _ hup ihc ihu =>
    obtain ⟨hlen, hclean, hbit⟩ := ihc
    obtain ⟨hlen2, hclean2, _⟩ := ihu
    obtain ⟨hbm, _⟩ := update_cache_some curr update m' hup
    refine ⟨by rw [hbm, List.length_map, List.length_range], ?_, ?_⟩
    · intro b hmem
      rw [hbm] at hmem
      obtain ⟨i, _, hi⟩ := List.mem_map.1 hmem
      rw [← hi]
      have h1 : curr.bitmap.getD i 0 < 2 ^ 7 :=
        getD_lt_of_forall curr.bitmap 128 hclean (by decide) _
      have h2 : update.bitmap.getD i 0 < 2 ^ 7 :=
        getD_lt_of_forall update.bitmap 128 hclean2 (by decide) _
      exact Nat.or_lt_two_pow h1 h2
    · rw [hbm]
      exact (merge_bit_status curr.bitmap update.bitmap (le_of_eq hlen) (le_of_eq hlen2) 0).2
        (Or.inl hbit)
  | wire m _ ih =>
    rw [to_legacy_copy m ih.1]
    exact ih

/-! ## The split policy -/

theorem to_signed_int_le (u : Nat) : to_signed_int u ≤ (u : Int) := by
  unfold to_signed_int
  split <;> omega

theorem to_signed_int_inj (a b : Nat) (ha : a < 2 ^ 32) (hb : b < 2 ^ 32)
    (h : to_signed_int a = to_signed_int b) : a = b := by
  unfold to_signed_int at h
  have h1 : a % 2 ^ 32 = a := Nat.mod_eq_of_lt ha
  have h2 : b % 2 ^ 32 = b := Nat.mod_eq_of_lt hb
  rw [h1, h2] at h
  split at h <;> split at h <;> omega

/-- Under the compiled-in policy a partition is splittable only when its split target
is below the server count. -/
theorem splittable_target_lt (m : giga_mapping_t) (p c : Nat)
    (hs : giga_is_splittable m p = some 1) (hc : giga_index_for_splitting m p = some c) :
    c < m.server_count := by
  unfold giga_is_splittable giga_is_splittable_with at hs
  simp only [SPLIT_TYPE, SPLIT_T_NO_BOUND, SPLIT_T_NO_SPLITTING_EVER, SPLIT_T_NUM_SERVERS_BOUND,
    hc] at hs
  norm_num at hs
  have hle := to_signed_int_le m.server_count
  simp only [MAX_BKTS_PER_SERVER, one_mul] at hs
  omega

/-- Two partitions below the server count that differ have different servers, when
adding the zeroth server does not wrap. -/
theorem servers_differ (m : giga_mapping_t) (i j : Nat) (hi : i < m.server_count)
    (hj : j < m.server_count) (hz : m.zeroth_server + m.server_count ≤ 2 ^ 32) (hij : i ≠ j) :
    ∃ si sj, giga_get_server_for_index m i = some si ∧
      giga_get_server_for_index m j = some sj ∧ si ≠ sj := by
  have hn : m.server_count ≠ 0 := by omega
  unfold giga_get_server_for_index
  simp only [if_neg hn]
  refine ⟨_, _, rfl, rfl, ?_⟩
  intro h
  have h1 : (i + m.zeroth_server) % 2 ^ 32 = i + m.zeroth_server := Nat.mod_eq_of_lt (by omega)
  have h2 : (j + m.zeroth_server) % 2 ^ 32 = j + m.zeroth_server := Nat.mod_eq_of_lt (by omega)
  have hpos : 0 < m.server_count := by omega
  have hlt1 := Nat.mod_lt (i + m.zeroth_server) hpos
  have hlt2 := Nat.mod_lt (j + m.zeroth_server) hpos
  have hinj := to_signed_int_inj _ _ (by rw [h1]; omega) (by rw [h2]; omega) h
  rw [h1, h2] at hinj
  have hmod : i ≡ j [MOD m.server_count] := Nat.ModEq.add_right_cancel' m.zeroth_server hinj
  exact hij (Nat.ModEq.eq_of_lt_of_lt hmod hi hj)

/-- Every mapping that the split policy reaches keeps the zeroth server and the server
count, and all its partitions are below the server count. -/
theorem reachable_bits_lt (flag id : Int) (zeroth_server n : Nat) (hn : 1 ≤ n)
    (m : giga_mapping_t) (hr : SplitReachable flag id zeroth_server n m) :
    m.zeroth_server = zeroth_server ∧ m.server_count = n ∧
    ∀ i, get_bit_status m.bitmap i = 1 → i < n := by
  induction hr with
  | init m hinit =>
    obtain ⟨m0, h0, _, _, _, hbits, _, hz, hc, _, _⟩ :=
      init_mapping_facts flag id zeroth_server n
    rw [h0] at hinit
    cases hinit
    refine ⟨hz, hc (by omega), ?_⟩
    intro i hi
    by_cases h : i = 0
    · omega
    · rw [hbits i h] at hi
      exact absurd hi (by decide)
  | split m m' p c _ _ hs hc hup ih =>
    obtain ⟨hz, hcount, hbits⟩ := ih
    obtain ⟨hlt, hbm, _, _, hz', hc'⟩ := update_mapping_some m m' c hup
    refine ⟨by rw [hz', hz], by rw [hc', hcount], ?_⟩
    intro i hi
    rw [hbm] at hi
    rcases (set_bit_status m.bitmap c hlt i).1 hi with h | h
    · exact hbits i h
    · rw [h, ← hcount]
      exact splittable_target_lt m p c hs hc

/-- With a server count of `2^31` or more the `(signed int)` conversion in
`giga_is_splittable` is negative, and no partition is splittable. -/
theorem not_splittable_of_large (m : giga_mapping_t) (p : Nat)
    (h31 : 2 ^ 31 ≤ m.server_count) (h32 : m.server_count < 2 ^ 32) :
    giga_is_splittable m p ≠ some 1 := by
  intro hs
  cases hc : giga_index_for_splitting m p with
  | none =>
    unfold giga_is_splittable giga_is_splittable_with at hs
    simp only [SPLIT_TYPE, SPLIT_T_NO_BOUND, SPLIT_T_NO_SPLITTING_EVER,
      SPLIT_T_NUM_SERVERS_BOUND, hc] at hs
    norm_num at hs
    cases hs
  | some c =>
    unfold giga_is_splittable giga_is_splittable_with at hs
    simp only [SPLIT_TYPE, SPLIT_T_NO_BOUND, SPLIT_T_NO_SPLITTING_EVER,
      SPLIT_T_NUM_SERVERS_BOUND, hc] at hs
    norm_num at hs
    simp only [MAX_BKTS_PER_SERVER, one_mul] at hs
    have hneg : to_signed_int m.server_count < 0 := by
      unfold to_signed_int
      rw [Nat.mod_eq_of_lt h32, if_neg (by omega)]
      omega
    omega

/-- With a server count of `2^31` or more the split policy never leaves the initial
mapping: partition 0 is the only partition. -/
theorem reachable_single_of_large (flag id : Int) (zeroth_server n : Nat)
    (h31 : 2 ^ 31 ≤ n) (h32 : n < 2 ^ 32)
    (m : giga_mapping_t) (hr : SplitReachable flag id zeroth_server n m) :
    m.server_count = n ∧ ∀ i, get_bit_status m.bitmap i = 1 → i = 0 := by
  induction hr with
  | init m hinit =>
    obtain ⟨m0, h0, _, _, _, hbits, _, _, hc, _, _⟩ :=
      init_mapping_facts flag id zeroth_server n
    rw [h0] at hinit
    cases hinit
    refine ⟨hc (by omega), ?_⟩
    intro i hi
    by_contra h
    rw [hbits i h] at hi
    exact absurd hi (by decide)
  | split m m' p c _ _ hs _ _ ih =>
    exact absurd hs (not_splittable_of_large m p (by rw [ih.1]; exact h31)
      (by rw [ih.1]; exact h32))

/-! ## The lease computation of `Access` -/

theorem access_lease_expire (v : ServerDirEntryValue) (now : Nat) (lease_time : Int) :
    v.expire_time ≤ (Access_lease v now lease_time).2.expire_time ∧
    (v.status = .LEASE_WRITE_STATUS → v.expire_time < 2 ^ 64 → now < 2 ^ 64 →
      (Access_lease v now lease_time).1 =
        (now + (v.expire_time + 2 ^ 64 - now) % 2 ^ 64) % 2 ^ 64 ∧
      (Access_lease v now lease_time).1 = v.expire_time ∧
      (Access_lease v now lease_time).2.expire_time = v.expire_time) := by
  unfold Access_lease
  constructor
  · have hmax : ∀ a b : Nat, a ≤ (if b > a then b else a) := by
      intro a b
      split <;> omega
    exact hmax _ _
  · intro hw hexp hnow
    have hsum : (now + (v.expire_time + 2 ^ 64 - now) % 2 ^ 64) % 2 ^ 64 = v.expire_time := by
      omega
    simp only [hw, if_true, hsum, lt_irrefl, if_false, and_self, gt_iff_lt]

/-! ## Claims -/

/-- C1. Split law.  Let `m` be a mapping of `MAX_BMAP_LEN` bytes with bit 0 set and
highest index below 128, let `giga_index_for_splitting m p` return `c < 128` (so `p`
is a set partition), and let `m'` be `giga_update_mapping m c`.  Then `m'` exists, and
for every hash `h` owned by `q` under `m`: if `q = p`, the owner under `m'` is `c` when
`giga_file_migration_status_with_hash h c` is `1` and `p` when it is `0`; if `q != p`,
the owner under `m'` is still `q`.  The walks are given fuel for 8 tests. -/
theorem split_addressing_law (m : giga_mapping_t) (p c k fuel fuel' : Nat)
    (hlen : m.bitmap.length = MAX_BMAP_LEN) (h0 : get_bit_status m.bitmap 0 = 1)
    (hk : get_highest_index m.bitmap = some k) (hk128 : k < 128)
    (hsplit : giga_index_for_splitting m p = some c) (hc : c < 128)
    (hfuel : 8 ≤ fuel) (hfuel' : 8 ≤ fuel') :
    ∃ m', giga_update_mapping m c = some m' ∧
      ∀ (h : List Nat) (q : Nat), giga_get_index_for_hash fuel m h = some q →
        (q = p →
          (giga_file_migration_status_with_hash h c = some 1 ∧
            giga_get_index_for_hash fuel' m' h = some c) ∨
          (giga_file_migration_status_with_hash h c = some 0 ∧
            giga_get_index_for_hash fuel' m' h = some p)) ∧
        (q ≠ p → giga_get_index_for_hash fuel' m' h = some q) := by
  obtain ⟨hp, r, hr1, hr2, hcr, hclear, _⟩ := index_for_splitting_some m p c hsplit
  subst hcr
  have hpr : p < 2 ^ r :=
    Nat.lt_of_lt_of_le (lt_two_pow_radix p) (Nat.pow_le_pow_right (by decide) hr1)
  have hr7 : r + 1 < MAX_RADIX := by
    by_contra hcon
    have : r = 7 := by unfold MAX_RADIX at hr2 hcon; omega
    subst this
    omega
  have hci : p + 2 ^ r < 7 * MAX_BMAP_LEN := by rw [max_bmap_len_eq]; omega
  have hlt : (p + 2 ^ r) / 7 < m.bitmap.length := by rw [hlen, max_bmap_len_eq]; omega
  obtain ⟨k', hk', _, hmax, hupd⟩ := update_mapping_eq m (p + 2 ^ r) hlen hci
  have hk'128 : k' < 128 := by rw [hmax k hk]; omega
  refine ⟨_, hupd, ?_⟩
  intro h q hq
  have hown := index_for_hash_owner_of_eq m h fuel k q (le_of_eq hlen) h0 hk hk128 hfuel hq
  have hown' := owner_after_split m.bitmap
    (m.bitmap.set ((p + 2 ^ r) / 7) (m.bitmap.getD ((p + 2 ^ r) / 7) 0 ||| 2 ^ ((p + 2 ^ r) % 7)))
    (reverse_byte (h.getD 0 0)) p r q (set_bit_status m.bitmap (p + 2 ^ r) hlt) hp hpr hclear hown
  obtain ⟨i, hi, hiown⟩ := index_for_hash_owner
    { m with
      bitmap := m.bitmap.set ((p + 2 ^ r) / 7)
        (m.bitmap.getD ((p + 2 ^ r) / 7) 0 ||| 2 ^ ((p + 2 ^ r) % 7))
      curr_radix := get_radix_from_index k' } h fuel' k'
    (by simpa using le_of_eq hlen)
    ((set_bit_status m.bitmap (p + 2 ^ r) hlt 0).2 (Or.inl h0)) hk' hk'128 hfuel'
  have hieq := owner_unique _ _ _ _ hiown hown'
  rw [hieq] at hi
  have hmig := migration_status_eq h p r hpr hr7
  refine ⟨?_, ?_⟩
  · intro hqp
    rw [if_pos hqp] at hi
    by_cases hcond : reverse_byte (h.getD 0 0) % 2 ^ (r + 1) = p + 2 ^ r
    · rw [if_pos hcond] at hi hmig
      exact Or.inl ⟨hmig, hi⟩
    · rw [if_neg hcond] at hi hmig
      exact Or.inr ⟨hmig, hi⟩
  · intro hqp
    rw [if_neg hqp] at hi
    exact hi

theorem split_addressing_law_witness :
    ∃ m', giga_update_mapping
        { bitmap := 11 :: List.replicate 36 0, id := 5, curr_radix := 2, zeroth_server := 0,
          server_count := 8 } 5 = some m' ∧
      ∀ (h : List Nat) (q : Nat),
        giga_get_index_for_hash 8
          { bitmap := 11 :: List.replicate 36 0, id := 5, curr_radix := 2, zeroth_server := 0,
            server_count := 8 } h = some q →
        (q = 1 →
          (giga_file_migration_status_with_hash h 5 = some 1 ∧
            giga_get_index_for_hash 8 m' h = some 5) ∨
          (giga_file_migration_status_with_hash h 5 = some 0 ∧
            giga_get_index_for_hash 8 m' h = some 1)) ∧
        (q ≠ 1 → giga_get_index_for_hash 8 m' h = some q) :=
  split_addressing_law
    { bitmap := 11 :: List.replicate 36 0, id := 5, curr_radix := 2, zeroth_server := 0,
      server_count := 8 } 1 5 3 8 8 (by decide) (by decide) (by decide) (by decide)
    (by decide) (by decide) (by decide) (by decide)

/-- C2. For a mapping of `MAX_BMAP_LEN` bytes with bit 0 set and highest index (as
computed by `get_highest_index`) below 128, and every name, `giga_get_index_for_file`
returns, as soon as the fuel admits 8 tests of the loop condition, an index whose bit
is set in the bitmap. -/
theorem giga_get_index_for_file_set_bit (murmur : List Nat → List Nat) (m : giga_mapping_t)
    (filename : List Nat) (fuel k : Nat)
    (hlen : m.bitmap.length = MAX_BMAP_LEN) (h0 : get_bit_status m.bitmap 0 = 1)
    (hk : get_highest_index m.bitmap = some k) (hk128 : k < 128) (hfuel : 8 ≤ fuel) :
    ∃ i, giga_get_index_for_file murmur fuel m filename = some i ∧
      get_bit_status m.bitmap i = 1 := by
  obtain ⟨i, hi, hown⟩ := index_for_hash_owner m (giga_hash_name murmur filename) fuel k
    (le_of_eq hlen) h0 hk hk128 hfuel
  exact ⟨i, hi, hown.2.1⟩

theorem giga_get_index_for_file_set_bit_witness :
    ∃ i, giga_get_index_for_file (fun name => name ++ [7, 7, 7, 7, 7, 7, 7, 7, 7, 7, 7, 7]) 8
        { bitmap := 11 :: List.replicate 36 0, id := 5, curr_radix := 2, zeroth_server := 0,
          server_count := 4 } [192, 101, 115, 116] = some i ∧
      get_bit_status (11 :: List.replicate 36 0) i = 1 :=
  giga_get_index_for_file_set_bit _ _ _ 8 3 (by decide) (by decide) (by decide) (by decide)
    (by decide)

/-- C3. For a set partition `p` for which some `r` with
`get_radix_from_index p <= r < MAX_RADIX` has bit `p + 2^r` clear,
`giga_index_for_splitting` returns `p + 2^r` for the smallest such `r`; the result
differs from `p`, its bit is clear, and it lies inside the bitmap. -/
theorem giga_index_for_splitting_smallest (m : giga_mapping_t) (p : Nat)
    (hp : get_bit_status m.bitmap p = 1)
    (hex : ∃ r, get_radix_from_index p ≤ r ∧ r < MAX_RADIX ∧
      get_bit_status m.bitmap (p + 2 ^ r) = 0) :
    ∃ r, get_radix_from_index p ≤ r ∧ r < MAX_RADIX ∧
      get_bit_status m.bitmap (p + 2 ^ r) = 0 ∧
      (∀ r', get_radix_from_index p ≤ r' → r' < r →
        get_bit_status m.bitmap (p + 2 ^ r') = 1) ∧
      giga_index_for_splitting m p = some (p + 2 ^ r) ∧
      p + 2 ^ r ≠ p ∧ p + 2 ^ r < 7 * MAX_BMAP_LEN := by
  classical
  have hfind := Nat.find_spec hex
  have hmin := fun r' => Nat.find_min (H := hex) (m := r')
  generalize Nat.find hex = r at hfind hmin
  obtain ⟨h1, h2, h3⟩ := hfind
  have hsmall : ∀ r', get_radix_from_index p ≤ r' → r' < r →
      get_bit_status m.bitmap (p + 2 ^ r') = 1 := by
    intro r' hr1 hr2
    rcases get_bit_status_cases m.bitmap (p + 2 ^ r') with h | h
    · exact absurd ⟨hr1, by omega, h⟩ (hmin r' hr2)
    · exact h
  have hpos : 0 < 2 ^ r := Nat.two_pow_pos r
  have hne : p + 2 ^ r ≠ p := by omega
  refine ⟨r, h1, h2, h3, hsmall, ?_, hne, ?_⟩
  · unfold giga_index_for_splitting
    rw [if_pos hp]
    simp only
    rw [splitting_loop_complete m.bitmap p _ _ r h1 (by omega) h3 hsmall]
    simp only
    rw [if_pos hne]
  · have hlt := lt_two_pow_radix p
    have hle : 2 ^ get_radix_from_index p ≤ 2 ^ r := Nat.pow_le_pow_right (by decide) h1
    have hle7 : 2 ^ r ≤ 2 ^ 7 := Nat.pow_le_pow_right (by decide) (by unfold MAX_RADIX at h2; omega)
    rw [max_bmap_len_eq]
    omega

theorem giga_index_for_splitting_smallest_witness :
    ∃ r, get_radix_from_index 1 ≤ r ∧ r < MAX_RADIX ∧
      get_bit_status (11 :: List.replicate 36 0) (1 + 2 ^ r) = 0 ∧
      (∀ r', get_radix_from_index 1 ≤ r' → r' < r →
        get_bit_status (11 :: List.replicate 36 0) (1 + 2 ^ r') = 1) ∧
      giga_index_for_splitting
        { bitmap := 11 :: List.replicate 36 0, id := 5, curr_radix := 2, zeroth_server := 0,
          server_count := 4 } 1 = some (1 + 2 ^ r) ∧
      1 + 2 ^ r ≠ 1 ∧ 1 + 2 ^ r < 7 * MAX_BMAP_LEN :=
  giga_index_for_splitting_smallest
    { bitmap := 11 :: List.replicate 36 0, id := 5, curr_radix := 2, zeroth_server := 0,
      server_count := 4 } 1 (by decide) ⟨2, by decide, by decide, by decide⟩

/-- C4 (counterexample). The mapping returned by `giga_init_mapping` has
`curr_radix = 1`, but the radix computed from its highest set bit, which is bit 0,
is `0`. -/
theorem giga_init_mapping_radix_mismatch :
    ∃ m, giga_init_mapping 0 7 0 1 = some m ∧ get_bit_status m.bitmap 0 = 1 ∧
      m.curr_radix = 1 ∧
      (get_highest_index m.bitmap).map get_radix_from_index = some 0 ∧
      (get_highest_index m.bitmap).map get_radix_from_index ≠ some m.curr_radix :=
  ⟨_, rfl, by decide, rfl, by decide, by decide⟩

/-- C4 (amended). `giga_update_cache` and `giga_update_mapping`, applied to a mapping
of `MAX_BMAP_LEN` bytes with bit 0 set, return a mapping with bit 0 set whose
`curr_radix` is `get_radix_from_index (get_highest_index bitmap)`;
`giga_init_mapping` returns a mapping with bit 0 set and `curr_radix = 1`, while the
radix computed from its bitmap is `0`. -/
theorem mapping_invariant_after_operations (flag id : Int) (zeroth_server server_count : Nat)
    (curr update m : giga_mapping_t) (i : Nat)
    (hc : curr.bitmap.length = MAX_BMAP_LEN) (hu : update.bitmap.length = MAX_BMAP_LEN)
    (hc0 : get_bit_status curr.bitmap 0 = 1)
    (hm : m.bitmap.length = MAX_BMAP_LEN) (hm0 : get_bit_status m.bitmap 0 = 1)
    (hi : i < 7 * MAX_BMAP_LEN) :
    (∃ m', giga_init_mapping flag id zeroth_server server_count = some m' ∧
      get_bit_status m'.bitmap 0 = 1 ∧ m'.curr_radix = 1 ∧
      (get_highest_index m'.bitmap).map get_radix_from_index = some 0) ∧
    (∃ m', giga_update_cache curr update = some m' ∧
      get_bit_status m'.bitmap 0 = 1 ∧
      (get_highest_index m'.bitmap).map get_radix_from_index = some m'.curr_radix) ∧
    (∃ m', giga_update_mapping m i = some m' ∧
      get_bit_status m'.bitmap 0 = 1 ∧
      (get_highest_index m'.bitmap).map get_radix_from_index = some m'.curr_radix) := by
  refine ⟨?_, ?_, ?_⟩
  · obtain ⟨m', h1, h2, h3, h4, _⟩ := init_mapping_facts flag id zeroth_server server_count
    refine ⟨m', h1, h4, h2, ?_⟩
    rw [h3]
    decide
  · obtain ⟨k', hk', heq⟩ := update_cache_eq curr update (le_of_eq hc) (le_of_eq hu)
      ⟨0, Or.inl hc0⟩
    refine ⟨_, heq, ?_, ?_⟩
    · exact (merge_bit_status curr.bitmap update.bitmap (le_of_eq hc) (le_of_eq hu) 0).2
        (Or.inl hc0)
    · simp only [hk', Option.map_some']
  · have hlt : i / 7 < m.bitmap.length := by rw [hm]; omega
    obtain ⟨k', hk', _, _, hupd⟩ := update_mapping_eq m i hm hi
    refine ⟨_, hupd, ?_, ?_⟩
    · exact (set_bit_status m.bitmap i hlt 0).2 (Or.inl hm0)
    · simp only [hk', Option.map_some']

theorem mapping_invariant_after_operations_witness :
    (∃ m', giga_init_mapping 0 5 2 4 = some m' ∧
      get_bit_status m'.bitmap 0 = 1 ∧ m'.curr_radix = 1 ∧
      (get_highest_index m'.bitmap).map get_radix_from_index = some 0) ∧
    (∃ m', giga_update_cache
        { bitmap := 3 :: List.replicate 36 0, id := 5, curr_radix := 1, zeroth_server := 2,
          server_count := 4 }
        { bitmap := 5 :: List.replicate 36 0, id := 5, curr_radix := 2, zeroth_server := 2,
          server_count := 8 } = some m' ∧
      get_bit_status m'.bitmap 0 = 1 ∧
      (get_highest_index m'.bitmap).map get_radix_from_index = some m'.curr_radix) ∧
    (∃ m', giga_update_mapping
        { bitmap := 3 :: List.replicate 36 0, id := 5, curr_radix := 1, zeroth_server := 2,
          server_count := 4 } 2 = some m' ∧
      get_bit_status m'.bitmap 0 = 1 ∧
      (get_highest_index m'.bitmap).map get_radix_from_index = some m'.curr_radix) :=
  mapping_invariant_after_operations 0 5 2 4
    { bitmap := 3 :: List.replicate 36 0, id := 5, curr_radix := 1, zeroth_server := 2,
      server_count := 4 }
    { bitmap := 5 :: List.replicate 36 0, id := 5, curr_radix := 2, zeroth_server := 2,
      server_count := 8 }
    { bitmap := 3 :: List.replicate 36 0, id := 5, curr_radix := 1, zeroth_server := 2,
      server_count := 4 } 2
    (by decide) (by decide) (by decide) (by decide) (by decide) (by decide)

/-- C5. For mappings of `MAX_BMAP_LEN` bytes, whenever `giga_update_cache curr update`
returns, it returns `curr` with every byte replaced by the OR of the two bytes,
`server_count` by the larger of the two counts, `curr_radix` by the radix recomputed
from the new bitmap, and `id` and `zeroth_server` unchanged; and it does return when
some partition bit is set in `curr` or in `update`. -/
theorem giga_update_cache_merge (curr update : giga_mapping_t)
    (hc : curr.bitmap.length = MAX_BMAP_LEN) (hu : update.bitmap.length = MAX_BMAP_LEN) :
    (∀ m', giga_update_cache curr update = some m' →
      m'.bitmap.length = MAX_BMAP_LEN ∧
      (∀ i, i < MAX_BMAP_LEN →
        m'.bitmap.getD i 0 = curr.bitmap.getD i 0 ||| update.bitmap.getD i 0) ∧
      m'.server_count = max curr.server_count update.server_count ∧
      get_radix_from_bmap m'.bitmap = some m'.curr_radix ∧
      m'.id = curr.id ∧ m'.zeroth_server = curr.zeroth_server) ∧
    ((∃ j, get_bit_status curr.bitmap j = 1 ∨ get_bit_status update.bitmap j = 1) →
      ∃ m', giga_update_cache curr update = some m') := by
  refine ⟨?_, ?_⟩
  · intro m' hm'
    unfold giga_update_cache at hm'
    cases hr : get_radix_from_bmap ((List.range MAX_BMAP_LEN).map
        (fun i => curr.bitmap.getD i 0 ||| update.bitmap.getD i 0)) with
    | none => simp only [hr] at hm'; exact absurd hm' (by simp)
    | some radix =>
      simp only [hr] at hm'
      have hm := (Option.some.inj hm').symm
      subst hm
      refine ⟨by simp, ?_, ?_, hr, rfl, rfl⟩
      · intro i hi
        simp only [merge_getD, if_pos hi]
      · simp only
        split <;> omega
  · intro hbit
    obtain ⟨k', _, heq⟩ := update_cache_eq curr update (le_of_eq hc) (le_of_eq hu) hbit
    exact ⟨_, heq⟩

theorem giga_update_cache_merge_witness :
    (∀ m', giga_update_cache
        { bitmap := 3 :: List.replicate 36 0, id := 5, curr_radix := 1, zeroth_server := 2,
          server_count := 4 }
        { bitmap := 5 :: List.replicate 36 0, id := 5, curr_radix := 2, zeroth_server := 2,
          server_count := 8 } = some m' →
      m'.bitmap.length = MAX_BMAP_LEN ∧
      (∀ i, i < MAX_BMAP_LEN → m'.bitmap.getD i 0 =
        (3 :: List.replicate 36 0).getD i 0 ||| (5 :: List.replicate 36 0).getD i 0) ∧
      m'.server_count = max 4 8 ∧
      get_radix_from_bmap m'.bitmap = some m'.curr_radix ∧
      m'.id = 5 ∧ m'.zeroth_server = 2) ∧
    ∃ m', giga_update_cache
        { bitmap := 3 :: List.replicate 36 0, id := 5, curr_radix := 1, zeroth_server := 2,
          server_count := 4 }
        { bitmap := 5 :: List.replicate 36 0, id := 5, curr_radix := 2, zeroth_server := 2,
          server_count := 8 } = some m' :=
  ⟨(giga_update_cache_merge
      { bitmap := 3 :: List.replicate 36 0, id := 5, curr_radix := 1, zeroth_server := 2,
        server_count := 4 }
      { bitmap := 5 :: List.replicate 36 0, id := 5, curr_radix := 2, zeroth_server := 2,
        server_count := 8 } (by decide) (by decide)).1,
   (giga_update_cache_merge
      { bitmap := 3 :: List.replicate 36 0, id := 5, curr_radix := 1, zeroth_server := 2,
        server_count := 4 }
      { bitmap := 5 :: List.replicate 36 0, id := 5, curr_radix := 2, zeroth_server := 2,
        server_count := 8 } (by decide) (by decide)).2 ⟨0, Or.inl (by decide)⟩⟩

/-- C6. For a mapping of `MAX_BMAP_LEN` bytes and `i < 7 * MAX_BMAP_LEN`,
`giga_update_mapping` returns a mapping in which bit `i` is set (byte `i / 7` is ORed
with `2^(i % 7)`), the status of every other index is unchanged, every byte other than `i / 7` is unchanged, bits 7 and above
of every byte are unchanged, `curr_radix` is the radix recomputed from the new bitmap,
and the other fields are unchanged. -/
theorem giga_update_mapping_sets_bit (m : giga_mapping_t) (i : Nat)
    (hlen : m.bitmap.length = MAX_BMAP_LEN) (hi : i < 7 * MAX_BMAP_LEN) :
    ∃ m', giga_update_mapping m i = some m' ∧
      get_bit_status m'.bitmap i = 1 ∧
      m'.bitmap.getD (i / BITS_PER_MAP) 0 =
        m.bitmap.getD (i / BITS_PER_MAP) 0 ||| 2 ^ (i % BITS_PER_MAP) ∧
      (∀ j, j ≠ i → get_bit_status m'.bitmap j = get_bit_status m.bitmap j) ∧
      (∀ b, b ≠ i / BITS_PER_MAP → m'.bitmap.getD b 0 = m.bitmap.getD b 0) ∧
      (∀ b t, 7 ≤ t → (m'.bitmap.getD b 0).testBit t = (m.bitmap.getD b 0).testBit t) ∧
      m'.bitmap.length = MAX_BMAP_LEN ∧
      get_radix_from_bmap m'.bitmap = some m'.curr_radix ∧
      m'.id = m.id ∧ m'.zeroth_server = m.zeroth_server ∧
      m'.server_count = m.server_count := by
  have hc : i / 7 < m.bitmap.length := by rw [hlen]; omega
  obtain ⟨k', hk', _, _, hupd⟩ := update_mapping_eq m i hlen hi
  refine ⟨_, hupd, ?_, ?_, ?_, ?_, ?_, ?_, ?_, rfl, rfl, rfl⟩
  · exact (set_bit_status m.bitmap i hc i).2 (Or.inr rfl)
  · simp only [bits_per_map_eq, set_bit_getD m.bitmap i hc, if_pos]
  · intro j hj
    have hiff := set_bit_status m.bitmap i hc j
    simp only [hj, or_false] at hiff
    rcases get_bit_status_cases m.bitmap j with h | h
    · rcases get_bit_status_cases
        (m.bitmap.set (i / 7) (m.bitmap.getD (i / 7) 0 ||| 2 ^ (i % 7))) j with h' | h'
      · simp only [h, h']
      · rw [hiff.1 h'] at h; exact absurd h (by decide)
    · simp only [h, hiff.2 h]
  · intro b hb
    simp only [bits_per_map_eq] at hb
    simp only [set_bit_getD m.bitmap i hc, if_neg hb]
  · intro b t ht
    simp only [set_bit_getD m.bitmap i hc]
    by_cases hb : b = i / 7
    · rw [if_pos hb, Nat.testBit_or, Nat.testBit_two_pow, hb]
      have : ¬ i % 7 = t := by omega
      simp [this]
    · rw [if_neg hb]
  · simpa using hlen
  · simp only [get_radix_from_bmap, hk', Option.map_some']

theorem giga_update_mapping_sets_bit_witness :
    ∃ m', giga_update_mapping
        { bitmap := 131 :: List.replicate 36 0, id := 5, curr_radix := 1, zeroth_server := 0,
          server_count := 4 } 9 = some m' ∧
      get_bit_status m'.bitmap 9 = 1 ∧
      m'.bitmap.getD (9 / BITS_PER_MAP) 0 =
        (131 :: List.replicate 36 0).getD (9 / BITS_PER_MAP) 0 ||| 2 ^ (9 % BITS_PER_MAP) ∧
      (∀ j, j ≠ 9 → get_bit_status m'.bitmap j =
        get_bit_status (131 :: List.replicate 36 0) j) ∧
      (∀ b, b ≠ 9 / BITS_PER_MAP →
        m'.bitmap.getD b 0 = (131 :: List.replicate 36 0).getD b 0) ∧
      (∀ b t, 7 ≤ t → (m'.bitmap.getD b 0).testBit t =
        ((131 :: List.replicate 36 0).getD b 0).testBit t) ∧
      m'.bitmap.length = MAX_BMAP_LEN ∧
      get_radix_from_bmap m'.bitmap = some m'.curr_radix ∧
      m'.id = 5 ∧ m'.zeroth_server = 0 ∧ m'.server_count = 4 :=
  giga_update_mapping_sets_bit
    { bitmap := 131 :: List.replicate 36 0, id := 5, curr_radix := 1, zeroth_server := 0,
      server_count := 4 } 9 (by decide) (by decide)

/-- C7. Under the compiled-in split type `giga_init_mapping` returns, for every flag,
a mapping with `curr_radix = 1`, a bitmap of `MAX_BMAP_LEN` bytes in which bit 0 is set
and every other bit is clear, `id` and `zeroth_server` as given, and `server_count` as
given when positive and `1` when it is `0`, so that `server_count >= 1`. -/
theorem giga_init_mapping_spec (flag id : Int) (zeroth_server server_count : Nat) :
    ∃ m, giga_init_mapping flag id zeroth_server server_count = some m ∧
      m.curr_radix = 1 ∧
      m.bitmap = 1 :: List.replicate (MAX_BMAP_LEN - 1) 0 ∧
      get_bit_status m.bitmap 0 = 1 ∧
      (∀ i, i ≠ 0 → get_bit_status m.bitmap i = 0) ∧
      m.id = id ∧ m.zeroth_server = zeroth_server ∧
      (0 < server_count → m.server_count = server_count) ∧
      (server_count = 0 → m.server_count = 1) ∧
      1 ≤ m.server_count :=
  init_mapping_facts flag id zeroth_server server_count

/-- C8. For every hash and every radix `r < MAX_RADIX`, `compute_index` returns the
low `r` bits of `reverse_byte(h[0]) + reverse_byte(h[1])<<7 + ...`; and for every byte
`b`, bit `i` of `reverse_byte b` is bit `7 - i` of `b`, and `reverse_byte b` is a
byte. -/
theorem compute_index_low_bits (h : List Nat) (r : Nat) (hr : r < MAX_RADIX) :
    compute_index h r = some (spec_reversed_sum h % 2 ^ r) ∧
    (∀ b, b < 256 → ∀ i, i < 8 → (reverse_byte b).testBit i = b.testBit (7 - i)) ∧
    (∀ b, reverse_byte b < 256) := by
  refine ⟨?_, reverse_byte_bits, reverse_byte_lt⟩
  rw [compute_index_eq h r hr, spec_reversed_sum_mod h r (by unfold MAX_RADIX at hr; omega)]

theorem compute_index_low_bits_witness :
    compute_index [160, 17, 34, 51, 68, 85, 102, 119] 3 =
      some (spec_reversed_sum [160, 17, 34, 51, 68, 85, 102, 119] % 2 ^ 3) ∧
    (∀ b, b < 256 → ∀ i, i < 8 → (reverse_byte b).testBit i = b.testBit (7 - i)) ∧
    (∀ b, reverse_byte b < 256) :=
  compute_index_low_bits [160, 17, 34, 51, 68, 85, 102, 119] 3 (by decide)

/-- C9. `get_radix_from_index` is `0` at `0`, `1` at `1` and `floor(log2 i) + 1`
from `2` on; and for every mapping that the program holds (made by
`giga_init_mapping`, `giga_update_mapping` and `giga_update_cache`, or copied over the
wire) there is a highest index whose bit is set, and `get_radix_from_bmap` returns
`get_radix_from_index` of it. -/
theorem radix_from_index_and_bmap (i : Nat) (m : giga_mapping_t) (hm : HeldMapping m) :
    get_radix_from_index 0 = 0 ∧ get_radix_from_index 1 = 1 ∧
    (2 ≤ i → get_radix_from_index i = Nat.log 2 i + 1 ∧
      2 ^ (get_radix_from_index i - 1) ≤ i ∧ i < 2 ^ get_radix_from_index i) ∧
    ∃ k, get_bit_status m.bitmap k = 1 ∧ (∀ j, get_bit_status m.bitmap j = 1 → j ≤ k) ∧
      get_radix_from_bmap m.bitmap = some (get_radix_from_index k) := by
  refine ⟨by decide, by decide, ?_, ?_⟩
  · intro hi
    refine ⟨?_, two_pow_radix_le i hi, lt_two_pow_radix i⟩
    unfold get_radix_from_index
    rw [if_neg (by omega), if_neg (by omega), Nat.log2_eq_log_two]
  · obtain ⟨hlen, hclean, hbit⟩ := held_mapping_clean m hm
    obtain ⟨k, hk, hmax, hhi⟩ := highest_set_index_of_clean m.bitmap hlen hclean 0 hbit
    refine ⟨k, hk, hmax, ?_⟩
    simp only [get_radix_from_bmap, hhi, Option.map_some']

theorem radix_from_index_and_bmap_witness :
    get_radix_from_index 0 = 0 ∧ get_radix_from_index 1 = 1 ∧
    (2 ≤ 200 → get_radix_from_index 200 = Nat.log 2 200 + 1 ∧
      2 ^ (get_radix_from_index 200 - 1) ≤ 200 ∧ 200 < 2 ^ get_radix_from_index 200) ∧
    ∃ k, get_bit_status (3 :: List.replicate 36 0) k = 1 ∧
      (∀ j, get_bit_status (3 :: List.replicate 36 0) j = 1 → j ≤ k) ∧
      get_radix_from_bmap (3 :: List.replicate 36 0) = some (get_radix_from_index k) :=
  radix_from_index_and_bmap 200
    { bitmap := 3 :: List.replicate 36 0, id := 5, curr_radix := 1,
      zeroth_server := 0, server_count := 4 }
    (.update { bitmap := 1 :: List.replicate 36 0, id := 5, curr_radix := 1,
               zeroth_server := 0, server_count := 4 } _ 1
      (.init (-1) 5 0 4 _ (by decide)) (by decide))

/-- C11 (the code at the failing input). In the mapping with partitions
`0, 1, 2, 4, 8, 16, 32, 64` and 200 servers, partition 0 is splittable and its split
target is 128; after `giga_update_mapping` with 128 the mapping has bit 0 set, highest
index 128 and radix 8, and `giga_get_index_for_file` does not return for any name:
`compute_index` stops in `assert(radix < MAX_RADIX)`. -/
theorem giga_get_index_for_file_radix_eight :
    giga_index_for_splitting
      { bitmap := [23, 2, 4, 0, 16, 0, 0, 0, 0, 2] ++ List.replicate 27 0, id := 5,
        curr_radix := 7, zeroth_server := 0, server_count := 200 } 0 = some 128 ∧
    giga_is_splittable
      { bitmap := [23, 2, 4, 0, 16, 0, 0, 0, 0, 2] ++ List.replicate 27 0, id := 5,
        curr_radix := 7, zeroth_server := 0, server_count := 200 } 0 = some 1 ∧
    ∃ m', giga_update_mapping
        { bitmap := [23, 2, 4, 0, 16, 0, 0, 0, 0, 2] ++ List.replicate 27 0, id := 5,
          curr_radix := 7, zeroth_server := 0, server_count := 200 } 128 = some m' ∧
      m'.bitmap.length = MAX_BMAP_LEN ∧
      get_bit_status m'.bitmap 0 = 1 ∧
      get_highest_index m'.bitmap = some 128 ∧
      m'.curr_radix = 8 ∧ m'.curr_radix ≤ MAX_RADIX ∧
      (∀ fuel hash, giga_get_index_for_hash fuel m' hash = none) ∧
      ∀ murmur fuel name, giga_get_index_for_file murmur fuel m' name = none := by
  refine ⟨by decide, by decide, ?_⟩
  obtain ⟨k', hk', _, hmax, hupd⟩ := update_mapping_eq
    { bitmap := [23, 2, 4, 0, 16, 0, 0, 0, 0, 2] ++ List.replicate 27 0, id := 5,
      curr_radix := 7, zeroth_server := 0, server_count := 200 } 128 (by decide) (by decide)
  have hk : k' = 128 := by
    rw [hmax 64 (by decide)]
    decide
  subst hk
  have hr : get_radix_from_index 128 = 8 := by
    simp [get_radix_from_index, Nat.log2]
  have hnone : ∀ fuel hash, giga_get_index_for_hash fuel
      { bitmap := ([23, 2, 4, 0, 16, 0, 0, 0, 0, 2] ++ List.replicate 27 0).set (128 / 7)
          (([23, 2, 4, 0, 16, 0, 0, 0, 0, 2] ++ List.replicate 27 0).getD (128 / 7) 0 |||
            2 ^ (128 % 7)),
        id := 5, curr_radix := get_radix_from_index 128, zeroth_server := 0,
        server_count := 200 } hash = none := by
    intro fuel hash
    unfold giga_get_index_for_hash get_radix_from_bmap
    simp only [hk', Option.map_some', hr]
    rfl
  refine ⟨_, hupd, by decide, by decide, hk', hr, by rw [hr]; decide, hnone, ?_⟩
  intro murmur fuel name
  exact hnone fuel _

/-- C12. For mappings of `MAX_BMAP_LEN` bytes: whenever `giga_update_cache m u` or
`giga_update_mapping m i` returns, every partition bit set in `m` is set in the
result, and so is every bit of every byte; `giga_update_cache` returns when some
partition bit of `m` is set, `giga_update_mapping` when `i` lies inside the bitmap. -/
theorem bitmap_monotone (m u : giga_mapping_t) (i : Nat)
    (hm : m.bitmap.length = MAX_BMAP_LEN) (hu : u.bitmap.length = MAX_BMAP_LEN) :
    (∀ m', giga_update_cache m u = some m' →
      (∀ j, get_bit_status m.bitmap j = 1 → get_bit_status m'.bitmap j = 1) ∧
      (∀ b t, (m.bitmap.getD b 0).testBit t = true → (m'.bitmap.getD b 0).testBit t = true)) ∧
    (∀ m', giga_update_mapping m i = some m' →
      (∀ j, get_bit_status m.bitmap j = 1 → get_bit_status m'.bitmap j = 1) ∧
      (∀ b t, (m.bitmap.getD b 0).testBit t = true → (m'.bitmap.getD b 0).testBit t = true)) ∧
    ((∃ j, get_bit_status m.bitmap j = 1) → ∃ m', giga_update_cache m u = some m') ∧
    (i < 7 * MAX_BMAP_LEN → ∃ m', giga_update_mapping m i = some m') := by
  refine ⟨?_, ?_, ?_, ?_⟩
  · intro m' h
    obtain ⟨hb, _⟩ := update_cache_some m u m' h
    rw [hb]
    refine ⟨?_, ?_⟩
    · intro j hj
      exact (merge_bit_status m.bitmap u.bitmap (le_of_eq hm) (le_of_eq hu) j).2 (Or.inl hj)
    · intro b t hbt
      have hne : m.bitmap.getD b 0 ≠ 0 := by
        intro h0; rw [h0] at hbt; simp at hbt
      have hlt : b < MAX_BMAP_LEN := by
        have := getD_ne_zero_lt m.bitmap b hne
        omega
      rw [merge_getD, if_pos hlt, Nat.testBit_or, hbt]
      rfl
  · intro m' h
    obtain ⟨hc, hb, _⟩ := update_mapping_some m m' i h
    rw [hb]
    refine ⟨?_, ?_⟩
    · intro j hj
      exact (set_bit_status m.bitmap i hc j).2 (Or.inl hj)
    · intro b t hbt
      rw [set_bit_getD m.bitmap i hc]
      by_cases hbi : b = i / 7
      · rw [if_pos hbi, Nat.testBit_or, ← hbi, hbt]
        rfl
      · rw [if_neg hbi]
        exact hbt
  · rintro ⟨j, hj⟩
    obtain ⟨k', _, heq⟩ := update_cache_eq m u (le_of_eq hm) (le_of_eq hu) ⟨j, Or.inl hj⟩
    exact ⟨_, heq⟩
  · intro hi
    obtain ⟨k', _, _, _, hupd⟩ := update_mapping_eq m i hm hi
    exact ⟨_, hupd⟩

theorem bitmap_monotone_witness :
    (∀ m', giga_update_cache
        { bitmap := 3 :: List.replicate 36 0, id := 5, curr_radix := 1, zeroth_server := 2,
          server_count := 4 }
        { bitmap := 5 :: List.replicate 36 0, id := 5, curr_radix := 2, zeroth_server := 2,
          server_count := 8 } = some m' →
      (∀ j, get_bit_status (3 :: List.replicate 36 0) j = 1 → get_bit_status m'.bitmap j = 1) ∧
      (∀ b t, ((3 :: List.replicate 36 0).getD b 0).testBit t = true →
        (m'.bitmap.getD b 0).testBit t = true)) ∧
    (∀ m', giga_update_mapping
        { bitmap := 3 :: List.replicate 36 0, id := 5, curr_radix := 1, zeroth_server := 2,
          server_count := 4 } 9 = some m' →
      (∀ j, get_bit_status (3 :: List.replicate 36 0) j = 1 → get_bit_status m'.bitmap j = 1) ∧
      (∀ b t, ((3 :: List.replicate 36 0).getD b 0).testBit t = true →
        (m'.bitmap.getD b 0).testBit t = true)) ∧
    (∃ m', giga_update_cache
        { bitmap := 3 :: List.replicate 36 0, id := 5, curr_radix := 1, zeroth_server := 2,
          server_count := 4 }
        { bitmap := 5 :: List.replicate 36 0, id := 5, curr_radix := 2, zeroth_server := 2,
          server_count := 8 } = some m') ∧
    ∃ m', giga_update_mapping
        { bitmap := 3 :: List.replicate 36 0, id := 5, curr_radix := 1, zeroth_server := 2,
          server_count := 4 } 9 = some m' :=
  ⟨(bitmap_monotone
      { bitmap := 3 :: List.replicate 36 0, id := 5, curr_radix := 1, zeroth_server := 2,
        server_count := 4 }
      { bitmap := 5 :: List.replicate 36 0, id := 5, curr_radix := 2, zeroth_server := 2,
        server_count := 8 } 9 (by decide) (by decide)).1,
   (bitmap_monotone
      { bitmap := 3 :: List.replicate 36 0, id := 5, curr_radix := 1, zeroth_server := 2,
        server_count := 4 }
      { bitmap := 5 :: List.replicate 36 0, id := 5, curr_radix := 2, zeroth_server := 2,
        server_count := 8 } 9 (by decide) (by decide)).2.1,
   (bitmap_monotone
      { bitmap := 3 :: List.replicate 36 0, id := 5, curr_radix := 1, zeroth_server := 2,
        server_count := 4 }
      { bitmap := 5 :: List.replicate 36 0, id := 5, curr_radix := 2, zeroth_server := 2,
        server_count := 8 } 9 (by decide) (by decide)).2.2.1 ⟨0, by decide⟩,
   (bitmap_monotone
      { bitmap := 3 :: List.replicate 36 0, id := 5, curr_radix := 1, zeroth_server := 2,
        server_count := 4 }
      { bitmap := 5 :: List.replicate 36 0, id := 5, curr_radix := 2, zeroth_server := 2,
        server_count := 8 } 9 (by decide) (by decide)).2.2.2 (by decide)⟩

/-- C13. Let the server mapping `s` be well formed for `srv_num` servers, let the
client mapping `c` have `MAX_BMAP_LEN` bytes, the zeroth server and the server count
of `s`, and let every bit of every byte of `c` be set in `s`.  Then
`giga_update_cache c s`, which is the client's `UpdateBitmap` on the copy of `s`,
returns a mapping whose bitmap is the bitmap of `s`; and for every name the server's
`giga_get_index_for_file` and `giga_get_server_for_index` on `s` return a partition
and its server, the client's `SelectServer` on the merged mapping returns that
server, and `CheckAddressing` on `s` at that server returns the partition and not
`-1`: the retried request is not redirected. -/
theorem redirection_convergence (srv_num : Int) (murmur : List Nat → List Nat) (fuel : Nat)
    (c s : giga_mapping_t) (hfuel : 8 ≤ fuel)
    (hc : c.bitmap.length = MAX_BMAP_LEN) (hwf : WellFormed srv_num s)
    (hz : c.zeroth_server = s.zeroth_server) (hsc : c.server_count = s.server_count)
    (hsub : ∀ i t, (c.bitmap.getD i 0).testBit t = true → (s.bitmap.getD i 0).testBit t = true) :
    ∃ c', giga_update_cache c s = some c' ∧ UpdateBitmap c (CopyGigaMap s) = some c' ∧
      c'.bitmap = s.bitmap ∧ c'.zeroth_server = s.zeroth_server ∧
      c'.server_count = s.server_count ∧
      ∀ name : List Nat, ∃ (index : Nat) (server : Int),
        giga_get_index_for_file murmur fuel s name = some index ∧
        giga_get_server_for_index s index = some server ∧
        SelectServer srv_num murmur fuel c' name = some server ∧
        CheckAddressing server murmur fuel s name = some (index : Int) := by
  have hs : s.bitmap.length = MAX_BMAP_LEN := hwf.1
  obtain ⟨k', _, heq⟩ := update_cache_eq c s (le_of_eq hc) (le_of_eq hs) ⟨0, Or.inr hwf.2.1⟩
  have hmerge := merge_eq_right c.bitmap s.bitmap hs hsub
  rw [hmerge] at heq
  have hcount : (if s.server_count > c.server_count then s.server_count
      else c.server_count) = s.server_count := by
    split <;> omega
  rw [hcount] at heq
  refine ⟨_, heq, by rw [UpdateBitmap, to_legacy_copy s hs]; exact heq, rfl, hz, rfl, ?_⟩
  intro name
  have hcongr := select_server_congr srv_num murmur fuel
    { c with bitmap := s.bitmap, curr_radix := get_radix_from_index k',
             server_count := s.server_count } s name rfl hz rfl
  obtain ⟨server, hsel⟩ := wf_select srv_num murmur fuel s name hwf hfuel
  obtain ⟨index, hi, hsrv, hchk⟩ := select_server_parts srv_num murmur fuel s name server hsel
  exact ⟨index, server, hi, hsrv, by rw [hcongr.1]; exact hsel, hchk⟩

theorem redirection_convergence_witness :
    ∃ c', giga_update_cache
        { bitmap := 1 :: List.replicate 36 0, id := 5, curr_radix := 1, zeroth_server := 0,
          server_count := 2 }
        { bitmap := 3 :: List.replicate 36 0, id := 5, curr_radix := 1, zeroth_server := 0,
          server_count := 2 } = some c' ∧
      UpdateBitmap
        { bitmap := 1 :: List.replicate 36 0, id := 5, curr_radix := 1, zeroth_server := 0,
          server_count := 2 }
        (CopyGigaMap { bitmap := 3 :: List.replicate 36 0, id := 5, curr_radix := 1,
                       zeroth_server := 0, server_count := 2 }) = some c' ∧
      c'.bitmap = 3 :: List.replicate 36 0 ∧ c'.zeroth_server = 0 ∧
      c'.server_count = 2 ∧
      ∀ name : List Nat, ∃ (index : Nat) (server : Int),
        giga_get_index_for_file (fun key => key) 8
          { bitmap := 3 :: List.replicate 36 0, id := 5, curr_radix := 1,
            zeroth_server := 0, server_count := 2 } name = some index ∧
        giga_get_server_for_index
          { bitmap := 3 :: List.replicate 36 0, id := 5, curr_radix := 1,
            zeroth_server := 0, server_count := 2 } index = some server ∧
        SelectServer 2 (fun key => key) 8 c' name = some server ∧
        CheckAddressing server (fun key => key) 8
          { bitmap := 3 :: List.replicate 36 0, id := 5, curr_radix := 1,
            zeroth_server := 0, server_count := 2 } name = some (index : Int) :=
  redirection_convergence 2 (fun key => key) 8
    { bitmap := 1 :: List.replicate 36 0, id := 5, curr_radix := 1, zeroth_server := 0,
      server_count := 2 }
    { bitmap := 3 :: List.replicate 36 0, id := 5, curr_radix := 1, zeroth_server := 0,
      server_count := 2 } (by decide) (by decide) wf_example rfl rfl bits_of_one_in_three

/-- C14 (counterexample). An entry in read status with `expire_time = 5000000` is
accessed at `now = 1000000`: the stored `expire_time` stays `5000000`, the maximum,
but the `lease_time` returned is `now + granted = 2000000`. -/
theorem access_returns_new_expire_time :
    Access_entry
      (some { inode_id := 7, zeroth_server := 0, expire_time := 5000000,
              status := .LEASE_READ_STATUS }) none 1000000 1000000 0 =
      .done { id := 7, zeroth_server := 0, lease_time := 2000000 }
        { inode_id := 7, zeroth_server := 0, expire_time := 5000000,
          status := .LEASE_READ_STATUS } ∧
    max 5000000 (1000000 + GetLeaseTime
      { inode_id := 7, zeroth_server := 0, expire_time := 5000000,
        status := .LEASE_READ_STATUS } 0) ≠ 2000000 := by
  decide

/-- C14 (amended). For a cached entry in read status and `now + granted` below
`2^64`, every successful `Access` leaves `expire_time = max(old, now + granted)` and
returns `lease_time = now + granted`; the two are equal when the old `expire_time` is
not above `now + granted`.  The call succeeds when the inode of the entry is known or
the store has the entry.  For an entry that is not cached yet, a successful `Access`
stores and returns `now + granted`. -/
theorem access_lease_read (value : ServerDirEntryValue) (stat : Option StatInfo)
    (now_wait now : Nat) (lease_time : Int)
    (hread : value.status = .LEASE_READ_STATUS)
    (hnow : now + GetLeaseTime value lease_time < 2 ^ 64) :
    (∀ info value', Access_entry (some value) stat now_wait now lease_time = .done info value' →
      value'.expire_time = max value.expire_time (now + GetLeaseTime value lease_time) ∧
      info.lease_time = now + GetLeaseTime value lease_time ∧
      (value.expire_time ≤ now + GetLeaseTime value lease_time →
        info.lease_time = value'.expire_time) ∧
      value'.status = .LEASE_READ_STATUS) ∧
    (((value.inode_id ≠ 2 ^ 64 - 1 ∧ value.zeroth_server ≠ -1) ∨ stat ≠ none) →
      ∃ info value', Access_entry (some value) stat now_wait now lease_time =
        .done info value') ∧
    (∀ info value', Access_entry none stat now_wait now lease_time = .done info value' →
      value'.expire_time = now + GetLeaseTime value lease_time ∧
      info.lease_time = value'.expire_time) := by
  have hG : ∀ v : ServerDirEntryValue, GetLeaseTime v lease_time = 1000000 := fun _ => rfl
  have hlease : ∀ v : ServerDirEntryValue, v.status = .LEASE_READ_STATUS →
      v.expire_time = value.expire_time →
      (Access_lease v now lease_time).1 = now + 1000000 ∧
      (Access_lease v now lease_time).2.expire_time = max value.expire_time (now + 1000000) ∧
      (Access_lease v now lease_time).2.status = .LEASE_READ_STATUS := by
    intro v hv he
    have hmod : (now + 1000000) % 2 ^ 64 = now + 1000000 :=
      Nat.mod_eq_of_lt (by rw [hG] at hnow; exact hnow)
    unfold Access_lease
    simp only [hv, hG, he, reduceCtorEq, if_false, hmod]
    refine ⟨trivial, ?_, trivial⟩
    split <;> omega
  have hnw : ¬ (value.status = .LEASE_WRITE_STATUS ∧
      (now_wait + kTimeEpsilon) % 2 ^ 64 > value.expire_time) := by
    rw [hread]; simp
  rw [hG] at *
  refine ⟨?_, ?_, ?_⟩
  rotate_left 2
  · intro info value' h
    obtain ⟨h1, h2, _⟩ := access_new_entry stat now_wait now lease_time hnow info value' h
    exact ⟨h1, by rw [h1, h2]⟩
  · intro info value' h
    unfold Access_entry at h
    simp only [if_neg hnw] at h
    by_cases hm : value.inode_id = 2 ^ 64 - 1 ∨ value.zeroth_server = -1
    · rw [if_pos hm] at h
      cases stat with
      | none => simp at h
      | some st =>
        simp only [AccessResult.done.injEq] at h
        obtain ⟨h1, h2⟩ := h
        obtain ⟨e1, e2, e3⟩ := hlease
          { value with inode_id := st.id, zeroth_server := st.zeroth_server } hread rfl
        subst h1 h2
        exact ⟨e2, e1, fun hle => by simp only [e1, e2]; omega, e3⟩
    · rw [if_neg hm] at h
      simp only [AccessResult.done.injEq] at h
      obtain ⟨h1, h2⟩ := h
      obtain ⟨e1, e2, e3⟩ := hlease value hread rfl
      subst h1 h2
      exact ⟨e2, e1, fun hle => by simp only [e1, e2]; omega, e3⟩
  · intro h
    unfold Access_entry
    simp only [if_neg hnw]
    by_cases hm : value.inode_id = 2 ^ 64 - 1 ∨ value.zeroth_server = -1
    · rw [if_pos hm]
      cases stat with
      | none =>
        rcases h with h | h
        · rcases hm with hm | hm
          · exact absurd hm h.1
          · exact absurd hm h.2
        · exact absurd rfl h
      | some st => exact ⟨_, _, rfl⟩
    · rw [if_neg hm]
      exact ⟨_, _, rfl⟩

theorem access_lease_read_witness :
    (∀ info value', Access_entry
        (some { inode_id := 7, zeroth_server := 0, expire_time := 1500000,
                status := .LEASE_READ_STATUS }) none 1000000 1000000 0 = .done info value' →
      value'.expire_time = max 1500000 (1000000 + GetLeaseTime
        { inode_id := 7, zeroth_server := 0, expire_time := 1500000,
          status := .LEASE_READ_STATUS } 0) ∧
      info.lease_time = 1000000 + GetLeaseTime
        { inode_id := 7, zeroth_server := 0, expire_time := 1500000,
          status := .LEASE_READ_STATUS } 0 ∧
      (1500000 ≤ 1000000 + GetLeaseTime
        { inode_id := 7, zeroth_server := 0, expire_time := 1500000,
          status := .LEASE_READ_STATUS } 0 →
        info.lease_time = value'.expire_time) ∧
      value'.status = .LEASE_READ_STATUS) ∧
    (∃ info value', Access_entry
        (some { inode_id := 7, zeroth_server := 0, expire_time := 1500000,
                status := .LEASE_READ_STATUS }) none 1000000 1000000 0 = .done info value') ∧
    (∀ info value', Access_entry none none 1000000 1000000 0 = .done info value' →
      value'.expire_time = 1000000 + GetLeaseTime
        { inode_id := 7, zeroth_server := 0, expire_time := 1500000,
          status := .LEASE_READ_STATUS } 0 ∧
      info.lease_time = value'.expire_time) :=
  ⟨(access_lease_read
      { inode_id := 7, zeroth_server := 0, expire_time := 1500000,
        status := .LEASE_READ_STATUS } none 1000000 1000000 0 rfl (by decide)).1,
   (access_lease_read
      { inode_id := 7, zeroth_server := 0, expire_time := 1500000,
        status := .LEASE_READ_STATUS } none 1000000 1000000 0 rfl (by decide)).2.1
      (Or.inl ⟨by decide, by decide⟩),
   (access_lease_read
      { inode_id := 7, zeroth_server := 0, expire_time := 1500000,
        status := .LEASE_READ_STATUS } none 1000000 1000000 0 rfl (by decide)).2.2⟩

/-- C15 (counterexample). At `now = expire_time = 1000000` the condition
`now + ε < expire_time` is false, but `WriteLockDirEntry` marks the entry as being
written and sleeps `ε = 10000` microseconds (`tv_sec = 0`, `tv_nsec = 10000000`). -/
theorem write_lock_waits_at_expiry :
    ¬ (1000000 + kTimeEpsilon < 1000000) ∧
    WriteLockDirEntry
      (some { inode_id := 7, zeroth_server := 0, expire_time := 1000000,
              status := .LEASE_READ_STATUS }) 1000000 =
      .locked { inode_id := 7, zeroth_server := 0, expire_time := 1000000,
                status := .LEASE_WRITE_STATUS } (some (0, 10000000)) := by
  decide

/-- The `int` parameter of `SleepForMicroseconds` truncates the `uint64_t` sleep:
with `expire_time + ε - now = 2^31` microseconds the `timespec` passed to `nanosleep`
is negative (`tv_sec = -2147`, `tv_nsec = -483648000`). -/
theorem write_lock_sleep_truncated :
    WriteLockDirEntry
      (some { inode_id := 7, zeroth_server := 0, expire_time := 2147483648,
              status := .LEASE_READ_STATUS }) 10000 =
      .locked { inode_id := 7, zeroth_server := 0, expire_time := 2147483648,
                status := .LEASE_WRITE_STATUS } (some (-2147, -483648000)) := by
  decide

/-- C15 (amended). For a cached entry in read status, with `now` and
`expire_time + ε` below `2^64`: `WriteLockDirEntry` waits if and only if
`now < expire_time + ε`; when it waits it sets the write status and, provided
`expire_time + ε - now` is below `2^31` (it is passed as an `int`), the `timespec`
it passes to `nanosleep` is non-negative, normalised and amounts to exactly
`expire_time + ε - now` microseconds, so that it resumes at `expire_time + ε`;
otherwise it leaves the entry as it is and does not sleep. -/
theorem write_lock_hold_off (value : ServerDirEntryValue) (now : Nat)
    (hread : value.status = .LEASE_READ_STATUS)
    (hnow : now < 2 ^ 64) (hexp : value.expire_time + kTimeEpsilon < 2 ^ 64) :
    (now < value.expire_time + kTimeEpsilon →
      value.expire_time + kTimeEpsilon - now < 2 ^ 31 →
      ∃ tv_sec tv_nsec : Int,
        WriteLockDirEntry (some value) now =
          .locked { value with status := .LEASE_WRITE_STATUS } (some (tv_sec, tv_nsec)) ∧
        0 ≤ tv_sec ∧ 0 ≤ tv_nsec ∧ tv_nsec < 1000000000 ∧
        tv_sec * 1000000000 + tv_nsec =
          ((value.expire_time + kTimeEpsilon - now : Nat) : Int) * 1000 ∧
        now + (value.expire_time + kTimeEpsilon - now) = value.expire_time + kTimeEpsilon) ∧
    (¬ now < value.expire_time + kTimeEpsilon →
      WriteLockDirEntry (some value) now = .locked value none) ∧
    ((∃ v ts, WriteLockDirEntry (some value) now = .locked v (some ts)) ↔
      now < value.expire_time + kTimeEpsilon) := by
  have hk : kTimeEpsilon = 10000 := rfl
  rw [hk] at hexp ⊢
  have hmod : (value.expire_time + 10000) % 2 ^ 64 = value.expire_time + 10000 :=
    Nat.mod_eq_of_lt hexp
  have hw : ¬ value.status = .LEASE_WRITE_STATUS := by rw [hread]; simp
  have h1 : now < value.expire_time + 10000 →
      WriteLockDirEntry (some value) now =
        .locked { value with status := .LEASE_WRITE_STATUS }
          (some (SleepForMicroseconds
            (to_signed_int (value.expire_time + 10000 - now)))) := by
    intro hlt
    unfold WriteLockDirEntry
    simp only [if_neg hw, hk, hmod, if_pos hlt]
    have : ((value.expire_time + 2 ^ 64 - now) % 2 ^ 64 + 10000) % 2 ^ 64 =
        value.expire_time + 10000 - now := by
      omega
    rw [this]
  have h2 : ¬ now < value.expire_time + 10000 →
      WriteLockDirEntry (some value) now = .locked value none := by
    intro hlt
    unfold WriteLockDirEntry
    simp only [if_neg hw, hk, hmod, if_neg hlt]
  refine ⟨fun hlt hint => ?_, h2, ?_⟩
  · have hs : to_signed_int (value.expire_time + 10000 - now) =
        ((value.expire_time + 10000 - now : Nat) : Int) := by
      unfold to_signed_int
      have e : (value.expire_time + 10000 - now) % 2 ^ 32 =
          value.expire_time + 10000 - now := Nat.mod_eq_of_lt (by omega)
      rw [e, if_pos hint]
    have hd : (0 : Int) ≤ ((value.expire_time + 10000 - now : Nat) : Int) :=
      Int.ofNat_nonneg _
    refine ⟨Int.tdiv ((value.expire_time + 10000 - now : Nat) : Int) 1000000,
      Int.tmod ((value.expire_time + 10000 - now : Nat) : Int) 1000000 * 1000, ?_, ?_⟩
    · rw [h1 hlt, hs]
      rfl
    · rw [Int.tdiv_eq_ediv hd (by norm_num), Int.tmod_eq_emod hd (by norm_num)]
      omega
  · constructor
    · rintro ⟨v, ts, h⟩
      by_contra hlt
      rw [h2 hlt] at h
      simp at h
    · intro hlt
      exact ⟨_, _, h1 hlt⟩

theorem write_lock_hold_off_witness :
    (1005000 < 1000000 + kTimeEpsilon →
      1000000 + kTimeEpsilon - 1005000 < 2 ^ 31 →
      ∃ tv_sec tv_nsec : Int,
        WriteLockDirEntry
          (some { inode_id := 7, zeroth_server := 0, expire_time := 1000000,
                  status := .LEASE_READ_STATUS }) 1005000 =
          .locked { inode_id := 7, zeroth_server := 0, expire_time := 1000000,
                    status := .LEASE_WRITE_STATUS } (some (tv_sec, tv_nsec)) ∧
        0 ≤ tv_sec ∧ 0 ≤ tv_nsec ∧ tv_nsec < 1000000000 ∧
        tv_sec * 1000000000 + tv_nsec =
          ((1000000 + kTimeEpsilon - 1005000 : Nat) : Int) * 1000 ∧
        1005000 + (1000000 + kTimeEpsilon - 1005000) = 1000000 + kTimeEpsilon) ∧
    (¬ 1005000 < 1000000 + kTimeEpsilon →
      WriteLockDirEntry
        (some { inode_id := 7, zeroth_server := 0, expire_time := 1000000,
                status := .LEASE_READ_STATUS }) 1005000 =
        .locked { inode_id := 7, zeroth_server := 0, expire_time := 1000000,
                  status := .LEASE_READ_STATUS } none) ∧
    ((∃ v ts, WriteLockDirEntry
        (some { inode_id := 7, zeroth_server := 0, expire_time := 1000000,
                status := .LEASE_READ_STATUS }) 1005000 = .locked v (some ts)) ↔
      1005000 < 1000000 + kTimeEpsilon) :=
  write_lock_hold_off
    { inode_id := 7, zeroth_server := 0, expire_time := 1000000,
      status := .LEASE_READ_STATUS } 1005000 rfl (by decide) (by decide)

/-- C16. Whenever `ScheduleSplit` returns, `partition_size` has grown by exactly 1,
and the split flag is set and the task `(dir_id, partition)` appended to the queue if
and only if the incremented size reaches the threshold, `giga_is_splittable` is `1`
and the flag was `0`; otherwise flag and queue are unchanged; with the flag already
set nothing is enqueued.  It returns when the increment does not overflow and either
the threshold is not reached or `giga_is_splittable` returns. -/
theorem schedule_split_spec {Store : Type} (st : ServerState Store) (mapping : giga_mapping_t)
    (dir_id partition : Nat) (hsize : st.dir.partition_size + 1 < 2 ^ 31) :
    (∀ st', ScheduleSplit st mapping dir_id partition = some st' →
      st'.dir.partition_size = st.dir.partition_size + 1 ∧
      ((st'.dir.split_flag = 1 ∧ st'.split_tasks = st.split_tasks ++ [(dir_id, partition)]) ↔
        (st.dir.partition_size + 1 ≥ st.split_threshold ∧
          giga_is_splittable mapping partition = some 1 ∧ st.dir.split_flag = 0)) ∧
      (¬ (st.dir.partition_size + 1 ≥ st.split_threshold ∧
          giga_is_splittable mapping partition = some 1 ∧ st.dir.split_flag = 0) →
        st'.dir.split_flag = st.dir.split_flag ∧ st'.split_tasks = st.split_tasks) ∧
      (st.dir.split_flag ≠ 0 → st'.split_tasks = st.split_tasks) ∧
      st'.store = st.store ∧ st'.mapping = st.mapping) ∧
    ((st.dir.partition_size + 1 < st.split_threshold ∨
        giga_is_splittable mapping partition ≠ none) →
      ∃ st', ScheduleSplit st mapping dir_id partition = some st') := by
  have hlen : ∀ l : List (Nat × Nat), l ≠ l ++ [(dir_id, partition)] := by
    intro l h
    have := congrArg List.length h
    simp at this
  refine ⟨?_, ?_⟩
  · intro st' h
    unfold ScheduleSplit CheckSplit at h
    rw [if_pos hsize] at h
    dsimp only at h
    by_cases hthr : st.dir.partition_size + 1 ≥ st.split_threshold
    · rw [if_pos hthr] at h
      cases hsp : giga_is_splittable mapping partition with
      | none => rw [hsp] at h; simp at h
      | some r =>
        rw [hsp] at h
        dsimp only at h
        by_cases hc : r = 1 ∧ st.dir.split_flag = 0
        · rw [decide_eq_true hc] at h
          dsimp only at h
          have := (Option.some.inj h).symm
          subst this
          obtain ⟨hr, hf⟩ := hc
          subst hr
          refine ⟨rfl, ?_, ?_, ?_, rfl, rfl⟩
          · exact ⟨fun _ => ⟨hthr, rfl, hf⟩, fun _ => ⟨rfl, rfl⟩⟩
          · intro hn; exact absurd ⟨hthr, rfl, hf⟩ hn
          · intro hn; exact absurd hf hn
        · rw [decide_eq_false hc] at h
          dsimp only at h
          have := (Option.some.inj h).symm
          subst this
          have hcond : ¬ (st.dir.partition_size + 1 ≥ st.split_threshold ∧
              some r = some 1 ∧ st.dir.split_flag = 0) := by
            rintro ⟨_, h2, h3⟩
            exact hc ⟨Option.some.inj h2, h3⟩
          refine ⟨rfl, ?_, ?_, ?_, rfl, rfl⟩
          · constructor
            · rintro ⟨_, h2⟩
              exact absurd h2 (hlen st.split_tasks)
            · intro h2; exact absurd h2 hcond
          · intro _; exact ⟨rfl, rfl⟩
          · intro _; rfl
    · rw [if_neg hthr] at h
      dsimp only at h
      have := (Option.some.inj h).symm
      subst this
      refine ⟨rfl, ?_, ?_, ?_, rfl, rfl⟩
      · constructor
        · rintro ⟨_, h2⟩
          exact absurd h2 (hlen st.split_tasks)
        · rintro ⟨h2, _⟩; exact absurd h2 hthr
      · intro _; exact ⟨rfl, rfl⟩
      · intro _; rfl
  · intro h
    unfold ScheduleSplit CheckSplit
    rw [if_pos hsize]
    dsimp only
    by_cases hthr : st.dir.partition_size + 1 ≥ st.split_threshold
    · rw [if_pos hthr]
      cases hsp : giga_is_splittable mapping partition with
      | none =>
        rcases h with h | h
        · omega
        · exact absurd hsp h
      | some r =>
        dsimp only
        by_cases hc : r = 1 ∧ st.dir.split_flag = 0
        · rw [decide_eq_true hc]; exact ⟨_, rfl⟩
        · rw [decide_eq_false hc]; exact ⟨_, rfl⟩
    · rw [if_neg hthr]
      exact ⟨_, rfl⟩

theorem schedule_split_spec_witness :
    (∀ st', ScheduleSplit
        ({ srv_id := 0, split_threshold := 3, store := (), mapping := none,
           dir := { partition_size := 2, split_flag := 0 }, split_tasks := [] } :
          ServerState Unit)
        { bitmap := 1 :: List.replicate 36 0, id := 5, curr_radix := 1, zeroth_server := 0,
          server_count := 4 } 5 0 = some st' →
      st'.dir.partition_size = 2 + 1 ∧
      ((st'.dir.split_flag = 1 ∧ st'.split_tasks = [] ++ [(5, 0)]) ↔
        ((2 : Int) + 1 ≥ 3 ∧
          giga_is_splittable
            { bitmap := 1 :: List.replicate 36 0, id := 5, curr_radix := 1, zeroth_server := 0,
              server_count := 4 } 0 = some 1 ∧ (0 : Int) = 0)) ∧
      (¬ ((2 : Int) + 1 ≥ 3 ∧
          giga_is_splittable
            { bitmap := 1 :: List.replicate 36 0, id := 5, curr_radix := 1, zeroth_server := 0,
              server_count := 4 } 0 = some 1 ∧ (0 : Int) = 0) →
        st'.dir.split_flag = 0 ∧ st'.split_tasks = []) ∧
      ((0 : Int) ≠ 0 → st'.split_tasks = []) ∧
      st'.store = () ∧ st'.mapping = none) ∧
    ∃ st', ScheduleSplit
        ({ srv_id := 0, split_threshold := 3, store := (), mapping := none,
           dir := { partition_size := 2, split_flag := 0 }, split_tasks := [] } :
          ServerState Unit)
        { bitmap := 1 :: List.replicate 36 0, id := 5, curr_radix := 1, zeroth_server := 0,
          server_count := 4 } 5 0 = some st' :=
  ⟨(schedule_split_spec
      ({ srv_id := 0, split_threshold := 3, store := (), mapping := none,
         dir := { partition_size := 2, split_flag := 0 }, split_tasks := [] } :
        ServerState Unit)
      { bitmap := 1 :: List.replicate 36 0, id := 5, curr_radix := 1, zeroth_server := 0,
        server_count := 4 } 5 0 (by decide)).1,
   (schedule_split_spec
      ({ srv_id := 0, split_threshold := 3, store := (), mapping := none,
         dir := { partition_size := 2, split_flag := 0 }, split_tasks := [] } :
        ServerState Unit)
      { bitmap := 1 :: List.replicate 36 0, id := 5, curr_radix := 1, zeroth_server := 0,
        server_count := 4 } 5 0 (by decide)).2 (Or.inr (by decide))⟩

/-- C17. Let the server hold a mapping for the directory and let the owning server of
the name, `giga_get_server_for_index` of `giga_get_index_for_file`, be `server`.  If
`server` is not this server, `Mknod` raises `ServerRedirection` carrying the current
mapping (same id, bitmap bytes, radix, zeroth server and server count) and leaves the
whole state (store, `partition_size`, `split_flag`, queue) unchanged.  If `server` is
this server, `Mknod` does not raise `ServerRedirection`. -/
theorem mknod_redirection {Store : Type} (create : Store → Nat → Int → List Nat → Int × Store)
    (murmur : List Nat → List Nat) (fuel : Nat) (st : ServerState Store)
    (dir_id : Nat) (objname : List Nat) (mapping : giga_mapping_t) (index : Nat) (server : Int)
    (hm : st.mapping = some mapping)
    (hidx : giga_get_index_for_file murmur fuel mapping objname = some index)
    (hsrv : giga_get_server_for_index mapping index = some server) :
    (server ≠ st.srv_id →
      Mknod create murmur fuel st dir_id objname =
        some (.ServerRedirection (CopyGigaMap mapping), st) ∧
      (CopyGigaMap mapping).id = mapping.id ∧
      (CopyGigaMap mapping).bitmap.length = MAX_BMAP_LEN ∧
      (∀ i, i < MAX_BMAP_LEN →
        (CopyGigaMap mapping).bitmap.getD i 0 = mapping.bitmap.getD i 0) ∧
      (CopyGigaMap mapping).curr_radix = mapping.curr_radix ∧
      (CopyGigaMap mapping).zeroth_server = mapping.zeroth_server ∧
      (CopyGigaMap mapping).num_servers = mapping.server_count) ∧
    (server = st.srv_id →
      ∀ g st', Mknod create murmur fuel st dir_id objname ≠
        some (.ServerRedirection g, st')) := by
  refine ⟨?_, ?_⟩
  · intro hne
    refine ⟨?_, rfl, by simp [CopyGigaMap], ?_, rfl, rfl, rfl⟩
    · unfold Mknod CheckAddressing
      simp only [hm, hidx, hsrv, if_pos hne]
      rfl
    · intro i hi
      simp only [CopyGigaMap, List.getD_eq_getElem?_getD, List.getElem?_map,
        List.getElem?_range hi]
      rfl
  · intro heq g st' h
    unfold Mknod CheckAddressing at h
    simp only [hm, hidx, hsrv, heq, ne_eq, not_true_eq_false, if_false] at h
    have hnn : ¬ ((index : Int) < 0) := by omega
    rw [if_neg hnn] at h
    by_cases hr : (create st.store dir_id (index : Int) objname).1 ≠ 0
    · rw [if_pos hr] at h
      simp at h
    · rw [if_neg hr] at h
      split at h <;> simp at h

theorem mknod_redirection_witness :
    ((1 : Int) ≠ 0 →
      Mknod (fun (s : Unit) _ _ _ => ((0 : Int), s)) (fun name => name) 8
        ({ srv_id := 0, split_threshold := 3, store := (),
           mapping := some { bitmap := 3 :: List.replicate 36 0, id := 5, curr_radix := 1,
                             zeroth_server := 0, server_count := 2 },
           dir := { partition_size := 2, split_flag := 0 }, split_tasks := [] } :
          ServerState Unit) 5 [128] =
        some (.ServerRedirection (CopyGigaMap
          { bitmap := 3 :: List.replicate 36 0, id := 5, curr_radix := 1,
            zeroth_server := 0, server_count := 2 }),
          { srv_id := 0, split_threshold := 3, store := (),
            mapping := some { bitmap := 3 :: List.replicate 36 0, id := 5, curr_radix := 1,
                              zeroth_server := 0, server_count := 2 },
            dir := { partition_size := 2, split_flag := 0 }, split_tasks := [] }) ∧
      (CopyGigaMap { bitmap := 3 :: List.replicate 36 0, id := 5, curr_radix := 1,
                     zeroth_server := 0, server_count := 2 }).id = 5 ∧
      (CopyGigaMap { bitmap := 3 :: List.replicate 36 0, id := 5, curr_radix := 1,
                     zeroth_server := 0, server_count := 2 }).bitmap.length = MAX_BMAP_LEN ∧
      (∀ i, i < MAX_BMAP_LEN →
        (CopyGigaMap { bitmap := 3 :: List.replicate 36 0, id := 5, curr_radix := 1,
                       zeroth_server := 0, server_count := 2 }).bitmap.getD i 0 =
          (3 :: List.replicate 36 0).getD i 0) ∧
      (CopyGigaMap { bitmap := 3 :: List.replicate 36 0, id := 5, curr_radix := 1,
                     zeroth_server := 0, server_count := 2 }).curr_radix = 1 ∧
      (CopyGigaMap { bitmap := 3 :: List.replicate 36 0, id := 5, curr_radix := 1,
                     zeroth_server := 0, server_count := 2 }).zeroth_server = 0 ∧
      (CopyGigaMap { bitmap := 3 :: List.replicate 36 0, id := 5, curr_radix := 1,
                     zeroth_server := 0, server_count := 2 }).num_servers = 2) ∧
    ((1 : Int) = 0 →
      ∀ g st', Mknod (fun (s : Unit) _ _ _ => ((0 : Int), s)) (fun name => name) 8
        ({ srv_id := 0, split_threshold := 3, store := (),
           mapping := some { bitmap := 3 :: List.replicate 36 0, id := 5, curr_radix := 1,
                             zeroth_server := 0, server_count := 2 },
           dir := { partition_size := 2, split_flag := 0 }, split_tasks := [] } :
          ServerState Unit) 5 [128] ≠ some (.ServerRedirection g, st')) :=
  mknod_redirection (fun (s : Unit) _ _ _ => ((0 : Int), s)) (fun name => name) 8
    ({ srv_id := 0, split_threshold := 3, store := (),
       mapping := some { bitmap := 3 :: List.replicate 36 0, id := 5, curr_radix := 1,
                         zeroth_server := 0, server_count := 2 },
       dir := { partition_size := 2, split_flag := 0 }, split_tasks := [] } :
      ServerState Unit) 5 [128]
    { bitmap := 3 :: List.replicate 36 0, id := 5, curr_radix := 1,
      zeroth_server := 0, server_count := 2 } 1 1 rfl (by decide) (by decide)

/-- C18. Let the handle hold a well-formed mapping and let the parent walk have fuel
for 8 tests.  If at each of the 10 attempts the server that the call addresses
answers with a `ServerRedirection` carrying a well-formed mapping, each of `Lookup`,
`RPC_Getattr`, `RPC_Mknod` and `RPC_Mkdir` issues exactly 10 RPCs, merging the returned
bitmap after each, and returns `Corruption`.  If the servers addressed at the first
`k - 1` attempts answer with such redirections and the server addressed at attempt
`k`, `k <= 10`, answers with a success, each of them returns `OK` after exactly `k`
RPCs.  Nothing is assumed about the servers that are not addressed. -/
theorem redirect_cap (srv_num : Int) (murmur : List Nat → List Nat) (fuel : Nat)
    (rpc : Nat → Int → Reply) (mapping : giga_mapping_t) (entry : List Nat)
    (hfuel : 8 ≤ fuel) (hwf : WellFormed srv_num mapping) :
    ((∀ i server, i < 10 →
        addressed srv_num murmur fuel rpc entry mapping i = some server →
        ∃ b, rpc i server = .ServerRedirection b ∧
          WellFormed srv_num (ToLegacyMapping b)) →
      (∃ run, Lookup srv_num murmur fuel rpc (some mapping) entry =
          (run.outcome, run.attempts, some run.mapping) ∧
        TenRedirections srv_num murmur fuel rpc entry mapping run) ∧
      TenRedirections srv_num murmur fuel rpc entry mapping
        (RPC_Getattr srv_num murmur fuel rpc mapping entry) ∧
      TenRedirections srv_num murmur fuel rpc entry mapping
        (RPC_Mknod srv_num murmur fuel rpc mapping entry) ∧
      TenRedirections srv_num murmur fuel rpc entry mapping
        (RPC_Mkdir srv_num murmur fuel rpc mapping entry)) ∧
    (∀ k, 1 ≤ k → k ≤ 10 →
      (∀ i server, i + 1 < k →
        addressed srv_num murmur fuel rpc entry mapping i = some server →
        ∃ b, rpc i server = .ServerRedirection b ∧
          WellFormed srv_num (ToLegacyMapping b)) →
      (∀ server, addressed srv_num murmur fuel rpc entry mapping (k - 1) = some server →
        rpc (k - 1) server = .ok) →
      ((Lookup srv_num murmur fuel rpc (some mapping) entry).1 = .returned .OK ∧
        (Lookup srv_num murmur fuel rpc (some mapping) entry).2.1 = k) ∧
      ((RPC_Getattr srv_num murmur fuel rpc mapping entry).outcome = .returned .OK ∧
        (RPC_Getattr srv_num murmur fuel rpc mapping entry).attempts = k) ∧
      ((RPC_Mknod srv_num murmur fuel rpc mapping entry).outcome = .returned .OK ∧
        (RPC_Mknod srv_num murmur fuel rpc mapping entry).attempts = k) ∧
      ((RPC_Mkdir srv_num murmur fuel rpc mapping entry).outcome = .returned .OK ∧
        (RPC_Mkdir srv_num murmur fuel rpc mapping entry).attempts = k)) := by
  refine ⟨?_, ?_⟩
  · intro hrpc
    exact ⟨⟨_, rfl, ten_redirections srv_num murmur fuel Lookup_catches rpc entry mapping
        hfuel hwf hrpc⟩,
      ten_redirections srv_num murmur fuel RPC_Getattr_catches rpc entry mapping hfuel hwf hrpc,
      ten_redirections srv_num murmur fuel RPC_Mknod_catches rpc entry mapping hfuel hwf hrpc,
      ten_redirections srv_num murmur fuel RPC_Mknod_catches rpc entry mapping hfuel hwf hrpc⟩
  · intro k hk1 hk10 hred hsucc
    exact ⟨ok_after srv_num murmur fuel Lookup_catches rpc entry mapping hfuel rfl hwf k
        hk1 hk10 hred hsucc,
      ok_after srv_num murmur fuel RPC_Getattr_catches rpc entry mapping hfuel rfl hwf k
        hk1 hk10 hred hsucc,
      ok_after srv_num murmur fuel RPC_Mknod_catches rpc entry mapping hfuel rfl hwf k
        hk1 hk10 hred hsucc,
      ok_after srv_num murmur fuel RPC_Mknod_catches rpc entry mapping hfuel rfl hwf k
        hk1 hk10 hred hsucc⟩

theorem redirect_cap_witness :
    TenRedirections 2 (fun name => name) 8
      (fun _ _ => .ServerRedirection { id := 5, bitmap := 3 :: List.replicate 36 0,
                                       curr_radix := 1, zeroth_server := 0,
                                       num_servers := 2 })
      [128]
      { bitmap := 1 :: List.replicate 36 0, id := 5, curr_radix := 1,
        zeroth_server := 0, server_count := 2 }
      (RPC_Mknod 2 (fun name => name) 8
        (fun _ _ => .ServerRedirection { id := 5, bitmap := 3 :: List.replicate 36 0,
                                         curr_radix := 1, zeroth_server := 0,
                                         num_servers := 2 })
        { bitmap := 1 :: List.replicate 36 0, id := 5, curr_radix := 1,
          zeroth_server := 0, server_count := 2 } [128]) ∧
    ((RPC_Mknod 2 (fun name => name) 8
        (fun _ server => if server = 0 then
            .ServerRedirection { id := 5, bitmap := 3 :: List.replicate 36 0,
                                 curr_radix := 1, zeroth_server := 0, num_servers := 2 }
          else .ok)
        { bitmap := 1 :: List.replicate 36 0, id := 5, curr_radix := 1,
          zeroth_server := 0, server_count := 2 } [128]).outcome = .returned .OK ∧
      (RPC_Mknod 2 (fun name => name) 8
        (fun _ server => if server = 0 then
            .ServerRedirection { id := 5, bitmap := 3 :: List.replicate 36 0,
                                 curr_radix := 1, zeroth_server := 0, num_servers := 2 }
          else .ok)
        { bitmap := 1 :: List.replicate 36 0, id := 5, curr_radix := 1,
          zeroth_server := 0, server_count := 2 } [128]).attempts = 2) :=
  ⟨((redirect_cap 2 (fun name => name) 8
      (fun _ _ => .ServerRedirection { id := 5, bitmap := 3 :: List.replicate 36 0,
                                       curr_radix := 1, zeroth_server := 0,
                                       num_servers := 2 })
      { bitmap := 1 :: List.replicate 36 0, id := 5, curr_radix := 1,
        zeroth_server := 0, server_count := 2 } [128] (by decide) wf_example_single).1
      (fun _ _ _ _ => ⟨_, rfl, wf_example_reply⟩)).2.2.1,
   ((redirect_cap 2 (fun name => name) 8
      (fun _ server => if server = 0 then
          .ServerRedirection { id := 5, bitmap := 3 :: List.replicate 36 0,
                               curr_radix := 1, zeroth_server := 0, num_servers := 2 }
        else .ok)
      { bitmap := 1 :: List.replicate 36 0, id := 5, curr_radix := 1,
        zeroth_server := 0, server_count := 2 } [128] (by decide) wf_example_single).2 2
      (by decide) (by decide)
      (fun i server hi h => by
        have hi0 : i = 0 := by omega
        subst hi0
        have hs : server = 0 := (Option.some.inj h).symm
        subst hs
        exact ⟨_, rfl, wf_example_reply⟩)
      (fun server h => by
        have hs : server = 1 := (Option.some.inj h).symm
        subst hs
        rfl)).2.2.1⟩

/-- C19 (the code at the failing input). A server that answers every attempt with a
`ServerRedirection` carrying the bitmap `{0, 1}`: for every bound on the number of
calls or iterations followed, `RPC_Chmod`, `RPC_Remove`, `RPC_Create` and `RPC_Open`
have issued that many RPCs, 11 and more among them, and have not returned. -/
theorem retries_without_cap : ∀ calls,
    ((RPC_Chmod 2 (fun name => name) 8
        (fun _ _ => .ServerRedirection { id := 5, bitmap := 3 :: List.replicate 36 0,
                                         curr_radix := 1, zeroth_server := 0,
                                         num_servers := 2 }) [128] calls
        { bitmap := 3 :: List.replicate 36 0, id := 5, curr_radix := 1,
          zeroth_server := 0, server_count := 2 }).outcome = .out_of_fuel ∧
      (RPC_Chmod 2 (fun name => name) 8
        (fun _ _ => .ServerRedirection { id := 5, bitmap := 3 :: List.replicate 36 0,
                                         curr_radix := 1, zeroth_server := 0,
                                         num_servers := 2 }) [128] calls
        { bitmap := 3 :: List.replicate 36 0, id := 5, curr_radix := 1,
          zeroth_server := 0, server_count := 2 }).attempts = calls) ∧
    ((RPC_Remove 2 (fun name => name) 8
        (fun _ _ => .ServerRedirection { id := 5, bitmap := 3 :: List.replicate 36 0,
                                         curr_radix := 1, zeroth_server := 0,
                                         num_servers := 2 }) [128] calls
        { bitmap := 3 :: List.replicate 36 0, id := 5, curr_radix := 1,
          zeroth_server := 0, server_count := 2 }).outcome = .out_of_fuel ∧
      (RPC_Remove 2 (fun name => name) 8
        (fun _ _ => .ServerRedirection { id := 5, bitmap := 3 :: List.replicate 36 0,
                                         curr_radix := 1, zeroth_server := 0,
                                         num_servers := 2 }) [128] calls
        { bitmap := 3 :: List.replicate 36 0, id := 5, curr_radix := 1,
          zeroth_server := 0, server_count := 2 }).attempts = calls) ∧
    ((RPC_Create 2 (fun name => name) 8
        (fun _ _ => .ServerRedirection { id := 5, bitmap := 3 :: List.replicate 36 0,
                                         curr_radix := 1, zeroth_server := 0,
                                         num_servers := 2 }) [128] calls 1
        { bitmap := 3 :: List.replicate 36 0, id := 5, curr_radix := 1,
          zeroth_server := 0, server_count := 2 }).outcome = .out_of_fuel ∧
      (RPC_Create 2 (fun name => name) 8
        (fun _ _ => .ServerRedirection { id := 5, bitmap := 3 :: List.replicate 36 0,
                                         curr_radix := 1, zeroth_server := 0,
                                         num_servers := 2 }) [128] calls 1
        { bitmap := 3 :: List.replicate 36 0, id := 5, curr_radix := 1,
          zeroth_server := 0, server_count := 2 }).attempts = calls) ∧
    ((RPC_Open 2 (fun name => name) 8
        (fun _ _ => .ServerRedirection { id := 5, bitmap := 3 :: List.replicate 36 0,
                                         curr_radix := 1, zeroth_server := 0,
                                         num_servers := 2 }) [128] calls
        { bitmap := 3 :: List.replicate 36 0, id := 5, curr_radix := 1,
          zeroth_server := 0, server_count := 2 }).outcome = .out_of_fuel ∧
      (RPC_Open 2 (fun name => name) 8
        (fun _ _ => .ServerRedirection { id := 5, bitmap := 3 :: List.replicate 36 0,
                                         curr_radix := 1, zeroth_server := 0,
                                         num_servers := 2 }) [128] calls
        { bitmap := 3 :: List.replicate 36 0, id := 5, curr_radix := 1,
          zeroth_server := 0, server_count := 2 }).attempts = calls) := by
  intro calls
  have hrpc : ∀ (i : Nat) (srv : Int), ∃ b,
      (fun (_ : Nat) (_ : Int) =>
        Reply.ServerRedirection { id := 5, bitmap := 3 :: List.replicate 36 0,
                                  curr_radix := 1, zeroth_server := 0,
                                  num_servers := 2 }) i srv = .ServerRedirection b ∧
      WellFormed 2 (ToLegacyMapping b) :=
    fun _ _ => ⟨_, rfl, wf_example_reply⟩
  have h1 := recursive_retry_all_redirect 2 (fun name => name) 8 RPC_Getattr_catches _ [128]
    (by decide) hrpc calls 0 _ wf_example
  have h2 := while_true_retry_all_redirect 2 (fun name => name) 8 RPC_Mknod_catches _ [128]
    (by decide) hrpc calls 0 1 _ wf_example
  have h3 := while_true_retry_all_redirect 2 (fun name => name) 8 RPC_Open_catches _ [128]
    (by decide) hrpc calls 0 1 _ wf_example
  rw [Nat.zero_add] at h1 h2 h3
  refine ⟨h1, h1, h2, ?_⟩
  have hsel : SelectServer 2 (fun name => name) 8
      { bitmap := 3 :: List.replicate 36 0, id := 5, curr_radix := 1,
        zeroth_server := 0, server_count := 2 } [128] = some 1 := by decide
  unfold RPC_Open
  rw [hsel]
  exact h3

/-- C20 (counterexample). At `now = expire_time = 1000` the cached entry is not
expired: it is followed without a `Lookup` and nothing is put into the cache. -/
theorem cached_entry_used_at_expiry :
    IsEntryExpired 1000 { inode_id := 7, zeroth_server := 0, expire_time := 1000 } = false ∧
    resolve_component 1000 (some { inode_id := 7, zeroth_server := 0, expire_time := 1000 })
      (.ok { id := 9, zeroth_server := 1, lease_time := 5000 }) =
      .ok ({ inode_id := 7, zeroth_server := 0, expire_time := 1000 }, false, none) :=
  ⟨by decide, rfl⟩

/-- C20 (amended). In path resolution a cached entry is followed without a `Lookup`
if and only if `now <= expire_time`; when `now > expire_time` the entry is treated as
expired: `Lookup` is called and, when it succeeds, its answer is followed and
cached. -/
theorem cached_entry_used_iff (now : Nat) (value : DirEntryValue)
    (lookup : Except Status AccessInfo) :
    (IsEntryExpired now value = true ↔ now > value.expire_time) ∧
    (resolve_component now (some value) lookup = .ok (value, false, none) ↔
      now ≤ value.expire_time) ∧
    (now > value.expire_time → ∀ info, lookup = .ok info →
      resolve_component now (some value) lookup =
        .ok ({ inode_id := info.id, zeroth_server := info.zeroth_server,
               expire_time := info.lease_time }, true,
             some { inode_id := info.id, zeroth_server := info.zeroth_server,
                    expire_time := info.lease_time })) ∧
    (now > value.expire_time → ∀ s, lookup = .error s →
      resolve_component now (some value) lookup = .error s) := by
  have hexp : IsEntryExpired now value = true ↔ now > value.expire_time := by
    unfold IsEntryExpired
    simp
  refine ⟨hexp, ?_, ?_, ?_⟩
  · unfold resolve_component
    dsimp only
    by_cases h : now > value.expire_time
    · rw [if_pos (hexp.2 h)]
      constructor
      · intro heq
        cases lookup with
        | error s => simp at heq
        | ok info => simp at heq
      · intro hle; omega
    · have hne : ¬ IsEntryExpired now value = true := fun he => h (hexp.1 he)
      rw [if_neg hne]
      constructor
      · intro _; omega
      · intro _; rfl
  · intro h info hl
    unfold resolve_component
    dsimp only
    rw [if_pos (hexp.2 h), hl]
  · intro h s hl
    unfold resolve_component
    dsimp only
    rw [if_pos (hexp.2 h), hl]

theorem cached_entry_used_iff_witness :
    (IsEntryExpired 2000 { inode_id := 7, zeroth_server := 0, expire_time := 1000 } = true ↔
      2000 > 1000) ∧
    (resolve_component 2000 (some { inode_id := 7, zeroth_server := 0, expire_time := 1000 })
        (.ok { id := 9, zeroth_server := 1, lease_time := 5000 }) =
        .ok ({ inode_id := 7, zeroth_server := 0, expire_time := 1000 }, false, none) ↔
      2000 ≤ 1000) ∧
    (2000 > 1000 → ∀ info, (.ok { id := 9, zeroth_server := 1, lease_time := 5000 } :
        Except Status AccessInfo) = .ok info →
      resolve_component 2000 (some { inode_id := 7, zeroth_server := 0, expire_time := 1000 })
        (.ok { id := 9, zeroth_server := 1, lease_time := 5000 }) =
        .ok ({ inode_id := info.id, zeroth_server := info.zeroth_server,
               expire_time := info.lease_time }, true,
             some { inode_id := info.id, zeroth_server := info.zeroth_server,
                    expire_time := info.lease_time })) ∧
    (2000 > 1000 → ∀ s, (.ok { id := 9, zeroth_server := 1, lease_time := 5000 } :
        Except Status AccessInfo) = .error s →
      resolve_component 2000 (some { inode_id := 7, zeroth_server := 0, expire_time := 1000 })
        (.ok { id := 9, zeroth_server := 1, lease_time := 5000 }) = .error s) :=
  cached_entry_used_iff 2000 { inode_id := 7, zeroth_server := 0, expire_time := 1000 }
    (.ok { id := 9, zeroth_server := 1, lease_time := 5000 })

/-- C21. `ResolvePath` terminates on every path: with any fuel from the length of the
path on it ends, not by running out of fuel, and with one and the same result
whatever the fuel.  It returns `InvalidArgument` for
the empty path and for a path whose first character is not `/`, without a lookup;
it resolves `/` to parent 0, zeroth server 0, entry `/` and depth 0 without a lookup;
and for a path `q/` with `q` not empty it returns exactly what it returns for `q`. -/
theorem resolve_path_contract {C : Type} (ops : DentCacheOps C)
    (lookup : Int → Nat → List Nat → Int → Except Status AccessInfo) (clock : Int → Nat)
    (path : List Nat) (cache : C) (fuel : Nat) (hfuel : path.length ≤ fuel) :
    (ResolvePath ops lookup clock fuel path cache).outcome ≠ .out_of_fuel ∧
    (∀ fuel', path.length ≤ fuel' →
      ResolvePath ops lookup clock fuel' path cache =
        ResolvePath ops lookup clock fuel path cache) ∧
    (path = [] → ResolvePath ops lookup clock fuel path cache =
      { outcome := .returned .InvalidArgument, out := none, cache := cache, lookups := 0 }) ∧
    (∀ x xs, path = x :: xs → x ≠ 47 → ResolvePath ops lookup clock fuel path cache =
      { outcome := .returned .InvalidArgument, out := none, cache := cache, lookups := 0 }) ∧
    (path = [47] → ResolvePath ops lookup clock fuel path cache =
      { outcome := .returned .OK,
        out := some { parent := 0, zeroth_server := 0, entry := [47], depth := 0 },
        cache := cache, lookups := 0 }) ∧
    (∀ q, q ≠ [] → path = q ++ [47] →
      ResolvePath ops lookup clock fuel path cache =
        ResolvePath ops lookup clock fuel q cache) := by
  have hmain := ResolvePath_fuel ops lookup clock fuel path cache fuel hfuel (le_refl _)
  refine ⟨hmain.2, ?_, ?_, ?_, ?_, ?_⟩
  · intro fuel' hfuel'
    exact (ResolvePath_fuel ops lookup clock path.length path cache fuel' (le_refl _)
      hfuel').1.trans
      (ResolvePath_fuel ops lookup clock path.length path cache fuel (le_refl _) hfuel).1.symm
  · intro hp
    subst hp
    cases fuel <;> rfl
  · intro x xs hp hx
    subst hp
    have h1 : (x :: xs).take 1 ≠ [47] := by simpa using hx
    cases fuel with
    | zero => simp at hfuel
    | succ f =>
      rw [ResolvePath_succ]
      simp only [ResolvePath_body, List.length_cons, Nat.add_one_ne_zero, if_false, if_pos h1]
  · intro hp
    subst hp
    cases fuel <;> rfl
  · intro q hq hp
    subst hp
    have hlen : 1 ≤ q.length := by
      cases q with
      | nil => exact absurd rfl hq
      | cons y ys => simp
    have hl : (q ++ [47]).length = q.length + 1 := by simp
    cases fuel with
    | zero => rw [hl] at hfuel; omega
    | succ f =>
      rw [hl] at hfuel
      have hq1 := ResolvePath_fuel ops lookup clock q.length q cache f (le_refl _) (by omega)
      have hq2 := ResolvePath_fuel ops lookup clock q.length q cache (f + 1) (le_refl _)
        (by omega)
      rw [hq2.1, ← hq1.1, ResolvePath_succ]
      by_cases h1 : (q ++ [47]).take 1 ≠ [47]
      · have h1q : q.take 1 ≠ [47] := by
          cases q with
          | nil => exact absurd rfl hq
          | cons y ys => simpa using h1
        have hq0 : q.length ≠ 0 := by omega
        simp only [ResolvePath_body, hl, Nat.add_one_ne_zero, if_false, if_pos h1]
        cases f with
        | zero =>
          rw [ResolvePath_zero]
          simp only [ResolvePath_body, if_neg hq0, if_pos h1q]
        | succ g =>
          rw [ResolvePath_succ]
          simp only [ResolvePath_body, if_neg hq0, if_pos h1q]
      · have h2 : ¬ q.length + 1 = 1 := by omega
        have h3 : ((q ++ [47]).drop (q.length + 1 - 1)).take 1 = [47] := by simp
        have h4 : (q ++ [47]).take (q.length + 1 - 1) = q := by simp
        simp only [ResolvePath_body, hl, Nat.add_one_ne_zero, if_false, if_neg h1, if_neg h2,
          if_pos h3, h4]

theorem resolve_path_contract_witness :
    [47, 97, 47].length ≤ 3 ∧
    ResolvePath (C := Unit) { Get := fun c _ _ => (none, c), Put := fun c _ _ _ => c }
        (fun _ _ _ _ => .ok { id := 7, zeroth_server := 1, lease_time := 0 }) (fun _ => 0)
        3 [47, 97, 47] () =
      ResolvePath (C := Unit) { Get := fun c _ _ => (none, c), Put := fun c _ _ _ => c }
        (fun _ _ _ _ => .ok { id := 7, zeroth_server := 1, lease_time := 0 }) (fun _ => 0)
        3 [47, 97] () :=
  ⟨by decide,
   (resolve_path_contract (C := Unit)
      { Get := fun c _ _ => (none, c), Put := fun c _ _ _ => c }
      (fun _ _ _ _ => .ok { id := 7, zeroth_server := 1, lease_time := 0 }) (fun _ => 0)
      [47, 97, 47] () 3 (by decide)).2.2.2.2.2 [47, 97] (by decide) rfl⟩

/-- C22, counterexample. On an empty cache, one `Get` of directory 5 followed by the
matching `Release` leaves directory 5 in the table, bound to the block at address 0
whose count is 1, not 0: `Directory()` starts the count at 1 and `Get` increments it. -/
theorem dircache_release_keeps_block :
    (run_calls 5 [.Get, .Release] DirCache.new [] []).map
        (fun r => (r.1.dirs (5 &&& (kNumShards - 1)) 5,
                   (r.1.heap 0).map (fun b => b.refcount), r.2.1, r.2.2)) =
      some (some 0, some 1, [], [0]) := by
  decide

/-- C22, amended. Let the directory be absent from the table.  Any sequence of `Get`
and matching `Release` calls with at least one and fewer than `2^15 - 1` `Get`s runs
to its end; every `Get` returns the same block (the one allocated by the first);
afterwards the directory is in the table, bound to that block, whose count is one
more than the number of `Get`s not yet released (so 1, never 0, once every `Get` is
released), and a later `Get` returns the same block again. -/
theorem dircache_refcount (c : DirCache) (dir_id : Nat) (calls : List DirCacheCall)
    (habsent : c.dirs (dir_id &&& (kNumShards - 1)) dir_id = none)
    (hmatch : matching_calls calls 0 = true)
    (hsome : 1 ≤ calls.count .Get) (hbound : calls.count .Get < 2 ^ 15 - 1) :
    ∃ c2 held got b, run_calls dir_id calls c [] [] = some (c2, held, got) ∧
      got.length = calls.count .Get ∧ (∀ q ∈ got, q = c.next) ∧
      held.length + calls.count .Release = calls.count .Get ∧
      c2.dirs (dir_id &&& (kNumShards - 1)) dir_id = some c.next ∧
      c2.heap c.next = some b ∧ b.refcount = 1 + (held.length : Int) ∧
      ∃ c3, c2.Get dir_id = some (c.next, c3) := by
  cases calls with
  | nil => simp at hsome
  | cons call cs =>
    cases call with
    | Release => simp [matching_calls] at hmatch
    | Get =>
      simp only [List.count_cons_self] at hbound
      obtain ⟨c1, hc1⟩ : ∃ c1 : DirCache, c1 =
          { dirs := fun s k =>
              if s = dir_id &&& (kNumShards - 1) ∧ k = dir_id then some c.next
              else c.dirs s k
            heap := fun a =>
              if a = c.next then
                some { DirectoryBlock.new with
                  refcount := to_short (DirectoryBlock.new.refcount + 1) }
              else c.heap a
            next := c.next + 1 } := ⟨_, rfl⟩
      have hget : c.Get dir_id = some (c.next, c1) := by
        unfold DirCache.Get
        simp only [habsent, hc1]
      obtain ⟨c2, held2, got2, b2, hrun, _, h2, h3, h4, h5, h6, h7, _⟩ :=
        run_calls_held dir_id c.next cs c1 [c.next] ([] ++ [c.next])
          { DirectoryBlock.new with refcount := to_short (DirectoryBlock.new.refcount + 1) }
          (by simp) (by simp [hc1]) (by simp [hc1])
          (by
            rw [to_short_small _ (by simp [DirectoryBlock.new])
              (by simp [DirectoryBlock.new])]
            simp [DirectoryBlock.new])
          (by simpa [matching_calls] using hmatch)
          (by simp only [List.length_singleton]; omega)
      refine ⟨c2, held2, [c.next] ++ got2, b2, ?_, ?_, ?_, ?_, h5, h6, h7, ?_⟩
      · simp only [run_calls, hget]
        rw [hrun]
        simp
      · simp only [List.length_append, List.length_singleton, List.count_cons_self, h3]
        omega
      · intro q hq
        rcases List.mem_append.mp hq with h | h
        · simpa using h
        · exact h2 q h
      · simp only [List.length_singleton] at h4
        simp only [List.count_cons_self]
        have : List.count DirCacheCall.Release (DirCacheCall.Get :: cs) =
            List.count DirCacheCall.Release cs := by
          simp [List.count_cons]
        rw [this]
        omega
      · unfold DirCache.Get
        simp only [h5, h6]
        exact ⟨_, rfl⟩

theorem dircache_refcount_witness :
    ∃ c2 held got b, run_calls 5 [.Get, .Get, .Release, .Release] DirCache.new [] [] =
        some (c2, held, got) ∧
      got.length = [DirCacheCall.Get, .Get, .Release, .Release].count .Get ∧
      (∀ q ∈ got, q = DirCache.new.next) ∧
      held.length + [DirCacheCall.Get, .Get, .Release, .Release].count .Release =
        [DirCacheCall.Get, .Get, .Release, .Release].count .Get ∧
      c2.dirs (5 &&& (kNumShards - 1)) 5 = some DirCache.new.next ∧
      c2.heap DirCache.new.next = some b ∧ b.refcount = 1 + (held.length : Int) ∧
      ∃ c3, c2.Get 5 = some (DirCache.new.next, c3) :=
  dircache_refcount DirCache.new 5 [.Get, .Get, .Release, .Release] rfl (by decide)
    (by decide) (by decide)

/-- C23. `reverse_bits(1, 1)` is 128, not the 1-bit reversal 1: the shift count uses
`sizeof(uint8_t)`, which is 1, where the 8 bits of a byte are meant.  On the mapping
with partitions 0 and 1 (radix 1, two servers), when the server of partition `p`
answers a scan with the single name `p` and the unchanged bitmap, `Readdir` returns
`OK` after a single RPC, for partition 0: partition 1, whose bit is set, is never
scanned, and its name is missing from the result.  At every radix `r` from 1 to 7
no index `i < 2^r` is sent to partition `2^r - 1`. -/
theorem readdir_skips_partition_one :
    reverse_bits 0 1 = some 0 ∧ reverse_bits 1 1 = some 128 ∧
    get_bit_status (3 :: List.replicate 36 0) 1 = 1 ∧
    Readdir (fun _ _ p _ => .ok { entries := [[p]], end_key := [], more_entries := 0,
                                  mapping := { id := 5, bitmap := 3 :: List.replicate 36 0,
                                               curr_radix := 1, zeroth_server := 0,
                                               num_servers := 2 } }) 4
        (some { bitmap := 3 :: List.replicate 36 0, id := 5, curr_radix := 1,
                zeroth_server := 0, server_count := 2 }) =
      (.returned .OK,
       some { start_key := [], result := [[0]],
              mapping := { bitmap := 3 :: List.replicate 36 0, id := 5, curr_radix := 1,
                           zeroth_server := 0, server_count := 2 },
              probes := [(0, 0)] }) ∧
    ∀ r < 8, 1 ≤ r → ∀ i < 2 ^ r, reverse_bits i r ≠ some (2 ^ r - 1) := by
  refine ⟨by decide, by decide, by decide, by decide, ?_⟩
  set_option maxRecDepth 100000 in decide

/-- C26 (the code on the claimed inputs). `SanityCheck` throws when its condition
holds, and `Rename` passes it `dst_id == src_id` and `dst_index >= 0`.  So a rename
inside one directory raises `FileNotInSameServer` at once; and whenever the source
exists and source and destination both address to this server, `Rename` raises
`FileNotInSameServer` and leaves the store as it was (nothing is created or removed),
unless it blocks on the lock of a directory entry. -/
theorem rename_same_server_refused {Store : Type}
    (getattr : Store → Nat → Int → List Nat → Option StatInfo)
    (create_entry : Store → Nat → Int → List Nat → StatInfo → Int × Store)
    (remove : Store → Nat → Int → List Nat → Int × Store)
    (murmur : List Nat → List Nat) (fuel : Nat) (st : ServerState Store)
    (cached : Option ServerDirEntryValue) (now : Nat)
    (src_id : Nat) (src_path : List Nat) (dst_id : Nat) (dst_path : List Nat) :
    Rename getattr create_entry remove murmur fuel st cached now src_id src_path src_id
        dst_path = some (.replied .FileNotInSameServer st.store cached) ∧
    ∀ mapping index dst_index info, st.mapping = some mapping →
      CheckAddressing st.srv_id murmur fuel mapping src_path = some index → 0 ≤ index →
      CheckAddressing st.srv_id murmur fuel mapping dst_path = some dst_index →
      0 ≤ dst_index →
      getattr st.store src_id index src_path = some info →
      (Rename getattr create_entry remove murmur fuel st cached now src_id src_path dst_id
          dst_path = some .waiting ∧
        info.is_dir = true ∧ WriteLockDirEntry cached now = .waiting) ∨
      ∃ dent, Rename getattr create_entry remove murmur fuel st cached now src_id src_path
          dst_id dst_path = some (.replied .FileNotInSameServer st.store dent) := by
  refine ⟨by simp [Rename], ?_⟩
  intro mapping index dst_index info hm hsrc hidx hdst hdidx hget
  by_cases hid : dst_id = src_id
  · exact Or.inr ⟨cached, by simp [Rename, hid]⟩
  · have hentry : Rename_entry create_entry remove murmur fuel st mapping index info
        src_id src_path dst_id dst_path = some (.FileNotInSameServer, st.store) := by
      unfold Rename_entry
      simp only [hdst, if_pos (ge_iff_le.mpr hdidx)]
    unfold Rename
    simp only [if_neg hid, hm, hsrc, if_neg (not_lt.mpr hidx), hget, hentry]
    by_cases hdir : info.is_dir = true
    · simp only [hdir, if_true]
      cases hl : WriteLockDirEntry cached now with
      | waiting => exact Or.inl ⟨rfl, trivial, rfl⟩
      | locked value sleep => exact Or.inr ⟨_, rfl⟩
    · simp only [hdir, if_false]
      exact Or.inr ⟨_, rfl⟩

theorem rename_same_server_refused_witness :
    ∃ dent,
      Rename (fun (_ : Unit) _ _ _ => some { id := 7, zeroth_server := 0, is_dir := false })
          (fun s _ _ _ _ => (0, s)) (fun s _ _ _ => (0, s)) (fun name => name) 8
          { srv_id := 0, split_threshold := 2048, store := (),
            mapping := some { bitmap := 1 :: List.replicate 36 0, id := 5, curr_radix := 0,
                              zeroth_server := 0, server_count := 1 },
            dir := { partition_size := 1, split_flag := 0 }, split_tasks := [] }
          none 1000 5 [100] 6 [101] = some (.replied .FileNotInSameServer () dent) :=
  ((rename_same_server_refused
      (fun (_ : Unit) _ _ _ => some { id := 7, zeroth_server := 0, is_dir := false })
      (fun s _ _ _ _ => (0, s)) (fun s _ _ _ => (0, s)) (fun name => name) 8
      { srv_id := 0, split_threshold := 2048, store := (),
        mapping := some { bitmap := 1 :: List.replicate 36 0, id := 5, curr_radix := 0,
                          zeroth_server := 0, server_count := 1 },
        dir := { partition_size := 1, split_flag := 0 }, split_tasks := [] }
      none 1000 5 [100] 6 [101]).2
    { bitmap := 1 :: List.replicate 36 0, id := 5, curr_radix := 0,
      zeroth_server := 0, server_count := 1 }
    0 0 { id := 7, zeroth_server := 0, is_dir := false }
    rfl (by decide) (by decide) (by decide) (by decide) rfl).resolve_left
    (fun h => absurd h.2.1 (by decide))

/-- C27 (the code on the claimed inputs). Let `Access` have succeeded for an entry
with inode `info.id` (not the placeholder `-1`), leaving `value` in the cache, and let
a following `Remove` of the entry have replied `ok`.  Then the entry is still cached,
and the next `Access` replies with the removed entry's cached inode and zeroth server
whatever the store holds (also when `Getattr` would fail, `stat = none`): `Remove`
ends with the `TODO` of cleaning up the cache, and `Access` reads the store only for
an entry that is not cached or holds the placeholder. -/
theorem access_after_remove_uses_cache {Store : Type}
    (getattr : Store → Nat → Int → List Nat → Option StatInfo)
    (remove : Store → Nat → Int → List Nat → Int × Store)
    (murmur : List Nat → List Nat) (fuel : Nat) (st : ServerState Store)
    (now : Nat) (dir_id : Nat) (objname : List Nat)
    (cached : Option ServerDirEntryValue) (stat : Option StatInfo) (now_wait0 now0 : Nat)
    (lease_time0 : Int) (info : AccessInfo) (value : ServerDirEntryValue)
    (store : Store) (dent : Option ServerDirEntryValue)
    (hacc : Access_entry cached stat now_wait0 now0 lease_time0 = .done info value)
    (hid : info.id ≠ 2 ^ 64 - 1) (hzs : info.zeroth_server ≠ -1)
    (hrem : Remove getattr remove murmur fuel st (some value) now dir_id objname =
      some (.replied .ok store dent)) :
    ∀ stat1 now_wait1 now1 lease_time1, ∃ granted value1,
      Access_entry dent stat1 now_wait1 now1 lease_time1 =
        .done { id := info.id, zeroth_server := info.zeroth_server, lease_time := granted }
          value1 := by
  obtain ⟨h1, h2, h3⟩ := access_done_value cached stat now_wait0 now0 lease_time0 info value hacc
  obtain ⟨value2, hd, g1, g2, g3⟩ :=
    remove_keeps_entry getattr remove murmur fuel st value now dir_id objname .ok store dent
      h3 hrem
  intro stat1 now_wait1 now1 lease_time1
  subst hd
  have hid2 : ¬ (value2.inode_id = 2 ^ 64 - 1 ∨ value2.zeroth_server = -1) := by
    rw [g1, g2, h1, h2]
    exact not_or.mpr ⟨hid, hzs⟩
  unfold Access_entry
  simp only [g3, reduceCtorEq, false_and, if_false, if_neg hid2]
  rw [g1, g2, h1, h2]
  exact ⟨_, _, rfl⟩

theorem access_after_remove_uses_cache_witness :
    ∃ granted value1,
      Access_entry
          (some { inode_id := 7, zeroth_server := 1, expire_time := 2000000,
                  status := .LEASE_READ_STATUS })
          none 3000000 3000000 0 =
        .done { id := 7, zeroth_server := 1, lease_time := granted } value1 :=
  @access_after_remove_uses_cache Unit
    (fun _ _ _ _ => some { id := 7, zeroth_server := 1, is_dir := true })
    (fun s _ _ _ => (0, s)) (fun name => name) 8
    { srv_id := 0, split_threshold := 2048, store := (),
      mapping := some { bitmap := 1 :: List.replicate 36 0, id := 5, curr_radix := 0,
                        zeroth_server := 0, server_count := 1 },
      dir := { partition_size := 1, split_flag := 0 }, split_tasks := [] }
    2500000 5 [100] none (some { id := 7, zeroth_server := 1, is_dir := true })
    1000000 1000000 0
    { id := 7, zeroth_server := 1, lease_time := 2000000 }
    { inode_id := 7, zeroth_server := 1, expire_time := 2000000,
      status := .LEASE_READ_STATUS }
    ()
    (some { inode_id := 7, zeroth_server := 1, expire_time := 2000000,
            status := .LEASE_READ_STATUS })
    (by decide) (by decide) (by decide) rfl none 3000000 3000000 0

/-- C28 (the code on the claimed inputs). Let the child of the split live on another
server, let `Extract` return `ret > 0`, and let the `InsertSplit` RPC fail.
`InsertSplitRemote` logs the exception and returns nothing, so `Split` goes on as
after a success: the mapping of the parent gets the bit of the child, the new bitmap
is written to the store and sent to the zeroth server, `partition_size` drops by
`ret` and `split_flag` is cleared; the state left is the one left when the RPC
succeeds. -/
theorem split_ignores_insert_failure {Store : Type}
    (extract : Store → Nat → Nat → Nat → Int × Store)
    (update_bitmap : Store → Nat → giga_mapping_t → Int × Store)
    (extract_clean : Store → Store) (update_ok : Bool)
    (st : ServerState Store) (dir_id parent : Nat)
    (mapping mapping' : giga_mapping_t) (child : Nat) (child_srv : Int)
    (hm : st.mapping = some mapping)
    (hc : giga_index_for_splitting mapping parent = some child)
    (hs : giga_get_server_for_index mapping child = some child_srv)
    (hne : st.srv_id ≠ child_srv)
    (hret : 0 < (extract st.store dir_id parent child).1)
    (hup : giga_update_mapping mapping child = some mapping')
    (hsize : -(2 ^ 31) ≤ st.dir.partition_size - (extract st.store dir_id parent child).1 ∧
      st.dir.partition_size - (extract st.store dir_id parent child).1 < 2 ^ 31) :
    ∃ run run_ok,
      Split extract update_bitmap extract_clean false update_ok st dir_id parent = some run ∧
      Split extract update_bitmap extract_clean true update_ok st dir_id parent = some run_ok ∧
      SplitError.InsertSplitRemote ∈ run.log ∧
      run.insert_split_calls = [(child_srv, parent, child)] ∧
      run.state.mapping = some mapping' ∧
      get_bit_status mapping.bitmap child = 0 ∧ get_bit_status mapping'.bitmap child = 1 ∧
      run.state.store =
        extract_clean (update_bitmap (extract st.store dir_id parent child).2 dir_id mapping').2 ∧
      run.update_bitmap_calls = [(mapping'.zeroth_server, CopyGigaMap mapping')] ∧
      run.state.dir = { partition_size :=
                          st.dir.partition_size - (extract st.store dir_id parent child).1,
                        split_flag := 0 } ∧
      run_ok.state.mapping = run.state.mapping ∧ run_ok.state.store = run.state.store ∧
      run_ok.state.dir = run.state.dir := by
  obtain ⟨_, r, _, _, _, hzero, _⟩ := index_for_splitting_some mapping parent child hc
  obtain ⟨hlt, hbm, _⟩ := update_mapping_some mapping mapping' child hup
  have hone : get_bit_status mapping'.bitmap child = 1 := by
    rw [hbm]
    exact (set_bit_status mapping.bitmap child hlt child).2 (Or.inr rfl)
  refine ⟨_, _,
    split_remote_eq extract update_bitmap extract_clean false update_ok st dir_id parent
      mapping mapping' child child_srv hm hc hs hne hret hup hsize,
    split_remote_eq extract update_bitmap extract_clean true update_ok st dir_id parent
      mapping mapping' child child_srv hm hc hs hne hret hup hsize,
    ?_, rfl, rfl, hzero, hone, rfl, rfl, rfl, rfl, rfl, rfl⟩
  simp only [InsertSplitRemote, UpdateBitmapRemote]
  split <;> split <;> simp

theorem split_ignores_insert_failure_witness :
    ∃ run : SplitRun Unit,
      Split (fun s _ _ _ => (3, s)) (fun s _ _ => (0, s)) (fun s => s) false true
          { srv_id := 0, split_threshold := 2, store := (),
            mapping := some { bitmap := 1 :: List.replicate 36 0, id := 5, curr_radix := 1,
                              zeroth_server := 0, server_count := 2 },
            dir := { partition_size := 3, split_flag := 1 }, split_tasks := [] } 5 0 =
        some run ∧
      SplitError.InsertSplitRemote ∈ run.log ∧
      run.state.mapping = some { bitmap := 3 :: List.replicate 36 0, id := 5, curr_radix := 1,
                                 zeroth_server := 0, server_count := 2 } :=
  (@split_ignores_insert_failure Unit (fun s _ _ _ => (3, s)) (fun s _ _ => (0, s))
      (fun s => s) true
      { srv_id := 0, split_threshold := 2, store := (),
        mapping := some { bitmap := 1 :: List.replicate 36 0, id := 5, curr_radix := 1,
                          zeroth_server := 0, server_count := 2 },
        dir := { partition_size := 3, split_flag := 1 }, split_tasks := [] } 5 0
      { bitmap := 1 :: List.replicate 36 0, id := 5, curr_radix := 1,
        zeroth_server := 0, server_count := 2 }
      { bitmap := 3 :: List.replicate 36 0, id := 5, curr_radix := 1,
        zeroth_server := 0, server_count := 2 }
      1 1 rfl (by decide) (by decide) (by decide) (by decide) (by decide)
      (by decide)).elim
    (fun run h => h.elim (fun _ h2 => ⟨run, h2.1, h2.2.2.1, h2.2.2.2.2.1⟩))

/-- C29. Let `1 <= n < 2^32` (an `unsigned int`) and let the zeroth server be one of
the `n` servers, `zeroth_server < n`.  In every mapping reached from
`giga_init_mapping` by splits that `giga_is_splittable` allows, every set partition is
below `n`; two different set partitions have different servers; and the split target
of a splittable set partition has another server than the partition. -/
theorem split_policy_distinct_servers (flag id : Int) (zeroth_server n : Nat)
    (m : giga_mapping_t) (hn : 1 ≤ n) (hn32 : n < 2 ^ 32) (hz : zeroth_server < n)
    (hr : SplitReachable flag id zeroth_server n m) :
    (∀ i, get_bit_status m.bitmap i = 1 → i < n) ∧
    (∀ i j, get_bit_status m.bitmap i = 1 → get_bit_status m.bitmap j = 1 → i ≠ j →
      ∃ si sj, giga_get_server_for_index m i = some si ∧
        giga_get_server_for_index m j = some sj ∧ si ≠ sj) ∧
    (∀ p c, get_bit_status m.bitmap p = 1 → giga_is_splittable m p = some 1 →
      giga_index_for_splitting m p = some c →
      ∃ sp sc, giga_get_server_for_index m p = some sp ∧
        giga_get_server_for_index m c = some sc ∧ sp ≠ sc) := by
  obtain ⟨hzs, hcount, hbits⟩ := reachable_bits_lt flag id zeroth_server n hn m hr
  by_cases h31 : n < 2 ^ 31
  · have hwrap : m.zeroth_server + m.server_count ≤ 2 ^ 32 := by rw [hzs, hcount]; omega
    refine ⟨hbits, ?_, ?_⟩
    · intro i j hi hj hij
      exact servers_differ m i j (by rw [hcount]; exact hbits i hi)
        (by rw [hcount]; exact hbits j hj) hwrap hij
    · intro p c hp hs hc
      have hclt := splittable_target_lt m p c hs hc
      obtain ⟨_, r, _, _, _, hzero, _⟩ := index_for_splitting_some m p c hc
      have hne : p ≠ c := by
        intro h
        rw [h, hzero] at hp
        exact absurd hp (by decide)
      exact servers_differ m p c (by rw [hcount]; exact hbits p hp) hclt hwrap hne
  · have hsingle := (reachable_single_of_large flag id zeroth_server n (by omega) hn32 m hr).2
    refine ⟨hbits, ?_, ?_⟩
    · intro i j hi hj hij
      exact absurd ((hsingle i hi).trans (hsingle j hj).symm) hij
    · intro p c _ hs _
      exact absurd hs (not_splittable_of_large m p (by rw [hcount]; omega)
        (by rw [hcount]; exact hn32))

theorem split_policy_distinct_servers_witness :
    (∀ i, get_bit_status (3 :: List.replicate 36 0) i = 1 → i < 2) ∧
    ∃ si sj,
      giga_get_server_for_index
        { bitmap := 3 :: List.replicate 36 0, id := 5, curr_radix := 1,
          zeroth_server := 1, server_count := 2 } 0 = some si ∧
      giga_get_server_for_index
        { bitmap := 3 :: List.replicate 36 0, id := 5, curr_radix := 1,
          zeroth_server := 1, server_count := 2 } 1 = some sj ∧ si ≠ sj :=
  ⟨(split_policy_distinct_servers (-1) 5 1 2
      { bitmap := 3 :: List.replicate 36 0, id := 5, curr_radix := 1,
        zeroth_server := 1, server_count := 2 }
      (by decide) (by decide) (by decide)
      (.split { bitmap := 1 :: List.replicate 36 0, id := 5, curr_radix := 1,
                zeroth_server := 1, server_count := 2 } _ 0 1
        (.init _ (by decide)) (by decide) (by decide) (by decide) (by decide))).1,
   (split_policy_distinct_servers (-1) 5 1 2
      { bitmap := 3 :: List.replicate 36 0, id := 5, curr_radix := 1,
        zeroth_server := 1, server_count := 2 }
      (by decide) (by decide) (by decide)
      (.split { bitmap := 1 :: List.replicate 36 0, id := 5, curr_radix := 1,
                zeroth_server := 1, server_count := 2 } _ 0 1
        (.init _ (by decide)) (by decide) (by decide) (by decide) (by decide))).2.1 0 1
      (by decide) (by decide) (by decide)⟩

/-- C30. Let `Access` find a cached entry and proceed to its reply (it does not block
and throws nothing); the clock values and `expire_time` are 64-bit.  Then the
`expire_time` of the entry is not decreased.  If the entry is in write status, the
clock read in the wait loop satisfies `now + epsilon <= expire_time`, the lease
granted is `expire_time - now` (modulo `2^64`), so that `granted_until = now + lease`
is the stored `expire_time`, and `expire_time` is left unchanged. -/
theorem access_write_status_keeps_lease (value : ServerDirEntryValue) (stat : Option StatInfo)
    (now_wait now : Nat) (lease_time : Int) (info : AccessInfo) (value' : ServerDirEntryValue)
    (hexp : value.expire_time < 2 ^ 64) (hnow : now < 2 ^ 64)
    (hnw : now_wait + kTimeEpsilon < 2 ^ 64)
    (h : Access_entry (some value) stat now_wait now lease_time = .done info value') :
    value.expire_time ≤ value'.expire_time ∧
    (value.status = .LEASE_WRITE_STATUS →
      now_wait + kTimeEpsilon ≤ value.expire_time ∧
      info.lease_time = (now + (value.expire_time + 2 ^ 64 - now) % 2 ^ 64) % 2 ^ 64 ∧
      info.lease_time = value.expire_time ∧
      value'.expire_time = value.expire_time) := by
  have hmod : (now_wait + kTimeEpsilon) % 2 ^ 64 = now_wait + kTimeEpsilon :=
    Nat.mod_eq_of_lt hnw
  have key : ∀ (v : ServerDirEntryValue) (i : Nat) (z : Int),
      AccessResult.done { id := i, zeroth_server := z,
                          lease_time := (Access_lease v now lease_time).1 }
        (Access_lease v now lease_time).2 = .done info value' →
      v.expire_time = value.expire_time → v.status = value.status →
      value.expire_time ≤ value'.expire_time ∧
      (value.status = .LEASE_WRITE_STATUS →
        info.lease_time = (now + (value.expire_time + 2 ^ 64 - now) % 2 ^ 64) % 2 ^ 64 ∧
        info.lease_time = value.expire_time ∧ value'.expire_time = value.expire_time) := by
    intro v i z hd hve hvs
    simp only [AccessResult.done.injEq] at hd
    obtain ⟨h1, h2⟩ := hd
    subst h1 h2
    obtain ⟨a1, a2⟩ := access_lease_expire v now lease_time
    rw [hve, hvs] at a2
    rw [hve] at a1
    exact ⟨a1, fun hw => a2 hw hexp hnow⟩
  unfold Access_entry at h
  simp only [hmod] at h
  split at h
  · cases h
  · rename_i hwait
    have hbound : value.status = .LEASE_WRITE_STATUS →
        now_wait + kTimeEpsilon ≤ value.expire_time := by
      intro hw
      by_contra hc
      exact hwait ⟨hw, by omega⟩
    split at h
    · split at h
      · cases h
      · obtain ⟨k1, k2⟩ := key _ _ _ h rfl rfl
        exact ⟨k1, fun hw => ⟨hbound hw, k2 hw⟩⟩
    · obtain ⟨k1, k2⟩ := key _ _ _ h rfl rfl
      exact ⟨k1, fun hw => ⟨hbound hw, k2 hw⟩⟩

theorem access_write_status_keeps_lease_witness :
    Access_entry
        (some { inode_id := 7, zeroth_server := 1, expire_time := 5000000,
                status := .LEASE_WRITE_STATUS })
        none 1000000 1000002 0 =
      .done { id := 7, zeroth_server := 1, lease_time := 5000000 }
        { inode_id := 7, zeroth_server := 1, expire_time := 5000000,
          status := .LEASE_READ_STATUS } ∧
    1000000 + kTimeEpsilon ≤ 5000000 ∧
    (5000000 : Nat) = (1000002 + (5000000 + 2 ^ 64 - 1000002) % 2 ^ 64) % 2 ^ 64 :=
  ⟨by decide,
   ((access_write_status_keeps_lease
      { inode_id := 7, zeroth_server := 1, expire_time := 5000000,
        status := .LEASE_WRITE_STATUS }
      none 1000000 1000002 0
      { id := 7, zeroth_server := 1, lease_time := 5000000 }
      { inode_id := 7, zeroth_server := 1, expire_time := 5000000,
        status := .LEASE_READ_STATUS }
      (by decide) (by decide) (by decide) (by decide)).2 rfl).1,
   ((access_write_status_keeps_lease
      { inode_id := 7, zeroth_server := 1, expire_time := 5000000,
        status := .LEASE_WRITE_STATUS }
      none 1000000 1000002 0
      { id := 7, zeroth_server := 1, lease_time := 5000000 }
      { inode_id := 7, zeroth_server := 1, expire_time := 5000000,
        status := .LEASE_READ_STATUS }
      (by decide) (by decide) (by decide) (by decide)).2 rfl).2.1⟩

end GigaIndex
